import Mathlib

/-!
Shallow embedding of the toy-forumhub comment-threading and counter-consistency
engine (app/service and app/storage), used to check the natural-language
specification against the code.

Tables are embedded as lists of row structures appended in insertion order;
SQLAlchemy `query(...).filter(...).first()` becomes `List.find?` over the same
filter, and an ORM in-place mutation of the first matching row becomes
`updateFirst`.  Timestamps are a logical clock (`DB.clock`) bumped whenever the
code calls `now_utc8()` to stamp a row, and UUID generation is a counter
(`DB.nextId`).  Enum columns are stored as their integer codes, exactly as the
`TINYINT` columns in the models.  Counters are `Int` updated with
`max (v + step) 0`, matching the Python `max(new_value, 0)`.
-/

namespace ForumHub

/-- Comment display status codes (app/models/comment.py CommentStatus). -/
def CommentStatus.NORMAL : Nat := 0

/-- Folded display status. -/
def CommentStatus.FOLDED : Nat := 1

/-- Review status codes (app/models/comment.py ReviewStatus). -/
def ReviewStatus.PENDING : Nat := 0

/-- Review approved. -/
def ReviewStatus.APPROVED : Nat := 1

/-- Review rejected. -/
def ReviewStatus.REJECTED : Nat := 2

/-- Like target type codes (app/models/like.py LikeTargetType). -/
def LikeTargetType.POST : Nat := 0

/-- Like target: a comment. -/
def LikeTargetType.COMMENT : Nat := 1

/-- Post enums (app/models/post.py), only the codes the comment/like flows read. -/
def PostVisibility.PUBLIC : Nat := 0

/-- Post publish status: published. -/
def PostPublishStatus.PUBLISHED : Nat := 1

/-- Post review status: approved. -/
def PostReviewStatus.APPROVED : Nat := 1

/-- Row of the users table (fields read by the flows under study). -/
structure UserRow where
  uid : Nat
  deleted_at : Option Nat
deriving DecidableEq, Repr

/-- Row of the posts table (fields read by viewer_get_post_by_pid). -/
structure PostRow where
  pid : Nat
  publish_status : Nat
  review_status : Nat
  visibility : Nat
  deleted_at : Option Nat
deriving DecidableEq, Repr

/-- Row of the comments table (app/models/comment.py). -/
structure CommentRow where
  cid : Nat
  post_id : Nat
  author_id : Nat
  parent_id : Option Nat
  root_id : Option Nat
  comment_count : Int
  like_count : Int
  status : Nat
  review_status : Nat
  reviewed_at : Option Nat
  created_at : Nat
  deleted_at : Option Nat
deriving DecidableEq, Repr

/-- Row of the comment_contents table. -/
structure CommentContentRow where
  comment_id : Nat
  content : String
deriving DecidableEq, Repr

/-- Row of the post_stats table. -/
structure PostStatsRow where
  post_id : Nat
  like_count : Int
  comment_count : Int
deriving DecidableEq, Repr

/-- Row of the user_stats table. -/
structure UserStatsRow where
  user_id : Nat
  following_count : Int
  followers_count : Int
deriving DecidableEq, Repr

/-- Row of the likes table. -/
structure LikeRow where
  lid : Nat
  user_id : Nat
  target_type : Nat
  target_id : Nat
  created_at : Nat
  deleted_at : Option Nat
deriving DecidableEq, Repr

/-- Row of the follows table. -/
structure FollowRow where
  user_id : Nat
  followed_user_id : Nat
  created_at : Nat
  deleted_at : Option Nat
deriving DecidableEq, Repr

/-- The whole database state threaded through repository and service calls. -/
structure DB where
  users : List UserRow
  posts : List PostRow
  comments : List CommentRow
  comment_contents : List CommentContentRow
  post_stats : List PostStatsRow
  user_stats : List UserStatsRow
  likes : List LikeRow
  follows : List FollowRow
  clock : Nat
  nextId : Nat
deriving DecidableEq, Repr

/-- Typed business errors raised at the orchestration boundary
(app/core/exceptions.py), plus `runtimeMissingContent` for the repository
RuntimeError on a comment without a content row, and `storeFault` for a
store-level transaction failure (used only by the fault-injected variant). -/
inductive Err where
  | userNotFound
  | postNotFound
  | commentNotFound
  | invalidReviewStatusTransition
  | commentNotSoftDeleted
  | alreadyLiked
  | notLiked
  | followYourself
  | alreadyFollowing
  | notFollowing
  | valueErr
  | runtimeMissingContent
  | storeFault
deriving DecidableEq, Repr

/-- Input schema CommentCreate (app/schemas/comment.py). -/
structure CommentCreate where
  post_id : Nat
  author_id : Nat
  content : String
  parent_id : Option Nat
  root_id : Option Nat
deriving DecidableEq, Repr

/-- Input schema CommentOnlyCreate (comments-table part only). -/
structure CommentOnlyCreate where
  post_id : Nat
  author_id : Nat
  parent_id : Option Nat
  root_id : Option Nat
  status : Option Nat
  review_status : Option Nat
deriving DecidableEq, Repr

/-- Input schema ReviewUpdate. -/
structure ReviewUpdate where
  review_status : Option Nat
deriving DecidableEq, Repr

/-- Input schema LikeCreate (also the shape of LikeCancel). -/
structure LikeCreate where
  user_id : Nat
  target_type : Nat
  target_id : Nat
deriving DecidableEq, Repr

/-- Input schema FollowCreate (also the shape of FollowCancel). -/
structure FollowCreate where
  user_id : Nat
  followed_user_id : Nat
deriving DecidableEq, Repr

deriving instance DecidableEq for Except

/-- Mutate the first element satisfying `p` in place, like SQLAlchemy
`.filter(...).first()` followed by attribute assignment. -/
def updateFirst (p : α → Bool) (f : α → α) : List α → List α
  | [] => []
  | x :: xs => if p x then f x :: xs else x :: updateFirst p f xs

/-- Remove the first element satisfying `p`, like `db.delete(obj)` on the row
returned by `.first()`. -/
def removeFirst (p : α → Bool) : List α → List α
  | [] => []
  | x :: xs => if p x then xs else x :: removeFirst p xs

namespace UserRepo

/-- SQLAlchemyUserRepository.get_user_by_uid: `_base_query` filters soft-deleted
users, then `.filter(User.uid == uid).first()`. -/
def get_user_by_uid (st : DB) (uid : Nat) : Option UserRow :=
  (st.users.filter (fun u => u.deleted_at.isNone)).find? (fun u => u.uid == uid)

end UserRepo

namespace PostRepo

/-- SQLAlchemyPostRepository.viewer_get_post_by_pid: `_viewer_query` keeps only
posts that are not soft-deleted, published, approved and public. -/
def viewer_get_post_by_pid (st : DB) (pid : Nat) : Option PostRow :=
  (st.posts.filter (fun p =>
      p.deleted_at.isNone
        && p.publish_status == PostPublishStatus.PUBLISHED
        && p.review_status == PostReviewStatus.APPROVED
        && p.visibility == PostVisibility.PUBLIC)).find?
    (fun p => p.pid == pid)

end PostRepo

namespace CommentRepo

/-- The `_user_query` filter: not soft-deleted, display status NORMAL, review
status not REJECTED. -/
def userVisible (c : CommentRow) : Bool :=
  c.deleted_at.isNone
    && c.status == CommentStatus.NORMAL
    && !(c.review_status == ReviewStatus.REJECTED)

/-- Whether the comment has an associated content row
(`comment.comment_content` relationship being non-empty). -/
def hasContent (st : DB) (cid : Nat) : Bool :=
  st.comment_contents.any (fun cc => cc.comment_id == cid)

/-- SQLAlchemyCommentRepository.create_comment: insert the row (defaults NORMAL
/ PENDING), then, when both parent_id and root_id are null, set
`root_id := cid` (top-level rule).  Returns the new business id. -/
def create_comment (st : DB) (data : CommentOnlyCreate) : Nat × DB :=
  let cid := st.nextId
  let comment : CommentRow :=
    { cid := cid
      post_id := data.post_id
      author_id := data.author_id
      parent_id := data.parent_id
      root_id := data.root_id
      comment_count := 0
      like_count := 0
      status := data.status.getD CommentStatus.NORMAL
      review_status := data.review_status.getD ReviewStatus.PENDING
      reviewed_at := none
      created_at := st.clock
      deleted_at := none }
  let st' : DB :=
    { st with
      comments := st.comments ++ [comment]
      clock := st.clock + 1
      nextId := st.nextId + 1 }
  if comment.parent_id.isNone && comment.root_id.isNone then
    (cid,
      { st' with
        comments :=
          updateFirst (fun c => c.cid == cid)
            (fun c => { c with root_id := some cid }) st'.comments })
  else
    (cid, st')

/-- SQLAlchemyCommentRepository.get_comment_by_cid_for_user: `_user_query`
filtered lookup; raises RuntimeError when the found comment has no content
row. -/
def get_comment_by_cid_for_user (st : DB) (cid : Nat) :
    Except Err (Option CommentRow) :=
  match (st.comments.filter userVisible).find? (fun c => c.cid == cid) with
  | none => .ok none
  | some c =>
      if hasContent st c.cid then .ok (some c) else .error .runtimeMissingContent

/-- SQLAlchemyCommentRepository.get_comment_by_cid_for_admin: `_admin_query`
(no filtering) lookup; same content-row RuntimeError. -/
def get_comment_by_cid_for_admin (st : DB) (cid : Nat) :
    Except Err (Option CommentRow) :=
  match st.comments.find? (fun c => c.cid == cid) with
  | none => .ok none
  | some c =>
      if hasContent st c.cid then .ok (some c) else .error .runtimeMissingContent

/-- Stable sort by `created_at` ascending, the repository's
`.order_by(Comment.created_at.asc())`. -/
def sortByCreatedAsc (l : List CommentRow) : List CommentRow :=
  l.insertionSort (fun a b => a.created_at ≤ b.created_at)

/-- SQLAlchemyCommentRepository.list_comments_by_root_for_user: all user-visible
comments sharing the root, ordered by created_at ascending.  Building a
CommentOut for a row without content raises, hence the content check over the
whole result. -/
def list_comments_by_root_for_user (st : DB) (root_id : Nat) :
    Except Err (List CommentRow) :=
  let rows :=
    sortByCreatedAsc
      ((st.comments.filter userVisible).filter (fun c => c.root_id == some root_id))
  if rows.all (fun c => hasContent st c.cid) then .ok rows
  else .error .runtimeMissingContent

/-- SQLAlchemyCommentRepository.update_review: no-op returning False when the
new status is absent or the comment is missing; otherwise sets review_status
and stamps reviewed_at. -/
def update_review (st : DB) (cid : Nat) (data : ReviewUpdate) : Bool × DB :=
  match data.review_status with
  | none => (false, st)
  | some rs =>
      match st.comments.find? (fun c => c.cid == cid) with
      | none => (false, st)
      | some _ =>
          (true,
            { st with
              comments :=
                updateFirst (fun c => c.cid == cid)
                  (fun c => { c with review_status := rs, reviewed_at := some st.clock })
                  st.comments
              clock := st.clock + 1 })

/-- SQLAlchemyCommentRepository.soft_delete_comment: admin-scope lookup (any
deleted_at state), stamp deleted_at with the current time.  There is no
already-deleted guard: an already soft-deleted comment is found and
re-stamped, and the call still returns True. -/
def soft_delete_comment (st : DB) (cid : Nat) : Bool × DB :=
  match st.comments.find? (fun c => c.cid == cid) with
  | none => (false, st)
  | some _ =>
      (true,
        { st with
          comments :=
            updateFirst (fun c => c.cid == cid)
              (fun c => { c with deleted_at := some st.clock }) st.comments
          clock := st.clock + 1 })

/-- SQLAlchemyCommentRepository.restore_comment: returns False when the comment
is missing or when deleted_at is already null; otherwise clears deleted_at. -/
def restore_comment (st : DB) (cid : Nat) : Bool × DB :=
  match st.comments.find? (fun c => c.cid == cid) with
  | none => (false, st)
  | some c =>
      if c.deleted_at.isNone then (false, st)
      else
        (true,
          { st with
            comments :=
              updateFirst (fun x => x.cid == cid)
                (fun x => { x with deleted_at := none }) st.comments })

/-- SQLAlchemyCommentRepository.hard_delete_comment: physically remove the row
(and, through the ORM cascade, its content rows). -/
def hard_delete_comment (st : DB) (cid : Nat) : Bool × DB :=
  match st.comments.find? (fun c => c.cid == cid) with
  | none => (false, st)
  | some _ =>
      (true,
        { st with
          comments := removeFirst (fun c => c.cid == cid) st.comments
          comment_contents :=
            st.comment_contents.filter (fun cc => !(cc.comment_id == cid)) })

/-- SQLAlchemyCommentRepository.update_comment_count: bounded increment of the
first comment matching the (possibly null) cid; no-op returning None when no
row matches, as when the service passes `data.parent_id = None`. -/
def update_comment_count (st : DB) (cid? : Option Nat) (step : Int) :
    Option CommentRow × DB :=
  match st.comments.find? (fun c => some c.cid == cid?) with
  | none => (none, st)
  | some c =>
      (some { c with comment_count := max (c.comment_count + step) 0 },
        { st with
          comments :=
            updateFirst (fun x => some x.cid == cid?)
              (fun x => { x with comment_count := max (x.comment_count + step) 0 })
              st.comments })

/-- SQLAlchemyCommentRepository.update_like_count: bounded increment of the
first comment matching the cid. -/
def update_like_count (st : DB) (cid? : Option Nat) (step : Int) :
    Option CommentRow × DB :=
  match st.comments.find? (fun c => some c.cid == cid?) with
  | none => (none, st)
  | some c =>
      (some { c with like_count := max (c.like_count + step) 0 },
        { st with
          comments :=
            updateFirst (fun x => some x.cid == cid?)
              (fun x => { x with like_count := max (x.like_count + step) 0 })
              st.comments })

end CommentRepo

namespace CommentContentRepo

/-- SQLAlchemyCommentContentRepository.create: insert the content row. -/
def create (st : DB) (comment_id : Nat) (content : String) : DB :=
  { st with
    comment_contents := st.comment_contents ++ [{ comment_id := comment_id, content := content }] }

end CommentContentRepo

namespace PostStatsRepo

/-- SQLAlchemyPostStatsRepository.update_comments: create the stats row (0,0)
when missing, then bounded increment of comment_count. -/
def update_comments (st : DB) (post_id : Nat) (step : Int) : PostStatsRow × DB :=
  match st.post_stats.find? (fun s => s.post_id == post_id) with
  | some s =>
      (({ s with comment_count := max (s.comment_count + step) 0 }),
        { st with
          post_stats :=
            updateFirst (fun x => x.post_id == post_id)
              (fun x => { x with comment_count := max (x.comment_count + step) 0 })
              st.post_stats })
  | none =>
      let s : PostStatsRow :=
        { post_id := post_id, like_count := 0, comment_count := max (0 + step) 0 }
      (s, { st with post_stats := st.post_stats ++ [s] })

/-- SQLAlchemyPostStatsRepository.update_likes: same pattern for like_count. -/
def update_likes (st : DB) (post_id : Nat) (step : Int) : PostStatsRow × DB :=
  match st.post_stats.find? (fun s => s.post_id == post_id) with
  | some s =>
      (({ s with like_count := max (s.like_count + step) 0 }),
        { st with
          post_stats :=
            updateFirst (fun x => x.post_id == post_id)
              (fun x => { x with like_count := max (x.like_count + step) 0 })
              st.post_stats })
  | none =>
      let s : PostStatsRow :=
        { post_id := post_id, like_count := max (0 + step) 0, comment_count := 0 }
      (s, { st with post_stats := st.post_stats ++ [s] })

end PostStatsRepo

namespace UserStatsRepo

/-- SQLAlchemyUserStatsRepository.update_following: get-or-create the stats row,
then bounded increment of following_count. -/
def update_following (st : DB) (user_id : Nat) (step : Int) : UserStatsRow × DB :=
  match st.user_stats.find? (fun s => s.user_id == user_id) with
  | some s =>
      (({ s with following_count := max (s.following_count + step) 0 }),
        { st with
          user_stats :=
            updateFirst (fun x => x.user_id == user_id)
              (fun x => { x with following_count := max (x.following_count + step) 0 })
              st.user_stats })
  | none =>
      let s : UserStatsRow :=
        { user_id := user_id, following_count := max (0 + step) 0, followers_count := 0 }
      (s, { st with user_stats := st.user_stats ++ [s] })

/-- SQLAlchemyUserStatsRepository.update_followers: same for followers_count. -/
def update_followers (st : DB) (user_id : Nat) (step : Int) : UserStatsRow × DB :=
  match st.user_stats.find? (fun s => s.user_id == user_id) with
  | some s =>
      (({ s with followers_count := max (s.followers_count + step) 0 }),
        { st with
          user_stats :=
            updateFirst (fun x => x.user_id == user_id)
              (fun x => { x with followers_count := max (x.followers_count + step) 0 })
              st.user_stats })
  | none =>
      let s : UserStatsRow :=
        { user_id := user_id, following_count := 0, followers_count := max (0 + step) 0 }
      (s, { st with user_stats := st.user_stats ++ [s] })

end UserStatsRepo

namespace LikeRepo

/-- The (user, target_type, target_id) ledger key. -/
def tripleMatch (data : LikeCreate) (l : LikeRow) : Bool :=
  l.user_id == data.user_id
    && l.target_type == data.target_type
    && l.target_id == data.target_id

/-- SQLAlchemyLikeRepository.like: look up the triple in any deleted_at state;
restore a soft-deleted row (counts as a new like), reject an active row with
AlreadyLiked, insert a fresh row otherwise. -/
def like (st : DB) (data : LikeCreate) : Except Err LikeRow × DB :=
  match st.likes.find? (tripleMatch data) with
  | some existing =>
      if existing.deleted_at.isSome then
        (.ok { existing with deleted_at := none, created_at := st.clock },
          { st with
            likes :=
              updateFirst (tripleMatch data)
                (fun l => { l with deleted_at := none, created_at := st.clock })
                st.likes
            clock := st.clock + 1 })
      else
        (.error .alreadyLiked, st)
  | none =>
      let row : LikeRow :=
        { lid := st.nextId
          user_id := data.user_id
          target_type := data.target_type
          target_id := data.target_id
          created_at := st.clock
          deleted_at := none }
      (.ok row,
        { st with
          likes := st.likes ++ [row]
          clock := st.clock + 1
          nextId := st.nextId + 1 })

/-- SQLAlchemyLikeRepository.cancel_like: NotLiked when there is no row or the
row is already soft-deleted; otherwise stamp deleted_at. -/
def cancel_like (st : DB) (data : LikeCreate) : Except Err LikeRow × DB :=
  match st.likes.find? (tripleMatch data) with
  | none => (.error .notLiked, st)
  | some l =>
      if l.deleted_at.isSome then (.error .notLiked, st)
      else
        (.ok { l with deleted_at := some st.clock },
          { st with
            likes :=
              updateFirst (tripleMatch data)
                (fun x => { x with deleted_at := some st.clock }) st.likes
            clock := st.clock + 1 })

end LikeRepo

namespace FollowRepo

/-- The (follower, followee) ledger key. -/
def pairMatch (user_id followed_user_id : Nat) (f : FollowRow) : Bool :=
  f.user_id == user_id && f.followed_user_id == followed_user_id

/-- SQLAlchemyFollowRepository.is_following: an active (not soft-deleted) edge
exists. -/
def is_following (st : DB) (user_id followed_user_id : Nat) : Bool :=
  ((st.follows.filter (fun f => f.deleted_at.isNone)).find?
      (pairMatch user_id followed_user_id)).isSome

/-- SQLAlchemyFollowRepository.create_follow: restore a soft-deleted edge
(clearing deleted_at, refreshing created_at), return an existing active edge
unchanged, insert a fresh edge otherwise. -/
def create_follow (st : DB) (data : FollowCreate) : FollowRow × DB :=
  match st.follows.find? (pairMatch data.user_id data.followed_user_id) with
  | some existing =>
      if existing.deleted_at.isSome then
        ({ existing with deleted_at := none, created_at := st.clock },
          { st with
            follows :=
              updateFirst (pairMatch data.user_id data.followed_user_id)
                (fun f => { f with deleted_at := none, created_at := st.clock })
                st.follows
            clock := st.clock + 1 })
      else
        (existing, st)
  | none =>
      let row : FollowRow :=
        { user_id := data.user_id
          followed_user_id := data.followed_user_id
          created_at := st.clock
          deleted_at := none }
      (row, { st with follows := st.follows ++ [row], clock := st.clock + 1 })

/-- SQLAlchemyFollowRepository.cancel_follow: soft-delete the first active edge
for the pair; False when there is none. -/
def cancel_follow (st : DB) (data : FollowCreate) : Bool × DB :=
  match (st.follows.filter (fun f => f.deleted_at.isNone)).find?
      (pairMatch data.user_id data.followed_user_id) with
  | none => (false, st)
  | some _ =>
      (true,
        { st with
          follows :=
            updateFirst
              (fun f => f.deleted_at.isNone
                && pairMatch data.user_id data.followed_user_id f)
              (fun f => { f with deleted_at := some st.clock }) st.follows
          clock := st.clock + 1 })

end FollowRepo

namespace CommentSvc

/-- app/service/comment_svc.py create_comment: validate author and post, insert
the comment row and its content row, bump the post comment counter, apply the
second-level / third-or-deeper parent and root counter increments, then reload
the comment in the user scope.  Each repository call commits on its own. -/
def create_comment (st : DB) (data : CommentCreate) : Except Err CommentRow × DB :=
  match UserRepo.get_user_by_uid st data.author_id with
  | none => (.error .userNotFound, st)
  | some _ =>
  match PostRepo.viewer_get_post_by_pid st data.post_id with
  | none => (.error .postNotFound, st)
  | some _ =>
  let r1 := CommentRepo.create_comment st
    { post_id := data.post_id
      author_id := data.author_id
      parent_id := data.parent_id
      root_id := data.root_id
      status := none
      review_status := none }
  let cid := r1.1
  let st := r1.2
  let st := CommentContentRepo.create st cid data.content
  let st := (PostStatsRepo.update_comments st data.post_id 1).2
  let st :=
    if data.parent_id == data.root_id then
      (CommentRepo.update_comment_count st data.parent_id 1).2
    else st
  let st :=
    if data.parent_id.isSome && !(data.parent_id == data.root_id) then
      let st := (CommentRepo.update_comment_count st data.parent_id 1).2
      (CommentRepo.update_comment_count st data.root_id 1).2
    else st
  match CommentRepo.get_comment_by_cid_for_user st cid with
  | .error e => (.error e, st)
  | .ok none => (.error .commentNotFound, st)
  | .ok (some out) => (.ok out, st)

/-- Modelled from the spec: the transactional boundary `transaction` of
app.core.db is imported by every repository but its module is not under src/.
Per the spec's transactional-store collaborator, each `with transaction(db)`
block commits at its end, and a failure inside a block rolls back only that
block's changes and propagates.  This variant of create_comment injects a
store fault in the repository transaction numbered `fault` (0 = comment-row
insert, 1 = content-row insert, 2 = post counter update, 3 = first parent/root
counter update): the faulted call leaves the state it received, and earlier
calls stay committed. -/
def create_comment_withFault (fault : Nat) (st : DB) (data : CommentCreate) :
    Except Err Unit × DB :=
  match UserRepo.get_user_by_uid st data.author_id with
  | none => (.error .userNotFound, st)
  | some _ =>
  match PostRepo.viewer_get_post_by_pid st data.post_id with
  | none => (.error .postNotFound, st)
  | some _ =>
  if fault == 0 then (.error .storeFault, st) else
  let r1 := CommentRepo.create_comment st
    { post_id := data.post_id
      author_id := data.author_id
      parent_id := data.parent_id
      root_id := data.root_id
      status := none
      review_status := none }
  let cid := r1.1
  let st := r1.2
  if fault == 1 then (.error .storeFault, st) else
  let st := CommentContentRepo.create st cid data.content
  if fault == 2 then (.error .storeFault, st) else
  let st := (PostStatsRepo.update_comments st data.post_id 1).2
  if fault == 3 then (.error .storeFault, st) else
  let st :=
    if data.parent_id == data.root_id then
      (CommentRepo.update_comment_count st data.parent_id 1).2
    else st
  let st :=
    if data.parent_id.isSome && !(data.parent_id == data.root_id) then
      let st := (CommentRepo.update_comment_count st data.parent_id 1).2
      (CommentRepo.update_comment_count st data.root_id 1).2
    else st
  match CommentRepo.get_comment_by_cid_for_user st cid with
  | .error e => (.error e, st)
  | .ok none => (.error .commentNotFound, st)
  | .ok (some _) => (.ok (), st)

/-- app/service/comment_svc.py review_comment: admin lookup, reject a move back
to PENDING from a non-PENDING state, then update review_status and reload. -/
def review_comment (st : DB) (cid : Nat) (data : ReviewUpdate) :
    Except Err CommentRow × DB :=
  match CommentRepo.get_comment_by_cid_for_admin st cid with
  | .error e => (.error e, st)
  | .ok none => (.error .commentNotFound, st)
  | .ok (some current) =>
  match data.review_status with
  | none => (.error .invalidReviewStatusTransition, st)
  | some new_status =>
  if new_status == ReviewStatus.PENDING
      && !(current.review_status == ReviewStatus.PENDING) then
    (.error .invalidReviewStatusTransition, st)
  else
    let r := CommentRepo.update_review st cid data
    if !r.1 then (.error .commentNotFound, r.2)
    else
      match CommentRepo.get_comment_by_cid_for_admin r.2 cid with
      | .error e => (.error e, r.2)
      | .ok none => (.error .commentNotFound, r.2)
      | .ok (some updated) => (.ok updated, r.2)

/-- app/service/comment_svc.py soft_delete_comment: read the node in admin
scope, stamp deleted_at, then apply the tiered counter cascade — top-level
(parent absent, root_id == own cid): post counter -= own comment_count;
second-level (parent_id == root_id): post counter -= 1 and parent counter -= 1;
third-or-deeper (parent_id present and != root_id): post counter -= 1, parent
counter -= 1, root counter -= 1. -/
def soft_delete_comment (st : DB) (cid : Nat) : Except Err Bool × DB :=
  match CommentRepo.get_comment_by_cid_for_admin st cid with
  | .error e => (.error e, st)
  | .ok dataOpt =>
  let r := CommentRepo.soft_delete_comment st cid
  let ok := r.1
  let st := r.2
  if ok then
    match dataOpt with
    | none => (.ok true, st)
    | some data =>
      let st :=
        if data.parent_id.isNone && data.root_id == some cid then
          (PostStatsRepo.update_comments st data.post_id (-data.comment_count)).2
        else st
      let st :=
        if data.parent_id == data.root_id then
          let st := (PostStatsRepo.update_comments st data.post_id (-1)).2
          (CommentRepo.update_comment_count st data.parent_id (-1)).2
        else st
      let st :=
        if data.parent_id.isSome && !(data.parent_id == data.root_id) then
          let st := (PostStatsRepo.update_comments st data.post_id (-1)).2
          let st := (CommentRepo.update_comment_count st data.parent_id (-1)).2
          (CommentRepo.update_comment_count st data.root_id (-1)).2
        else st
      (.ok true, st)
  else
    (.ok false, st)

/-- app/service/comment_svc.py restore_comment: mirror of soft_delete_comment —
clear deleted_at (rejected when not currently soft-deleted) and add back the
tiered amounts computed from the node's current comment_count. -/
def restore_comment (st : DB) (cid : Nat) : Except Err Bool × DB :=
  match CommentRepo.get_comment_by_cid_for_admin st cid with
  | .error e => (.error e, st)
  | .ok dataOpt =>
  let r := CommentRepo.restore_comment st cid
  let ok := r.1
  let st := r.2
  if ok then
    match dataOpt with
    | none => (.ok true, st)
    | some data =>
      let st :=
        if data.parent_id.isNone && data.root_id == some cid then
          (PostStatsRepo.update_comments st data.post_id data.comment_count).2
        else st
      let st :=
        if data.parent_id == data.root_id then
          let st := (PostStatsRepo.update_comments st data.post_id 1).2
          (CommentRepo.update_comment_count st data.parent_id 1).2
        else st
      let st :=
        if data.parent_id.isSome && !(data.parent_id == data.root_id) then
          let st := (PostStatsRepo.update_comments st data.post_id 1).2
          let st := (CommentRepo.update_comment_count st data.parent_id 1).2
          (CommentRepo.update_comment_count st data.root_id 1).2
        else st
      (.ok true, st)
  else
    (.ok false, st)

/-- app/service/comment_svc.py hard_delete_comment: CommentNotFound when the
node is missing, CommentNotSoftDeletedError when deleted_at is null, physical
removal otherwise. -/
def hard_delete_comment (st : DB) (cid : Nat) : Except Err Bool × DB :=
  match CommentRepo.get_comment_by_cid_for_admin st cid with
  | .error e => (.error e, st)
  | .ok none => (.error .commentNotFound, st)
  | .ok (some data) =>
  if data.deleted_at.isNone then (.error .commentNotSoftDeleted, st)
  else
    let r := CommentRepo.hard_delete_comment st cid
    (.ok r.1, r.2)

/-- Direct children of `cid` in the loaded thread, in thread order — the
`parent_to_children` dictionary entry of get_comment_subtree_for_user. -/
def childCids (allC : List CommentRow) (cid : Nat) : List Nat :=
  (allC.filter (fun c => c.parent_id == some cid)).map (fun c => c.cid)

/-- The stack-based traversal of get_comment_subtree_for_user: pop, skip
visited ids, look the id up in the thread (`id_to_comment`), record the node
and push its children.  Returns the visited ids and collected nodes. -/
def subtreeLoop (allC : List CommentRow) :
    List Nat → List Nat → List CommentRow → List Nat × List CommentRow
  | [], visited, acc => (visited, acc)
  | x :: stack, visited, acc =>
    if h : x ∈ visited then
      subtreeLoop allC stack visited acc
    else
      match hfind : allC.find? (fun c => c.cid == x) with
      | none => subtreeLoop allC stack (x :: visited) acc
      | some node =>
          subtreeLoop allC
            ((childCids allC x).foldl (fun s c => c :: s) stack)
            (x :: visited) (acc ++ [node])
  termination_by stack visited _ =>
    (((allC.map (fun c => c.cid)).toFinset \ visited.toFinset).card, stack.length)
  decreasing_by
    all_goals simp_wf
    · exact Prod.Lex.right _ (Nat.lt_succ_self _)
    · have hx : x ∉ (List.map (fun c => c.cid) allC) := by
        intro hmem
        rcases List.mem_map.mp hmem with ⟨c, hc, hcx⟩
        have hnc := List.find?_eq_none.mp hfind c hc
        simp [hcx] at hnc
      have hset : (List.map (fun c => c.cid) allC).toFinset \ insert x visited.toFinset
          = (List.map (fun c => c.cid) allC).toFinset \ visited.toFinset := by
        ext a
        simp only [Finset.mem_sdiff, List.mem_toFinset, Finset.mem_insert]
        constructor
        · rintro ⟨ha, h2⟩
          exact ⟨ha, fun hv => h2 (Or.inr hv)⟩
        · rintro ⟨ha, h2⟩
          refine ⟨ha, ?_⟩
          rintro (rfl | hv)
          · exact hx ha
          · exact h2 hv
      rw [hset]
      exact Prod.Lex.right _ (Nat.lt_succ_self _)
    · apply Prod.Lex.left
      have hnodecid : node.cid = x := by
        have hb := List.find?_some hfind
        simpa using hb
      have hxmem : x ∈ List.map (fun c => c.cid) allC :=
        List.mem_map.mpr ⟨node, List.mem_of_find?_eq_some hfind, hnodecid⟩
      have hxV : x ∉ visited.toFinset := by simpa using h
      have hxS : x ∈ (List.map (fun c => c.cid) allC).toFinset :=
        List.mem_toFinset.mpr hxmem
      apply Finset.card_lt_card
      rw [Finset.ssubset_def]
      constructor
      · exact Finset.sdiff_subset_sdiff (le_refl _) (Finset.subset_insert _ _)
      · intro hcon
        have hxin : x ∈ (List.map (fun c => c.cid) allC).toFinset \ visited.toFinset :=
          Finset.mem_sdiff.mpr ⟨hxS, hxV⟩
        have hx2 := hcon hxin
        rw [Finset.mem_sdiff] at hx2
        exact hx2.2 (Finset.mem_insert_self _ _)

/-- app/service/comment_svc.py get_comment_subtree_for_user: load the current
comment in user scope, load the whole thread by root_id, traverse from cid and
re-sort the collected subtree by position in the thread listing.  Read-only. -/
def get_comment_subtree_for_user (st : DB) (cid : Nat) :
    Except Err (List CommentRow) :=
  match CommentRepo.get_comment_by_cid_for_user st cid with
  | .error e => .error e
  | .ok none => .error .commentNotFound
  | .ok (some current) =>
  let root_id := match current.root_id with | some r => r | none => current.cid
  match CommentRepo.list_comments_by_root_for_user st root_id with
  | .error e => .error e
  | .ok all_comments =>
  if all_comments.isEmpty then .error .commentNotFound
  else if ((all_comments.find? (fun c => c.cid == cid)).isNone) then
    .error .commentNotFound
  else
    let subtree_list := (subtreeLoop all_comments [cid] [] []).2
    let ids := all_comments.map (fun c => c.cid)
    subtree_list.insertionSort
      (fun a b => ids.indexOf a.cid ≤ ids.indexOf b.cid) |> .ok

end CommentSvc

namespace LikeSvc

/-- app/service/like_svc.py like_target: validate the user, validate the target
in its own visibility scope, create or restore the ledger row (AlreadyLiked
surfaces here), and only then bump the matching like counter. -/
def like_target (st : DB) (data : LikeCreate) : Except Err LikeRow × DB :=
  match UserRepo.get_user_by_uid st data.user_id with
  | none => (.error .userNotFound, st)
  | some _ =>
  match
    (if data.target_type == LikeTargetType.POST then
      match PostRepo.viewer_get_post_by_pid st data.target_id with
      | none => Except.error Err.postNotFound
      | some _ => Except.ok ()
    else if data.target_type == LikeTargetType.COMMENT then
      match CommentRepo.get_comment_by_cid_for_user st data.target_id with
      | .error e => Except.error e
      | .ok none => Except.error Err.commentNotFound
      | .ok (some _) => Except.ok ()
    else Except.error Err.valueErr) with
  | .error e => (.error e, st)
  | .ok _ =>
  match LikeRepo.like st data with
  | (.error e, st') => (.error e, st')
  | (.ok like_out, st') =>
      let st'' :=
        if data.target_type == LikeTargetType.POST then
          (PostStatsRepo.update_likes st' data.target_id 1).2
        else
          (CommentRepo.update_like_count st' (some data.target_id) 1).2
      (.ok like_out, st'')

/-- app/service/like_svc.py cancel_like: validate the user, soft-delete the
ledger row (NotLiked surfaces here), then decrement the matching counter. -/
def cancel_like (st : DB) (data : LikeCreate) : Except Err LikeRow × DB :=
  match UserRepo.get_user_by_uid st data.user_id with
  | none => (.error .userNotFound, st)
  | some _ =>
  match LikeRepo.cancel_like st data with
  | (.error e, st') => (.error e, st')
  | (.ok like_out, st') =>
      let st'' :=
        if data.target_type == LikeTargetType.POST then
          (PostStatsRepo.update_likes st' data.target_id (-1)).2
        else
          (CommentRepo.update_like_count st' (some data.target_id) (-1)).2
      (.ok like_out, st'')

end LikeSvc

namespace FollowSvc

/-- app/service/follow_svc.py follow_user: both users must exist, self-follow is
rejected before the ledger lookup, an existing active edge raises
AlreadyFollowing, then the edge is created/restored and both user counters are
bumped. -/
def follow_user (st : DB) (data : FollowCreate) : Except Err FollowRow × DB :=
  match UserRepo.get_user_by_uid st data.user_id with
  | none => (.error .userNotFound, st)
  | some _ =>
  match UserRepo.get_user_by_uid st data.followed_user_id with
  | none => (.error .userNotFound, st)
  | some _ =>
  if data.user_id == data.followed_user_id then (.error .followYourself, st)
  else if FollowRepo.is_following st data.user_id data.followed_user_id then
    (.error .alreadyFollowing, st)
  else
    let r := FollowRepo.create_follow st data
    let st := r.2
    let st := (UserStatsRepo.update_following st data.user_id 1).2
    let st := (UserStatsRepo.update_followers st data.followed_user_id 1).2
    (.ok r.1, st)

/-- app/service/follow_svc.py cancel_follow: NotFollowing when no active edge
exists, otherwise soft-delete the edge and decrement both counters. -/
def cancel_follow (st : DB) (data : FollowCreate) : Except Err Bool × DB :=
  if !(FollowRepo.is_following st data.user_id data.followed_user_id) then
    (.error .notFollowing, st)
  else
    let r := FollowRepo.cancel_follow st data
    if !r.1 then (.ok false, r.2)
    else
      let st := (UserStatsRepo.update_following r.2 data.user_id (-1)).2
      let st := (UserStatsRepo.update_followers st data.followed_user_id (-1)).2
      (.ok true, st)

end FollowSvc

/-! Spec-side observation functions: the materialized counters and the counts
of currently-active rows they are supposed to summarize (spec section 3,
Counters invariant). -/

/-- The post's materialized comment counter (0 when the stats row is missing,
matching update_comments which initializes a missing row at 0). -/
def postCommentCounter (st : DB) (pid : Nat) : Int :=
  ((st.post_stats.find? (fun s => s.post_id == pid)).map
    (fun s => s.comment_count)).getD 0

/-- Number of currently-active (non-soft-deleted) comment rows of the post. -/
def activePostComments (st : DB) (pid : Nat) : Nat :=
  st.comments.countP (fun c => c.post_id == pid && c.deleted_at.isNone)

/-- The comment's materialized child-comment counter. -/
def commentCommentCounter (st : DB) (cid : Nat) : Int :=
  ((st.comments.find? (fun c => c.cid == cid)).map
    (fun c => c.comment_count)).getD 0

/-- The comment's materialized like counter. -/
def commentLikeCounter (st : DB) (cid : Nat) : Int :=
  ((st.comments.find? (fun c => c.cid == cid)).map
    (fun c => c.like_count)).getD 0

/-- Number of currently-active like-ledger rows targeting the comment. -/
def activeCommentLikes (st : DB) (cid : Nat) : Nat :=
  st.likes.countP (fun l =>
    l.target_type == LikeTargetType.COMMENT && l.target_id == cid
      && l.deleted_at.isNone)

/-- The user's materialized following counter. -/
def followingCounter (st : DB) (u : Nat) : Int :=
  ((st.user_stats.find? (fun s => s.user_id == u)).map
    (fun s => s.following_count)).getD 0

/-- The user's materialized followers counter. -/
def followersCounter (st : DB) (u : Nat) : Int :=
  ((st.user_stats.find? (fun s => s.user_id == u)).map
    (fun s => s.followers_count)).getD 0

/-- Number of currently-active follow edges out of the user. -/
def activeFollowing (st : DB) (u : Nat) : Nat :=
  st.follows.countP (fun f => f.user_id == u && f.deleted_at.isNone)

/-- Number of currently-active follow edges into the user. -/
def activeFollowers (st : DB) (u : Nat) : Nat :=
  st.follows.countP (fun f => f.followed_user_id == u && f.deleted_at.isNone)

/-! Spec-side view of the subtree operation: being a descendant of a node
through parent_id edges inside a loaded thread. -/

/-- One parent_id edge inside the thread listing: `y` is the cid of a listed
comment whose parent_id is `x`. -/
def childEdge (allC : List CommentRow) (x y : Nat) : Prop :=
  ∃ c ∈ allC, c.parent_id = some x ∧ c.cid = y

/-- Membership of `z` in the subtree of `root` inside the thread listing:
`root` itself, or reachable from it through parent_id edges of listed
comments. -/
def InSubtree (allC : List CommentRow) (root z : Nat) : Prop :=
  Relation.ReflTransGen (childEdge allC) root z

/-- Reachability through parent_id edges whose intermediate and final nodes
avoid the `visited` list — the invariant relation of the traversal's
visited/stack pair.  Only nodes after the start are constrained. -/
inductive AvoidReach (allC : List CommentRow) (visited : List Nat) :
    Nat → Nat → Prop
  | refl (x : Nat) : AvoidReach allC visited x x
  | step {x y z : Nat} : childEdge allC x y → y ∉ visited →
      AvoidReach allC visited y z → AvoidReach allC visited x z

/-! Concrete scenario states used by counterexamples and witnesses. -/

/-- A minimal base state: two live users, one public approved published post
with a zeroed stats row. -/
def baseDB : DB :=
  { users := [⟨1, none⟩, ⟨2, none⟩]
    posts := [⟨50, 1, 1, 0, none⟩]
    comments := []
    comment_contents := []
    post_stats := [⟨50, 0, 0⟩]
    user_stats := []
    likes := []
    follows := []
    clock := 100
    nextId := 10 }

/-- Top-level comment R (cid 10) created on post 50. -/
def stR : DB := (CommentSvc.create_comment baseDB ⟨50, 1, "r", none, none⟩).2

/-- Reply A (cid 11) to R. -/
def stRA : DB := (CommentSvc.create_comment stR ⟨50, 1, "a", some 10, some 10⟩).2

/-- Reply B (cid 12) to A, same thread root R. -/
def stRAB : DB := (CommentSvc.create_comment stRA ⟨50, 1, "b", some 11, some 10⟩).2

/-- Soft-delete of the top-level comment R in the three-comment thread. -/
def delTop : Except Err Bool × DB := CommentSvc.soft_delete_comment stRAB 10

/-- Restore scenario: R deleted while the thread keeps growing.  After
creating R and its reply A, R is soft-deleted, then reply B (parent A, root R)
is created, then R is restored. -/
def stDelR : DB := (CommentSvc.soft_delete_comment stRA 10).2

/-- Reply B created underneath the soft-deleted root R. -/
def stDelRB : DB := (CommentSvc.create_comment stDelR ⟨50, 1, "b", some 11, some 10⟩).2

/-- Restoring R after the thread grew underneath it. -/
def restR : Except Err Bool × DB := CommentSvc.restore_comment stDelRB 10

/-- Thread for the subtree counterexample: visible root 10, folded child 11,
visible grandchild 12. -/
def subDB : DB :=
  { baseDB with
    comments :=
      [ { cid := 10, post_id := 50, author_id := 1, parent_id := none,
          root_id := some 10, comment_count := 2, like_count := 0, status := 0,
          review_status := 0, reviewed_at := none, created_at := 1, deleted_at := none },
        { cid := 11, post_id := 50, author_id := 1, parent_id := some 10,
          root_id := some 10, comment_count := 1, like_count := 0, status := 1,
          review_status := 0, reviewed_at := none, created_at := 2, deleted_at := none },
        { cid := 12, post_id := 50, author_id := 1, parent_id := some 11,
          root_id := some 10, comment_count := 0, like_count := 0, status := 0,
          review_status := 0, reviewed_at := none, created_at := 3, deleted_at := none } ]
    comment_contents := [⟨10, "r"⟩, ⟨11, "a"⟩, ⟨12, "b"⟩] }

/-- User 1 following user 2 on the base state. -/
def stF : DB := (FollowSvc.follow_user baseDB ⟨1, 2⟩).2

/-- User 2 liking comment R in the three-comment thread prefix. -/
def stLiked : DB := (LikeSvc.like_target stRA ⟨2, LikeTargetType.COMMENT, 10⟩).2

/-- Soft-delete of the second-level reply A in the three-comment thread. -/
def stDelA : DB := (CommentSvc.soft_delete_comment stRAB 11).2

/-- Soft-delete of the third-level reply B in the three-comment thread. -/
def stDelB : DB := (CommentSvc.soft_delete_comment stRAB 12).2

/-! Generic lemmas about the embedding primitives. -/

theorem updateFirst_of_find?_none {p : α → Bool} {f : α → α} {l : List α}
    (h : l.find? p = none) : updateFirst p f l = l := by
  induction l with
  | nil => rfl
  | cons x xs ih =>
      rw [List.find?_cons] at h
      by_cases hx : p x
      · simp [hx] at h
      · simp only [updateFirst, hx]
        simp only [hx, Bool.false_eq_true, if_false]
        rw [ih (by simpa [hx] using h)]

theorem countP_updateFirst {p q : α → Bool} {f : α → α} {l : List α} {a : α}
    (h : l.find? p = some a) :
    (updateFirst p f l).countP q + (if q a then 1 else 0)
      = l.countP q + (if q (f a) then 1 else 0) := by
  induction l with
  | nil => simp at h
  | cons x xs ih =>
      rw [List.find?_cons] at h
      by_cases hx : p x
      · simp only [hx, if_pos] at h
        cases h
        simp only [updateFirst, hx, if_pos, List.countP_cons]
        omega
      · simp only [hx, Bool.false_eq_true, if_false] at h
        simp only [updateFirst, hx, Bool.false_eq_true, if_false, List.countP_cons]
        have := ih h
        omega

theorem countP_updateFirst_congr {p q : α → Bool} {f : α → α} (l : List α)
    (hq : ∀ a, q (f a) = q a) :
    (updateFirst p f l).countP q = l.countP q := by
  induction l with
  | nil => rfl
  | cons x xs ih =>
      by_cases hx : p x
      · simp [updateFirst, hx, List.countP_cons, hq]
      · simp [updateFirst, hx, List.countP_cons, ih]

theorem find?_updateFirst_self {p : α → Bool} {f : α → α} {l : List α} {a : α}
    (h : l.find? p = some a) (hf : p (f a) = true) :
    (updateFirst p f l).find? p = some (f a) := by
  induction l with
  | nil => simp at h
  | cons x xs ih =>
      rw [List.find?_cons] at h
      by_cases hx : p x
      · simp only [hx, if_pos] at h
        cases h
        simp [updateFirst, hx, List.find?_cons, hf]
      · simp only [hx, Bool.false_eq_true, if_false] at h
        simp [updateFirst, hx, List.find?_cons, ih h]

theorem find?_proj_updateFirst {β : Type} {p q : α → Bool} {f : α → α}
    (g : α → β) (l : List α)
    (hq : ∀ a, q (f a) = q a) (hg : ∀ a, q a = true → g (f a) = g a) :
    Option.map g ((updateFirst p f l).find? q) = Option.map g (l.find? q) := by
  induction l with
  | nil => rfl
  | cons x xs ih =>
      by_cases hx : p x
      · simp only [updateFirst, hx, if_pos, List.find?_cons]
        by_cases hqx : q x
        · simp [hq, hqx, hg x hqx]
        · simp [hq, hqx]
      · simp only [updateFirst, hx, Bool.false_eq_true, if_false, List.find?_cons]
        by_cases hqx : q x
        · simp [hqx]
        · simp [hqx, ih]

theorem find?_filter_of_find? {q v : α → Bool} {l : List α} {a : α}
    (h : l.find? q = some a) (hv : v a = true) :
    (l.filter v).find? q = some a := by
  induction l with
  | nil => simp at h
  | cons x xs ih =>
      rw [List.find?_cons] at h
      by_cases hqx : q x
      · simp only [hqx, if_pos] at h
        cases h
        simp [List.filter_cons, hv, List.find?_cons, hqx]
      · simp only [hqx, Bool.false_eq_true, if_false] at h
        by_cases hvx : v x
        · simp [List.filter_cons, hvx, List.find?_cons, hqx, ih h]
        · simp [List.filter_cons, hvx, ih h]

/-! Frame lemmas: which part of the state each repository mutation touches. -/

theorem update_comments_frame (st : DB) (pid : Nat) (step : Int) :
    ∃ ps, (PostStatsRepo.update_comments st pid step).2 = { st with post_stats := ps } := by
  unfold PostStatsRepo.update_comments
  cases hfind : st.post_stats.find? (fun s => s.post_id == pid) <;> exact ⟨_, rfl⟩

theorem update_likes_frame (st : DB) (pid : Nat) (step : Int) :
    ∃ ps, (PostStatsRepo.update_likes st pid step).2 = { st with post_stats := ps } := by
  unfold PostStatsRepo.update_likes
  cases hfind : st.post_stats.find? (fun s => s.post_id == pid) <;> exact ⟨_, rfl⟩

theorem update_comment_count_frame (st : DB) (cid? : Option Nat) (step : Int) :
    ∃ cs, (CommentRepo.update_comment_count st cid? step).2 = { st with comments := cs } := by
  unfold CommentRepo.update_comment_count
  cases hfind : st.comments.find? (fun c => some c.cid == cid?)
  · exact ⟨st.comments, rfl⟩
  · exact ⟨_, rfl⟩

theorem update_like_count_frame (st : DB) (cid? : Option Nat) (step : Int) :
    ∃ cs, (CommentRepo.update_like_count st cid? step).2 = { st with comments := cs } := by
  unfold CommentRepo.update_like_count
  cases hfind : st.comments.find? (fun c => some c.cid == cid?)
  · exact ⟨st.comments, rfl⟩
  · exact ⟨_, rfl⟩

theorem update_following_frame (st : DB) (u : Nat) (step : Int) :
    ∃ us, (UserStatsRepo.update_following st u step).2 = { st with user_stats := us } := by
  unfold UserStatsRepo.update_following
  cases hfind : st.user_stats.find? (fun s => s.user_id == u) <;> exact ⟨_, rfl⟩

theorem update_followers_frame (st : DB) (u : Nat) (step : Int) :
    ∃ us, (UserStatsRepo.update_followers st u step).2 = { st with user_stats := us } := by
  unfold UserStatsRepo.update_followers
  cases hfind : st.user_stats.find? (fun s => s.user_id == u) <;> exact ⟨_, rfl⟩

/-! Counter lemmas: the effect of each bounded-increment repository call on the
materialized counter it maintains, and its silence on all other counters. -/

theorem postCommentCounter_update_comments (st : DB) (pid : Nat) (step : Int) :
    postCommentCounter (PostStatsRepo.update_comments st pid step).2 pid
      = max (postCommentCounter st pid + step) 0 := by
  unfold postCommentCounter PostStatsRepo.update_comments
  cases hfind : st.post_stats.find? (fun s => s.post_id == pid) with
  | some s =>
      have hkey : (s.post_id == pid) = true := by simpa using List.find?_some hfind
      simp only
      rw [find?_updateFirst_self hfind (by simpa using hkey)]
      simp
  | none =>
      simp only [List.find?_append, hfind, Option.none_or]
      simp [List.find?_cons]

theorem find?_updateFirst_disjoint {p q : α → Bool} {f : α → α} (l : List α)
    (hq : ∀ a, q (f a) = q a) (hpq : ∀ a, p a = true → q a = false) :
    (updateFirst p f l).find? q = l.find? q := by
  induction l with
  | nil => rfl
  | cons x xs ih =>
      by_cases hx : p x
      · have hqx : q x = false := hpq x (by simpa using hx)
        simp [updateFirst, hx, List.find?_cons, hq, hqx]
      · by_cases hqx : q x
        · simp [updateFirst, hx, List.find?_cons, hqx]
        · simp [updateFirst, hx, List.find?_cons, hqx, ih]

theorem postCommentCounter_update_comments_other (st : DB) (pid w : Nat) (step : Int)
    (hw : w ≠ pid) :
    postCommentCounter (PostStatsRepo.update_comments st pid step).2 w
      = postCommentCounter st w := by
  unfold postCommentCounter PostStatsRepo.update_comments
  cases hfind : st.post_stats.find? (fun s => s.post_id == pid) with
  | some s =>
      simp only
      rw [@find?_updateFirst_disjoint _ (fun x => x.post_id == pid)
        (fun s => s.post_id == w)
        (fun x => { x with comment_count := max (x.comment_count + step) 0 })
        st.post_stats (fun a => rfl)
        (fun a ha => by
          have hpa : a.post_id = pid := by simpa using ha
          simp [hpa, Ne.symm hw])]
  | none =>
      simp only [List.find?_append]
      have hone : (List.find? (fun s => s.post_id == w)
          [({ post_id := pid, like_count := 0,
              comment_count := max (0 + step) 0 } : PostStatsRow)]) = none := by
        simp [List.find?_cons, Ne.symm hw]
      rw [hone]
      simp

theorem somePred_eq (w : Nat) :
    (fun (c : CommentRow) => some c.cid == some w) = (fun c => c.cid == w) :=
  funext fun _ => rfl

theorem update_comment_count_none (st : DB) (step : Int) :
    CommentRepo.update_comment_count st none step = (none, st) := by
  unfold CommentRepo.update_comment_count
  have hnone : st.comments.find? (fun c => some c.cid == (none : Option Nat)) = none :=
    List.find?_eq_none.mpr (fun x _ => by simp)
  rw [hnone]

theorem commentCommentCounter_update_comment_count (st : DB) (w : Nat) (step : Int)
    (c : CommentRow) (hfind : st.comments.find? (fun x => x.cid == w) = some c) :
    commentCommentCounter (CommentRepo.update_comment_count st (some w) step).2 w
      = max (commentCommentCounter st w + step) 0 := by
  unfold commentCommentCounter CommentRepo.update_comment_count
  rw [somePred_eq, hfind]
  have hkey : (c.cid == w) = true := by simpa using List.find?_some hfind
  simp only
  rw [find?_updateFirst_self hfind (by simpa using hkey)]
  simp

theorem commentCommentCounter_update_comment_count_nonpos (st : DB) (w : Nat)
    (step : Int) (hstep : step ≤ 0) :
    commentCommentCounter (CommentRepo.update_comment_count st (some w) step).2 w
      = max (commentCommentCounter st w + step) 0 := by
  cases hfind : st.comments.find? (fun x => x.cid == w) with
  | some c => exact commentCommentCounter_update_comment_count st w step c hfind
  | none =>
      unfold commentCommentCounter CommentRepo.update_comment_count
      rw [somePred_eq, hfind]
      simp only [Option.map_none, Option.getD_none]
      rw [hfind]
      simp
      omega

theorem comments_find?_update_comment_count_other (st : DB) (v w : Nat)
    (step : Int) (hw : w ≠ v) :
    ((CommentRepo.update_comment_count st (some v) step).2).comments.find?
        (fun x => x.cid == w)
      = st.comments.find? (fun x => x.cid == w) := by
  unfold CommentRepo.update_comment_count
  rw [somePred_eq]
  cases hfind : st.comments.find? (fun c => c.cid == v) with
  | none => rfl
  | some c =>
      simp only
      exact @find?_updateFirst_disjoint _ (fun x => x.cid == v) (fun x => x.cid == w)
        (fun x => { x with comment_count := max (x.comment_count + step) 0 })
        st.comments (fun a => rfl)
        (fun a ha => by
          have hpa : a.cid = v := by simpa using ha
          simp [hpa, Ne.symm hw])

theorem commentCommentCounter_update_comment_count_other (st : DB) (v w : Nat)
    (step : Int) (hw : w ≠ v) :
    commentCommentCounter (CommentRepo.update_comment_count st (some v) step).2 w
      = commentCommentCounter st w := by
  unfold commentCommentCounter CommentRepo.update_comment_count
  rw [somePred_eq]
  cases hfind : st.comments.find? (fun x => x.cid == v) with
  | none => rfl
  | some c =>
      simp only
      rw [@find?_updateFirst_disjoint _ (fun x => x.cid == v) (fun x => x.cid == w)
        (fun x => { x with comment_count := max (x.comment_count + step) 0 })
        st.comments (fun a => rfl)
        (fun a ha => by
          have hpa : a.cid = v := by simpa using ha
          simp [hpa, Ne.symm hw])]

theorem comment_count_map_updateFirst (p : CommentRow → Bool)
    (f : CommentRow → CommentRow) (l : List CommentRow) (w : Nat)
    (hcid : ∀ a, (f a).cid = a.cid)
    (hcc : ∀ a, (f a).comment_count = a.comment_count) :
    ((updateFirst p f l).find? (fun x => x.cid == w)).map (fun x => x.comment_count)
      = (l.find? (fun x => x.cid == w)).map (fun x => x.comment_count) :=
  @find?_proj_updateFirst _ _ p (fun x => x.cid == w) f (fun x => x.comment_count) l
    (fun a => by simp [hcid]) (fun a _ => hcc a)

theorem like_count_map_updateFirst (p : CommentRow → Bool)
    (f : CommentRow → CommentRow) (l : List CommentRow) (w : Nat)
    (hcid : ∀ a, (f a).cid = a.cid)
    (hlc : ∀ a, (f a).like_count = a.like_count) :
    ((updateFirst p f l).find? (fun x => x.cid == w)).map (fun x => x.like_count)
      = (l.find? (fun x => x.cid == w)).map (fun x => x.like_count) :=
  @find?_proj_updateFirst _ _ p (fun x => x.cid == w) f (fun x => x.like_count) l
    (fun a => by simp [hcid]) (fun a _ => hlc a)

theorem followingCounter_update_following (st : DB) (u : Nat) (step : Int) :
    followingCounter (UserStatsRepo.update_following st u step).2 u
      = max (followingCounter st u + step) 0 := by
  unfold followingCounter UserStatsRepo.update_following
  cases hfind : st.user_stats.find? (fun s => s.user_id == u) with
  | some s =>
      have hkey : (s.user_id == u) = true := by simpa using List.find?_some hfind
      simp only
      rw [find?_updateFirst_self hfind (by simpa using hkey)]
      simp
  | none =>
      simp only [List.find?_append, hfind, Option.none_or]
      simp [List.find?_cons]

theorem followingCounter_update_following_other (st : DB) (u w : Nat) (step : Int)
    (hw : w ≠ u) :
    followingCounter (UserStatsRepo.update_following st u step).2 w
      = followingCounter st w := by
  unfold followingCounter UserStatsRepo.update_following
  cases hfind : st.user_stats.find? (fun s => s.user_id == u) with
  | some s =>
      simp only
      rw [@find?_updateFirst_disjoint _ (fun x => x.user_id == u)
        (fun s => s.user_id == w)
        (fun x => { x with following_count := max (x.following_count + step) 0 })
        st.user_stats (fun a => rfl)
        (fun a ha => by
          have hpa : a.user_id = u := by simpa using ha
          simp [hpa, Ne.symm hw])]
  | none =>
      simp only [List.find?_append]
      have hone : (List.find? (fun s => s.user_id == w)
          [({ user_id := u, following_count := max (0 + step) 0,
              followers_count := 0 } : UserStatsRow)]) = none := by
        simp [List.find?_cons, Ne.symm hw]
      rw [hone]
      simp

theorem followersCounter_update_followers (st : DB) (u : Nat) (step : Int) :
    followersCounter (UserStatsRepo.update_followers st u step).2 u
      = max (followersCounter st u + step) 0 := by
  unfold followersCounter UserStatsRepo.update_followers
  cases hfind : st.user_stats.find? (fun s => s.user_id == u) with
  | some s =>
      have hkey : (s.user_id == u) = true := by simpa using List.find?_some hfind
      simp only
      rw [find?_updateFirst_self hfind (by simpa using hkey)]
      simp
  | none =>
      simp only [List.find?_append, hfind, Option.none_or]
      simp [List.find?_cons]

theorem followersCounter_update_followers_other (st : DB) (u w : Nat) (step : Int)
    (hw : w ≠ u) :
    followersCounter (UserStatsRepo.update_followers st u step).2 w
      = followersCounter st w := by
  unfold followersCounter UserStatsRepo.update_followers
  cases hfind : st.user_stats.find? (fun s => s.user_id == u) with
  | some s =>
      simp only
      rw [@find?_updateFirst_disjoint _ (fun x => x.user_id == u)
        (fun s => s.user_id == w)
        (fun x => { x with followers_count := max (x.followers_count + step) 0 })
        st.user_stats (fun a => rfl)
        (fun a ha => by
          have hpa : a.user_id = u := by simpa using ha
          simp [hpa, Ne.symm hw])]
  | none =>
      simp only [List.find?_append]
      have hone : (List.find? (fun s => s.user_id == w)
          [({ user_id := u, following_count := 0,
              followers_count := max (0 + step) 0 } : UserStatsRow)]) = none := by
        simp [List.find?_cons, Ne.symm hw]
      rw [hone]
      simp

theorem followingCounter_update_followers (st : DB) (u w : Nat) (step : Int) :
    followingCounter (UserStatsRepo.update_followers st u step).2 w
      = followingCounter st w := by
  unfold followingCounter UserStatsRepo.update_followers
  cases hfind : st.user_stats.find? (fun s => s.user_id == u) with
  | some s =>
      simp only
      have hmap := @find?_proj_updateFirst _ _ (fun x => x.user_id == u)
        (fun s => s.user_id == w)
        (fun x => { x with followers_count := max (x.followers_count + step) 0 })
        (fun s => s.following_count) st.user_stats (fun a => rfl) (fun a _ => rfl)
      rw [hmap]
  | none =>
      simp only [List.find?_append]
      cases hw2 : st.user_stats.find? (fun s => s.user_id == w) with
      | some t => simp [hw2]
      | none =>
          simp only [hw2, Option.none_or]
          by_cases hwu : w = u
          · subst hwu
            simp [List.find?_cons]
          · have hone : (List.find? (fun s => s.user_id == w)
                [({ user_id := u, following_count := 0,
                    followers_count := max (0 + step) 0 } : UserStatsRow)]) = none := by
              simp [List.find?_cons, Ne.symm hwu]
            rw [hone]

theorem followersCounter_update_following (st : DB) (u w : Nat) (step : Int) :
    followersCounter (UserStatsRepo.update_following st u step).2 w
      = followersCounter st w := by
  unfold followersCounter UserStatsRepo.update_following
  cases hfind : st.user_stats.find? (fun s => s.user_id == u) with
  | some s =>
      simp only
      have hmap := @find?_proj_updateFirst _ _ (fun x => x.user_id == u)
        (fun s => s.user_id == w)
        (fun x => { x with following_count := max (x.following_count + step) 0 })
        (fun s => s.followers_count) st.user_stats (fun a => rfl) (fun a _ => rfl)
      rw [hmap]
  | none =>
      simp only [List.find?_append]
      cases hw2 : st.user_stats.find? (fun s => s.user_id == w) with
      | some t => simp [hw2]
      | none =>
          simp only [hw2, Option.none_or]
          by_cases hwu : w = u
          · subst hwu
            simp [List.find?_cons]
          · have hone : (List.find? (fun s => s.user_id == w)
                [({ user_id := u, following_count := max (0 + step) 0,
                    followers_count := 0 } : UserStatsRow)]) = none := by
              simp [List.find?_cons, Ne.symm hwu]
            rw [hone]

theorem mem_updateFirst_of_find? {p : α → Bool} {f : α → α} {l : List α} {a : α}
    (h : l.find? p = some a) : f a ∈ updateFirst p f l := by
  induction l with
  | nil => simp at h
  | cons x xs ih =>
      rw [List.find?_cons] at h
      by_cases hx : p x
      · simp only [hx, if_pos] at h
        cases h
        simp [updateFirst, hx]
      · simp only [hx, Bool.false_eq_true, if_false] at h
        simp [updateFirst, hx, ih h]

theorem create_follow_frame (st : DB) (data : FollowCreate) :
    ∃ fs ck, (FollowRepo.create_follow st data).2 = { st with follows := fs, clock := ck } := by
  unfold FollowRepo.create_follow
  cases hany : st.follows.find? (FollowRepo.pairMatch data.user_id data.followed_user_id) with
  | none => exact ⟨_, _, rfl⟩
  | some x =>
      by_cases hdel : x.deleted_at.isSome
      · simp only [hdel, if_pos]
        exact ⟨_, _, rfl⟩
      · simp only [hdel, Bool.false_eq_true, if_false]
        exact ⟨st.follows, st.clock, rfl⟩

/-! Claim C8. -/

/-- C8: for every comment whose deleted_at is null, hardDeleteComment fails
with NotSoftDeleted and leaves the whole state (row and content included)
intact; and whenever hard delete returns a success flag, the comment's
deleted_at was already set by a prior soft delete. -/
theorem C8_hard_delete_requires_prior_soft_delete :
    (∀ (st : DB) (cid : Nat) (c : CommentRow),
        st.comments.find? (fun x => x.cid == cid) = some c →
        CommentRepo.hasContent st cid = true →
        c.deleted_at = none →
        CommentSvc.hard_delete_comment st cid = (.error .commentNotSoftDeleted, st)) ∧
    (∀ (st : DB) (cid : Nat) (r : Bool) (st' : DB),
        CommentSvc.hard_delete_comment st cid = (.ok r, st') →
        ∃ c, st.comments.find? (fun x => x.cid == cid) = some c ∧ c.deleted_at ≠ none) := by
  constructor
  · intro st cid c hfind hcontent hdel
    have hc : c.cid = cid := by simpa using List.find?_some hfind
    unfold CommentSvc.hard_delete_comment CommentRepo.get_comment_by_cid_for_admin
    rw [hfind]
    simp [hc, hcontent, hdel]
  · intro st cid r st' h
    unfold CommentSvc.hard_delete_comment CommentRepo.get_comment_by_cid_for_admin at h
    cases hfind : st.comments.find? (fun x => x.cid == cid) with
    | none => rw [hfind] at h; simp at h
    | some c =>
        rw [hfind] at h
        simp only at h
        by_cases hcontent : CommentRepo.hasContent st c.cid = true
        · rw [if_pos hcontent] at h
          simp only at h
          cases hdel : c.deleted_at with
          | none => rw [hdel] at h; simp at h
          | some t =>
              exact ⟨c, rfl, by simp [hdel]⟩
        · rw [if_neg hcontent] at h
          simp at h

/-- C8 witness at a concrete state: hard delete of the live comment 10 in the
three-comment thread fails with NotSoftDeleted and changes nothing. -/
theorem C8_hard_delete_requires_prior_soft_delete_witness :
    stRAB.comments.find? (fun x => x.cid == 10)
      = some (stRAB.comments.get ⟨0, by decide⟩) ∧
    CommentSvc.hard_delete_comment stRAB 10 = (.error .commentNotSoftDeleted, stRAB) :=
  ⟨by decide,
    C8_hard_delete_requires_prior_soft_delete.1 stRAB 10
      (stRAB.comments.get ⟨0, by decide⟩) (by decide) (by decide) (by decide)⟩

theorem deleted_at_map_update_comment_count (st : DB) (cid? : Option Nat)
    (step : Int) (w : Nat) :
    (((CommentRepo.update_comment_count st cid? step).2).comments.find?
        (fun x => x.cid == w)).map (fun x => x.deleted_at)
      = (st.comments.find? (fun x => x.cid == w)).map (fun x => x.deleted_at) := by
  unfold CommentRepo.update_comment_count
  cases hfind : st.comments.find? (fun c => some c.cid == cid?) with
  | none => rfl
  | some c =>
      simp only
      exact @find?_proj_updateFirst _ _ (fun c => some c.cid == cid?)
        (fun x => x.cid == w)
        (fun x => { x with comment_count := max (x.comment_count + step) 0 })
        (fun x => x.deleted_at)
        st.comments (fun a => rfl) (fun a _ => rfl)

/-! Claim C4. -/

/-- C4: soft-deleting a comment applies the tiered counter cascade.
Top-level (parent absent, root_id = own cid): the post counter is decremented
by the node's own comment_count (floored at 0) and no comment node counter
changes.  Second-level (parent_id = root_id): post counter and the parent's
counter each decrement by 1.  Third-or-deeper (parent_id present and different
from root_id): post counter, parent counter and root counter each decrement
by 1. -/
theorem C4_soft_delete_tiered_cascade :
    (∀ (st : DB) (cid : Nat) (c : CommentRow),
        st.comments.find? (fun x => x.cid == cid) = some c →
        CommentRepo.hasContent st cid = true →
        c.parent_id = none → c.root_id = some cid →
        ∃ st', CommentSvc.soft_delete_comment st cid = (.ok true, st') ∧
          postCommentCounter st' c.post_id
            = max (postCommentCounter st c.post_id - c.comment_count) 0 ∧
          (∀ w, commentCommentCounter st' w = commentCommentCounter st w)) ∧
    (∀ (st : DB) (cid : Nat) (c : CommentRow) (pcid : Nat),
        st.comments.find? (fun x => x.cid == cid) = some c →
        CommentRepo.hasContent st cid = true →
        c.parent_id = some pcid → c.root_id = some pcid →
        ∃ st', CommentSvc.soft_delete_comment st cid = (.ok true, st') ∧
          postCommentCounter st' c.post_id
            = max (postCommentCounter st c.post_id - 1) 0 ∧
          commentCommentCounter st' pcid
            = max (commentCommentCounter st pcid - 1) 0) ∧
    (∀ (st : DB) (cid : Nat) (c : CommentRow) (pcid rcid : Nat),
        st.comments.find? (fun x => x.cid == cid) = some c →
        CommentRepo.hasContent st cid = true →
        c.parent_id = some pcid → c.root_id = some rcid → pcid ≠ rcid →
        ∃ st', CommentSvc.soft_delete_comment st cid = (.ok true, st') ∧
          postCommentCounter st' c.post_id
            = max (postCommentCounter st c.post_id - 1) 0 ∧
          commentCommentCounter st' pcid
            = max (commentCommentCounter st pcid - 1) 0 ∧
          commentCommentCounter st' rcid
            = max (commentCommentCounter st rcid - 1) 0) := by
  refine ⟨?_, ?_, ?_⟩
  · intro st cid c hfind hcontent hpar hroot
    have hc : c.cid = cid := by simpa using List.find?_some hfind
    refine ⟨(PostStatsRepo.update_comments
        { st with
          comments := updateFirst (fun x => x.cid == cid)
            (fun x => { x with deleted_at := some st.clock }) st.comments
          clock := st.clock + 1 } c.post_id (-c.comment_count)).2, ?_, ?_, ?_⟩
    · unfold CommentSvc.soft_delete_comment CommentRepo.get_comment_by_cid_for_admin
        CommentRepo.soft_delete_comment
      rw [hfind]
      simp [hc, hcontent, hpar, hroot]
    · rw [postCommentCounter_update_comments]
      have hsame : postCommentCounter
          { st with
            comments := updateFirst (fun x => x.cid == cid)
              (fun x => { x with deleted_at := some st.clock }) st.comments
            clock := st.clock + 1 } c.post_id = postCommentCounter st c.post_id := rfl
      rw [hsame]
      simp [sub_eq_add_neg]
    · intro w
      obtain ⟨ps, hps⟩ := update_comments_frame
        { st with
          comments := updateFirst (fun x => x.cid == cid)
            (fun x => { x with deleted_at := some st.clock }) st.comments
          clock := st.clock + 1 } c.post_id (-c.comment_count)
      rw [hps]
      unfold commentCommentCounter
      simp only
      rw [comment_count_map_updateFirst (fun x => x.cid == cid)
        (fun x => { x with deleted_at := some st.clock }) st.comments w
        (fun a => rfl) (fun a => rfl)]
  · intro st cid c pcid hfind hcontent hpar hroot
    have hc : c.cid = cid := by simpa using List.find?_some hfind
    refine ⟨(CommentRepo.update_comment_count
        (PostStatsRepo.update_comments
          { st with
            comments := updateFirst (fun x => x.cid == cid)
              (fun x => { x with deleted_at := some st.clock }) st.comments
            clock := st.clock + 1 } c.post_id (-1)).2 c.parent_id (-1)).2, ?_, ?_, ?_⟩
    · unfold CommentSvc.soft_delete_comment CommentRepo.get_comment_by_cid_for_admin
        CommentRepo.soft_delete_comment
      rw [hfind]
      simp [hc, hcontent, hpar, hroot]
    · obtain ⟨cs, hcs⟩ := update_comment_count_frame
        (PostStatsRepo.update_comments
          { st with
            comments := updateFirst (fun x => x.cid == cid)
              (fun x => { x with deleted_at := some st.clock }) st.comments
            clock := st.clock + 1 } c.post_id (-1)).2 c.parent_id (-1)
      rw [hcs]
      have hpost : postCommentCounter
          { (PostStatsRepo.update_comments
              { st with
                comments := updateFirst (fun x => x.cid == cid)
                  (fun x => { x with deleted_at := some st.clock }) st.comments
                clock := st.clock + 1 } c.post_id (-1)).2 with comments := cs } c.post_id
          = postCommentCounter
            (PostStatsRepo.update_comments
              { st with
                comments := updateFirst (fun x => x.cid == cid)
                  (fun x => { x with deleted_at := some st.clock }) st.comments
                clock := st.clock + 1 } c.post_id (-1)).2 c.post_id := rfl
      rw [hpost, postCommentCounter_update_comments]
      have hsame : postCommentCounter
          { st with
            comments := updateFirst (fun x => x.cid == cid)
              (fun x => { x with deleted_at := some st.clock }) st.comments
            clock := st.clock + 1 } c.post_id = postCommentCounter st c.post_id := rfl
      rw [hsame]
      simp [sub_eq_add_neg]
    · rw [hpar]
      rw [commentCommentCounter_update_comment_count_nonpos _ _ _ (by norm_num)]
      have hmid : commentCommentCounter
          (PostStatsRepo.update_comments
            { st with
              comments := updateFirst (fun x => x.cid == cid)
                (fun x => { x with deleted_at := some st.clock }) st.comments
              clock := st.clock + 1 } c.post_id (-1)).2 pcid
          = commentCommentCounter st pcid := by
        obtain ⟨ps, hps⟩ := update_comments_frame
          { st with
            comments := updateFirst (fun x => x.cid == cid)
              (fun x => { x with deleted_at := some st.clock }) st.comments
            clock := st.clock + 1 } c.post_id (-1)
        rw [hps]
        unfold commentCommentCounter
        simp only
        rw [comment_count_map_updateFirst (fun x => x.cid == cid)
          (fun x => { x with deleted_at := some st.clock }) st.comments pcid
          (fun a => rfl) (fun a => rfl)]
      rw [hmid]
      simp [sub_eq_add_neg]
  · intro st cid c pcid rcid hfind hcontent hpar hroot hne
    have hc : c.cid = cid := by simpa using List.find?_some hfind
    have hbr2 : (c.parent_id == c.root_id) = false := by
      rw [hpar, hroot]
      simp [hne]
    refine ⟨(CommentRepo.update_comment_count
        (CommentRepo.update_comment_count
          (PostStatsRepo.update_comments
            { st with
              comments := updateFirst (fun x => x.cid == cid)
                (fun x => { x with deleted_at := some st.clock }) st.comments
              clock := st.clock + 1 } c.post_id (-1)).2 c.parent_id (-1)).2
        c.root_id (-1)).2, ?_, ?_, ?_, ?_⟩
    · unfold CommentSvc.soft_delete_comment CommentRepo.get_comment_by_cid_for_admin
        CommentRepo.soft_delete_comment
      rw [hfind]
      simp [hc, hcontent, hpar, hroot, hbr2, hne]
    · obtain ⟨cs2, hcs2⟩ := update_comment_count_frame
        (CommentRepo.update_comment_count
          (PostStatsRepo.update_comments
            { st with
              comments := updateFirst (fun x => x.cid == cid)
                (fun x => { x with deleted_at := some st.clock }) st.comments
              clock := st.clock + 1 } c.post_id (-1)).2 c.parent_id (-1)).2 c.root_id (-1)
      obtain ⟨cs1, hcs1⟩ := update_comment_count_frame
        (PostStatsRepo.update_comments
          { st with
            comments := updateFirst (fun x => x.cid == cid)
              (fun x => { x with deleted_at := some st.clock }) st.comments
            clock := st.clock + 1 } c.post_id (-1)).2 c.parent_id (-1)
      rw [hcs2, hcs1]
      have hpost : postCommentCounter
          { { (PostStatsRepo.update_comments
              { st with
                comments := updateFirst (fun x => x.cid == cid)
                  (fun x => { x with deleted_at := some st.clock }) st.comments
                clock := st.clock + 1 } c.post_id (-1)).2 with comments := cs1 }
            with comments := cs2 } c.post_id
          = postCommentCounter
            (PostStatsRepo.update_comments
              { st with
                comments := updateFirst (fun x => x.cid == cid)
                  (fun x => { x with deleted_at := some st.clock }) st.comments
                clock := st.clock + 1 } c.post_id (-1)).2 c.post_id := rfl
      rw [hpost, postCommentCounter_update_comments]
      have hsame : postCommentCounter
          { st with
            comments := updateFirst (fun x => x.cid == cid)
              (fun x => { x with deleted_at := some st.clock }) st.comments
            clock := st.clock + 1 } c.post_id = postCommentCounter st c.post_id := rfl
      rw [hsame]
      simp [sub_eq_add_neg]
    · rw [hroot, hpar]
      rw [commentCommentCounter_update_comment_count_other _ rcid pcid _ hne]
      rw [commentCommentCounter_update_comment_count_nonpos _ _ _ (by norm_num)]
      have hmid : commentCommentCounter
          (PostStatsRepo.update_comments
            { st with
              comments := updateFirst (fun x => x.cid == cid)
                (fun x => { x with deleted_at := some st.clock }) st.comments
              clock := st.clock + 1 } c.post_id (-1)).2 pcid
          = commentCommentCounter st pcid := by
        obtain ⟨ps, hps⟩ := update_comments_frame
          { st with
            comments := updateFirst (fun x => x.cid == cid)
              (fun x => { x with deleted_at := some st.clock }) st.comments
            clock := st.clock + 1 } c.post_id (-1)
        rw [hps]
        unfold commentCommentCounter
        simp only
        rw [comment_count_map_updateFirst (fun x => x.cid == cid)
          (fun x => { x with deleted_at := some st.clock }) st.comments pcid
          (fun a => rfl) (fun a => rfl)]
      rw [hmid]
      simp [sub_eq_add_neg]
    · rw [hroot, hpar]
      rw [commentCommentCounter_update_comment_count_nonpos _ _ _ (by norm_num)]
      rw [commentCommentCounter_update_comment_count_other _ pcid rcid _ (Ne.symm hne)]
      have hmid : commentCommentCounter
          (PostStatsRepo.update_comments
            { st with
              comments := updateFirst (fun x => x.cid == cid)
                (fun x => { x with deleted_at := some st.clock }) st.comments
              clock := st.clock + 1 } c.post_id (-1)).2 rcid
          = commentCommentCounter st rcid := by
        obtain ⟨ps, hps⟩ := update_comments_frame
          { st with
            comments := updateFirst (fun x => x.cid == cid)
              (fun x => { x with deleted_at := some st.clock }) st.comments
            clock := st.clock + 1 } c.post_id (-1)
        rw [hps]
        unfold commentCommentCounter
        simp only
        rw [comment_count_map_updateFirst (fun x => x.cid == cid)
          (fun x => { x with deleted_at := some st.clock }) st.comments rcid
          (fun a => rfl) (fun a => rfl)]
      rw [hmid]
      simp [sub_eq_add_neg]

/-! Claim C10. -/

/-- C10: the repository soft delete has no already-deleted guard (unlike
restore): a comment whose deleted_at is already set is found again by the
admin-scope lookup, re-stamped with the current clock, the call reports
success, and the orchestration applies the tiered decrements another time,
for every tier — a top-level re-delete subtracts the node's comment_count
from the post counter again, a second-level re-delete subtracts 1 from the
post and parent counters again, and a third-or-deeper re-delete subtracts 1
from the post, parent and root counters again; iterating the call therefore
decrements the counters once per call, floored at zero. -/
theorem C10_soft_delete_repeats_without_guard :
    (∀ (st : DB) (cid : Nat) (c : CommentRow),
      st.comments.find? (fun x => x.cid == cid) = some c →
      CommentRepo.hasContent st cid = true →
      c.deleted_at ≠ none →
      c.parent_id = none → c.root_id = some cid →
      ∃ st', CommentSvc.soft_delete_comment st cid = (.ok true, st') ∧
        (st'.comments.find? (fun x => x.cid == cid)).map (fun x => x.deleted_at)
          = some (some st.clock) ∧
        postCommentCounter st' c.post_id
          = max (postCommentCounter st c.post_id - c.comment_count) 0 ∧
        (∀ w, commentCommentCounter st' w = commentCommentCounter st w)) ∧
    (∀ (st : DB) (cid : Nat) (c : CommentRow) (pcid : Nat),
      st.comments.find? (fun x => x.cid == cid) = some c →
      CommentRepo.hasContent st cid = true →
      c.deleted_at ≠ none →
      c.parent_id = some pcid → c.root_id = some pcid →
      ∃ st', CommentSvc.soft_delete_comment st cid = (.ok true, st') ∧
        (st'.comments.find? (fun x => x.cid == cid)).map (fun x => x.deleted_at)
          = some (some st.clock) ∧
        postCommentCounter st' c.post_id
          = max (postCommentCounter st c.post_id - 1) 0 ∧
        commentCommentCounter st' pcid
          = max (commentCommentCounter st pcid - 1) 0) ∧
    (∀ (st : DB) (cid : Nat) (c : CommentRow) (pcid rcid : Nat),
      st.comments.find? (fun x => x.cid == cid) = some c →
      CommentRepo.hasContent st cid = true →
      c.deleted_at ≠ none →
      c.parent_id = some pcid → c.root_id = some rcid → pcid ≠ rcid →
      ∃ st', CommentSvc.soft_delete_comment st cid = (.ok true, st') ∧
        (st'.comments.find? (fun x => x.cid == cid)).map (fun x => x.deleted_at)
          = some (some st.clock) ∧
        postCommentCounter st' c.post_id
          = max (postCommentCounter st c.post_id - 1) 0 ∧
        commentCommentCounter st' pcid
          = max (commentCommentCounter st pcid - 1) 0 ∧
        commentCommentCounter st' rcid
          = max (commentCommentCounter st rcid - 1) 0) := by
  refine ⟨?_, ?_, ?_⟩
  · intro st cid c hfind hcontent hdel hpar hroot
    have hc : c.cid = cid := by simpa using List.find?_some hfind
    refine ⟨(PostStatsRepo.update_comments
        { st with
          comments := updateFirst (fun x => x.cid == cid)
            (fun x => { x with deleted_at := some st.clock }) st.comments
          clock := st.clock + 1 } c.post_id (-c.comment_count)).2, ?_, ?_, ?_, ?_⟩
    · unfold CommentSvc.soft_delete_comment CommentRepo.get_comment_by_cid_for_admin
        CommentRepo.soft_delete_comment
      rw [hfind]
      simp [hc, hcontent, hpar, hroot]
    · obtain ⟨ps, hps⟩ := update_comments_frame
        { st with
          comments := updateFirst (fun x => x.cid == cid)
            (fun x => { x with deleted_at := some st.clock }) st.comments
          clock := st.clock + 1 } c.post_id (-c.comment_count)
      rw [hps]
      have hstamp := @find?_updateFirst_self _ (fun x => x.cid == cid)
        (fun x => { x with deleted_at := some st.clock }) st.comments c hfind
        (by simpa using hc)
      simp only
      rw [hstamp]
      rfl
    · rw [postCommentCounter_update_comments]
      have hsame : postCommentCounter
          { st with
            comments := updateFirst (fun x => x.cid == cid)
              (fun x => { x with deleted_at := some st.clock }) st.comments
            clock := st.clock + 1 } c.post_id = postCommentCounter st c.post_id := rfl
      rw [hsame]
      simp [sub_eq_add_neg]
    · intro w
      obtain ⟨ps, hps⟩ := update_comments_frame
        { st with
          comments := updateFirst (fun x => x.cid == cid)
            (fun x => { x with deleted_at := some st.clock }) st.comments
          clock := st.clock + 1 } c.post_id (-c.comment_count)
      rw [hps]
      unfold commentCommentCounter
      simp only
      rw [comment_count_map_updateFirst (fun x => x.cid == cid)
        (fun x => { x with deleted_at := some st.clock }) st.comments w
        (fun a => rfl) (fun a => rfl)]
  · intro st cid c pcid hfind hcontent hdel hpar hroot
    have hc : c.cid = cid := by simpa using List.find?_some hfind
    refine ⟨(CommentRepo.update_comment_count
        (PostStatsRepo.update_comments
          { st with
            comments := updateFirst (fun x => x.cid == cid)
              (fun x => { x with deleted_at := some st.clock }) st.comments
            clock := st.clock + 1 } c.post_id (-1)).2 c.parent_id (-1)).2, ?_, ?_, ?_, ?_⟩
    · unfold CommentSvc.soft_delete_comment CommentRepo.get_comment_by_cid_for_admin
        CommentRepo.soft_delete_comment
      rw [hfind]
      simp [hc, hcontent, hpar, hroot]
    · rw [deleted_at_map_update_comment_count]
      obtain ⟨ps, hps⟩ := update_comments_frame
        { st with
          comments := updateFirst (fun x => x.cid == cid)
            (fun x => { x with deleted_at := some st.clock }) st.comments
          clock := st.clock + 1 } c.post_id (-1)
      rw [hps]
      have hstamp := @find?_updateFirst_self _ (fun x => x.cid == cid)
        (fun x => { x with deleted_at := some st.clock }) st.comments c hfind
        (by simpa using hc)
      simp only
      rw [hstamp]
      rfl
    · obtain ⟨cs, hcs⟩ := update_comment_count_frame
        (PostStatsRepo.update_comments
          { st with
            comments := updateFirst (fun x => x.cid == cid)
              (fun x => { x with deleted_at := some st.clock }) st.comments
            clock := st.clock + 1 } c.post_id (-1)).2 c.parent_id (-1)
      rw [hcs]
      have hpost : postCommentCounter
          { (PostStatsRepo.update_comments
              { st with
                comments := updateFirst (fun x => x.cid == cid)
                  (fun x => { x with deleted_at := some st.clock }) st.comments
                clock := st.clock + 1 } c.post_id (-1)).2 with comments := cs } c.post_id
          = postCommentCounter
            (PostStatsRepo.update_comments
              { st with
                comments := updateFirst (fun x => x.cid == cid)
                  (fun x => { x with deleted_at := some st.clock }) st.comments
                clock := st.clock + 1 } c.post_id (-1)).2 c.post_id := rfl
      rw [hpost, postCommentCounter_update_comments]
      have hsame : postCommentCounter
          { st with
            comments := updateFirst (fun x => x.cid == cid)
              (fun x => { x with deleted_at := some st.clock }) st.comments
            clock := st.clock + 1 } c.post_id = postCommentCounter st c.post_id := rfl
      rw [hsame]
      simp [sub_eq_add_neg]
    · rw [hpar]
      rw [commentCommentCounter_update_comment_count_nonpos _ _ _ (by norm_num)]
      have hmid : commentCommentCounter
          (PostStatsRepo.update_comments
            { st with
              comments := updateFirst (fun x => x.cid == cid)
                (fun x => { x with deleted_at := some st.clock }) st.comments
              clock := st.clock + 1 } c.post_id (-1)).2 pcid
          = commentCommentCounter st pcid := by
        obtain ⟨ps, hps⟩ := update_comments_frame
          { st with
            comments := updateFirst (fun x => x.cid == cid)
              (fun x => { x with deleted_at := some st.clock }) st.comments
            clock := st.clock + 1 } c.post_id (-1)
        rw [hps]
        unfold commentCommentCounter
        simp only
        rw [comment_count_map_updateFirst (fun x => x.cid == cid)
          (fun x => { x with deleted_at := some st.clock }) st.comments pcid
          (fun a => rfl) (fun a => rfl)]
      rw [hmid]
      simp [sub_eq_add_neg]
  · intro st cid c pcid rcid hfind hcontent hdel hpar hroot hne
    have hc : c.cid = cid := by simpa using List.find?_some hfind
    have hbr2 : (c.parent_id == c.root_id) = false := by
      rw [hpar, hroot]
      simp [hne]
    refine ⟨(CommentRepo.update_comment_count
        (CommentRepo.update_comment_count
          (PostStatsRepo.update_comments
            { st with
              comments := updateFirst (fun x => x.cid == cid)
                (fun x => { x with deleted_at := some st.clock }) st.comments
              clock := st.clock + 1 } c.post_id (-1)).2 c.parent_id (-1)).2
        c.root_id (-1)).2, ?_, ?_, ?_, ?_, ?_⟩
    · unfold CommentSvc.soft_delete_comment CommentRepo.get_comment_by_cid_for_admin
        CommentRepo.soft_delete_comment
      rw [hfind]
      simp [hc, hcontent, hpar, hroot, hbr2, hne]
    · rw [deleted_at_map_update_comment_count, deleted_at_map_update_comment_count]
      obtain ⟨ps, hps⟩ := update_comments_frame
        { st with
          comments := updateFirst (fun x => x.cid == cid)
            (fun x => { x with deleted_at := some st.clock }) st.comments
          clock := st.clock + 1 } c.post_id (-1)
      rw [hps]
      have hstamp := @find?_updateFirst_self _ (fun x => x.cid == cid)
        (fun x => { x with deleted_at := some st.clock }) st.comments c hfind
        (by simpa using hc)
      simp only
      rw [hstamp]
      rfl
    · obtain ⟨cs2, hcs2⟩ := update_comment_count_frame
        (CommentRepo.update_comment_count
          (PostStatsRepo.update_comments
            { st with
              comments := updateFirst (fun x => x.cid == cid)
                (fun x => { x with deleted_at := some st.clock }) st.comments
              clock := st.clock + 1 } c.post_id (-1)).2 c.parent_id (-1)).2 c.root_id (-1)
      obtain ⟨cs1, hcs1⟩ := update_comment_count_frame
        (PostStatsRepo.update_comments
          { st with
            comments := updateFirst (fun x => x.cid == cid)
              (fun x => { x with deleted_at := some st.clock }) st.comments
            clock := st.clock + 1 } c.post_id (-1)).2 c.parent_id (-1)
      rw [hcs2, hcs1]
      have hpost : postCommentCounter
          { { (PostStatsRepo.update_comments
              { st with
                comments := updateFirst (fun x => x.cid == cid)
                  (fun x => { x with deleted_at := some st.clock }) st.comments
                clock := st.clock + 1 } c.post_id (-1)).2 with comments := cs1 }
            with comments := cs2 } c.post_id
          = postCommentCounter
            (PostStatsRepo.update_comments
              { st with
                comments := updateFirst (fun x => x.cid == cid)
                  (fun x => { x with deleted_at := some st.clock }) st.comments
                clock := st.clock + 1 } c.post_id (-1)).2 c.post_id := rfl
      rw [hpost, postCommentCounter_update_comments]
      have hsame : postCommentCounter
          { st with
            comments := updateFirst (fun x => x.cid == cid)
              (fun x => { x with deleted_at := some st.clock }) st.comments
            clock := st.clock + 1 } c.post_id = postCommentCounter st c.post_id := rfl
      rw [hsame]
      simp [sub_eq_add_neg]
    · rw [hroot, hpar]
      rw [commentCommentCounter_update_comment_count_other _ rcid pcid _ hne]
      rw [commentCommentCounter_update_comment_count_nonpos _ _ _ (by norm_num)]
      have hmid : commentCommentCounter
          (PostStatsRepo.update_comments
            { st with
              comments := updateFirst (fun x => x.cid == cid)
                (fun x => { x with deleted_at := some st.clock }) st.comments
              clock := st.clock + 1 } c.post_id (-1)).2 pcid
          = commentCommentCounter st pcid := by
        obtain ⟨ps, hps⟩ := update_comments_frame
          { st with
            comments := updateFirst (fun x => x.cid == cid)
              (fun x => { x with deleted_at := some st.clock }) st.comments
            clock := st.clock + 1 } c.post_id (-1)
        rw [hps]
        unfold commentCommentCounter
        simp only
        rw [comment_count_map_updateFirst (fun x => x.cid == cid)
          (fun x => { x with deleted_at := some st.clock }) st.comments pcid
          (fun a => rfl) (fun a => rfl)]
      rw [hmid]
      simp [sub_eq_add_neg]
    · rw [hroot, hpar]
      rw [commentCommentCounter_update_comment_count_nonpos _ _ _ (by norm_num)]
      rw [commentCommentCounter_update_comment_count_other _ pcid rcid _ (Ne.symm hne)]
      have hmid : commentCommentCounter
          (PostStatsRepo.update_comments
            { st with
              comments := updateFirst (fun x => x.cid == cid)
                (fun x => { x with deleted_at := some st.clock }) st.comments
              clock := st.clock + 1 } c.post_id (-1)).2 rcid
          = commentCommentCounter st rcid := by
        obtain ⟨ps, hps⟩ := update_comments_frame
          { st with
            comments := updateFirst (fun x => x.cid == cid)
              (fun x => { x with deleted_at := some st.clock }) st.comments
            clock := st.clock + 1 } c.post_id (-1)
        rw [hps]
        unfold commentCommentCounter
        simp only
        rw [comment_count_map_updateFirst (fun x => x.cid == cid)
          (fun x => { x with deleted_at := some st.clock }) st.comments rcid
          (fun a => rfl) (fun a => rfl)]
      rw [hmid]
      simp [sub_eq_add_neg]

/-- C10 witness: each tier's conjunct applied to an already-soft-deleted
comment of the concrete thread — re-deleting the deleted top-level comment 10
subtracts its comment_count from the post counter again, re-deleting the
deleted second-level comment 11 subtracts 1 from the post and parent counters
again, and re-deleting the deleted third-level comment 12 subtracts 1 from
the post, parent and root counters again. -/
theorem C10_soft_delete_repeats_without_guard_witness :
    ((delTop.2.comments.get ⟨0, by decide⟩).deleted_at ≠ none ∧
      (∃ st', CommentSvc.soft_delete_comment delTop.2 10 = (.ok true, st') ∧
        (st'.comments.find? (fun x => x.cid == 10)).map (fun x => x.deleted_at)
          = some (some delTop.2.clock) ∧
        postCommentCounter st' (delTop.2.comments.get ⟨0, by decide⟩).post_id
          = max (postCommentCounter delTop.2
                (delTop.2.comments.get ⟨0, by decide⟩).post_id
              - (delTop.2.comments.get ⟨0, by decide⟩).comment_count) 0 ∧
        (∀ w, commentCommentCounter st' w = commentCommentCounter delTop.2 w))) ∧
    ((stDelA.comments.get ⟨1, by decide⟩).deleted_at ≠ none ∧
      (∃ st', CommentSvc.soft_delete_comment stDelA 11 = (.ok true, st') ∧
        (st'.comments.find? (fun x => x.cid == 11)).map (fun x => x.deleted_at)
          = some (some stDelA.clock) ∧
        postCommentCounter st' (stDelA.comments.get ⟨1, by decide⟩).post_id
          = max (postCommentCounter stDelA
              (stDelA.comments.get ⟨1, by decide⟩).post_id - 1) 0 ∧
        commentCommentCounter st' 10
          = max (commentCommentCounter stDelA 10 - 1) 0)) ∧
    ((stDelB.comments.get ⟨2, by decide⟩).deleted_at ≠ none ∧
      (∃ st', CommentSvc.soft_delete_comment stDelB 12 = (.ok true, st') ∧
        (st'.comments.find? (fun x => x.cid == 12)).map (fun x => x.deleted_at)
          = some (some stDelB.clock) ∧
        postCommentCounter st' (stDelB.comments.get ⟨2, by decide⟩).post_id
          = max (postCommentCounter stDelB
              (stDelB.comments.get ⟨2, by decide⟩).post_id - 1) 0 ∧
        commentCommentCounter st' 11
          = max (commentCommentCounter stDelB 11 - 1) 0 ∧
        commentCommentCounter st' 10
          = max (commentCommentCounter stDelB 10 - 1) 0)) :=
  ⟨⟨by decide,
      C10_soft_delete_repeats_without_guard.1 delTop.2 10
        (delTop.2.comments.get ⟨0, by decide⟩)
        (by decide) (by decide) (by decide) (by decide) (by decide)⟩,
    ⟨by decide,
      C10_soft_delete_repeats_without_guard.2.1 stDelA 11
        (stDelA.comments.get ⟨1, by decide⟩) 10
        (by decide) (by decide) (by decide) (by decide) (by decide)⟩,
    ⟨by decide,
      C10_soft_delete_repeats_without_guard.2.2 stDelB 12
        (stDelB.comments.get ⟨2, by decide⟩) 11 10
        (by decide) (by decide) (by decide) (by decide) (by decide) (by decide)⟩⟩

/-- C4 witness: soft-deleting the second-level comment 11 of the concrete
thread decrements the post counter and the parent counter by one each. -/
theorem C4_soft_delete_tiered_cascade_witness :
    (stRAB.comments.find? (fun x => x.cid == 11)
        = some (stRAB.comments.get ⟨1, by decide⟩)) ∧
    (∃ st', CommentSvc.soft_delete_comment stRAB 11 = (.ok true, st') ∧
      postCommentCounter st' (stRAB.comments.get ⟨1, by decide⟩).post_id
        = max (postCommentCounter stRAB
            (stRAB.comments.get ⟨1, by decide⟩).post_id - 1) 0 ∧
      commentCommentCounter st' 10 = max (commentCommentCounter stRAB 10 - 1) 0) :=
  ⟨by decide,
    C4_soft_delete_tiered_cascade.2.1 stRAB 11 (stRAB.comments.get ⟨1, by decide⟩) 10
      (by decide) (by decide) (by decide) (by decide)⟩

theorem commentLikeCounter_update_like_count (st : DB) (w : Nat) (step : Int)
    (c : CommentRow) (hfind : st.comments.find? (fun x => x.cid == w) = some c) :
    commentLikeCounter (CommentRepo.update_like_count st (some w) step).2 w
      = max (commentLikeCounter st w + step) 0 := by
  unfold commentLikeCounter CommentRepo.update_like_count
  rw [somePred_eq, hfind]
  have hkey : (c.cid == w) = true := by simpa using List.find?_some hfind
  simp only
  rw [find?_updateFirst_self hfind (by simpa using hkey)]
  simp

theorem like_error_state {st : DB} {data : LikeCreate} {e : Err} {stR : DB}
    (h : LikeRepo.like st data = (.error e, stR)) : stR = st := by
  unfold LikeRepo.like at h
  cases hany : st.likes.find? (LikeRepo.tripleMatch data) with
  | none => rw [hany] at h; simp at h
  | some x =>
      rw [hany] at h
      simp only at h
      by_cases hdel : x.deleted_at.isSome
      · rw [if_pos hdel] at h
        simp at h
      · rw [if_neg hdel] at h
        exact (congrArg Prod.snd h).symm

theorem cancel_like_error_state {st : DB} {data : LikeCreate} {e : Err} {stR : DB}
    (h : LikeRepo.cancel_like st data = (.error e, stR)) : stR = st := by
  unfold LikeRepo.cancel_like at h
  cases hany : st.likes.find? (LikeRepo.tripleMatch data) with
  | none =>
      rw [hany] at h
      exact (congrArg Prod.snd h).symm
  | some x =>
      rw [hany] at h
      simp only at h
      by_cases hdel : x.deleted_at.isSome
      · rw [if_pos hdel] at h
        exact (congrArg Prod.snd h).symm
      · rw [if_neg hdel] at h
        simp at h

/-! Exactness-preservation helpers: each successful orchestrated operation
keeps a materialized counter equal to the count of active rows it
summarizes, stated pointwise per key. -/

theorem find?_filter_swap (v p : α → Bool) (l : List α) :
    (l.filter v).find? p = l.find? (fun x => v x && p x) := by
  induction l with
  | nil => rfl
  | cons x xs ih =>
      by_cases hv : v x
      · by_cases hp : p x
        · simp [List.filter_cons, hv, List.find?_cons, hp]
        · simp [List.filter_cons, hv, List.find?_cons, hp, ih]
      · simp [List.filter_cons, hv, List.find?_cons, hv, ih]

theorem follow_preserves_exactness (st : DB) (a b : Nat) (ua ub : UserRow) (w : Nat)
    (hua : UserRepo.get_user_by_uid st a = some ua)
    (hub : UserRepo.get_user_by_uid st b = some ub)
    (hne : a ≠ b)
    (hnf : FollowRepo.is_following st a b = false)
    (hx1 : followingCounter st w = (activeFollowing st w : Int))
    (hx2 : followersCounter st w = (activeFollowers st w : Int)) :
    ∃ out stf, FollowSvc.follow_user st ⟨a, b⟩ = (.ok out, stf) ∧
      followingCounter stf w = (activeFollowing stf w : Int) ∧
      followersCounter stf w = (activeFollowers stf w : Int) := by
  have hab : (a == b) = false := beq_eq_false_iff_ne.mpr hne
  set st1 := (FollowRepo.create_follow st ⟨a, b⟩).2 with hst1
  set stf := (UserStatsRepo.update_followers
      (UserStatsRepo.update_following st1 a 1).2 b 1).2 with hstf
  have hservice : FollowSvc.follow_user st ⟨a, b⟩
      = (.ok (FollowRepo.create_follow st ⟨a, b⟩).1, stf) := by
    unfold FollowSvc.follow_user
    simp [hua, hub, hab, hnf, hstf, hst1]
  obtain ⟨fs, ck, hframe⟩ := create_follow_frame st ⟨a, b⟩
  have h1w : followingCounter st1 w = followingCounter st w := by
    rw [hst1, hframe]
    rfl
  have h2w : followersCounter st1 w = followersCounter st w := by
    rw [hst1, hframe]
    rfl
  have hfolsame : stf.follows = st1.follows := by
    obtain ⟨us1, hu1⟩ := update_following_frame st1 a 1
    obtain ⟨us2, hu2⟩ := update_followers_frame
      (UserStatsRepo.update_following st1 a 1).2 b 1
    rw [hstf, hu2, hu1]
  have hact : activeFollowing st1 w
        = activeFollowing st w + (if w = a then 1 else 0) ∧
      activeFollowers st1 w
        = activeFollowers st w + (if w = b then 1 else 0) := by
    cases hany : st.follows.find? (FollowRepo.pairMatch a b) with
    | none =>
        have hins : st1.follows = st.follows
            ++ [{ user_id := a, followed_user_id := b, created_at := st.clock,
                  deleted_at := none }] := by
          rw [hst1]
          unfold FollowRepo.create_follow
          simp [hany]
        unfold activeFollowing activeFollowers
        rw [hins, List.countP_append, List.countP_append]
        constructor
        · by_cases hw : w = a
          · subst hw
            simp [List.countP_cons]
          · have hwa : (a == w) = false := beq_eq_false_iff_ne.mpr (Ne.symm hw)
            simp [List.countP_cons, hwa, hw]
        · by_cases hw : w = b
          · subst hw
            simp [List.countP_cons]
          · have hwb : (b == w) = false := beq_eq_false_iff_ne.mpr (Ne.symm hw)
            simp [List.countP_cons, hwb, hw]
    | some x =>
        have hpx : FollowRepo.pairMatch a b x = true := List.find?_some hany
        have hpu : x.user_id = a := by
          have h2 := hpx
          unfold FollowRepo.pairMatch at h2
          rw [Bool.and_eq_true] at h2
          simpa using h2.1
        have hpf : x.followed_user_id = b := by
          have h2 := hpx
          unfold FollowRepo.pairMatch at h2
          rw [Bool.and_eq_true] at h2
          simpa using h2.2
        have hxd : x.deleted_at.isSome = true := by
          cases hxdel : x.deleted_at with
          | some t => rfl
          | none =>
              exfalso
              have hxmem : x ∈ st.follows.filter (fun f => f.deleted_at.isNone) :=
                List.mem_filter.mpr ⟨List.mem_of_find?_eq_some hany, by simp [hxdel]⟩
              have hsome : ((st.follows.filter (fun f => f.deleted_at.isNone)).find?
                  (FollowRepo.pairMatch a b)).isSome :=
                List.find?_isSome.mpr ⟨x, hxmem, hpx⟩
              unfold FollowRepo.is_following at hnf
              rw [hnf] at hsome
              simp at hsome
        have hres : st1.follows = updateFirst (FollowRepo.pairMatch a b)
            (fun f => { f with deleted_at := none, created_at := st.clock })
            st.follows := by
          rw [hst1]
          unfold FollowRepo.create_follow
          simp [hany, hxd]
        have hxfalse : ∀ (q : FollowRow → Bool),
            (∀ y, q y = (y.user_id == w && y.deleted_at.isNone)) → q x = false := by
          intro q hq
          rw [hq]
          cases hxdel : x.deleted_at with
          | some t => simp [hxdel]
          | none => rw [hxdel] at hxd; simp at hxd
        constructor
        · unfold activeFollowing
          rw [hres]
          have hcu := @countP_updateFirst _ (FollowRepo.pairMatch a b)
            (fun f => f.user_id == w && f.deleted_at.isNone)
            (fun f => { f with deleted_at := none, created_at := st.clock })
            st.follows x hany
          have hqx : (x.user_id == w && x.deleted_at.isNone) = false := by
            cases hxdel : x.deleted_at with
            | some t => simp [hxdel]
            | none => rw [hxdel] at hxd; simp at hxd
          simp only [hqx, Bool.false_eq_true, if_false] at hcu
          by_cases hw : w = a
          · subst hw
            have hxw : (x.user_id == w) = true := by simp [hpu]
            simp [hxw] at hcu
            rw [if_pos rfl]
            omega
          · have hxw : (x.user_id == w) = false := by
              simp [hpu]
              exact Ne.symm hw
            simp [hxw] at hcu
            rw [if_neg hw]
            omega
        · unfold activeFollowers
          rw [hres]
          have hcu := @countP_updateFirst _ (FollowRepo.pairMatch a b)
            (fun f => f.followed_user_id == w && f.deleted_at.isNone)
            (fun f => { f with deleted_at := none, created_at := st.clock })
            st.follows x hany
          have hqx : (x.followed_user_id == w && x.deleted_at.isNone) = false := by
            cases hxdel : x.deleted_at with
            | some t => simp [hxdel]
            | none => rw [hxdel] at hxd; simp at hxd
          simp only [hqx, Bool.false_eq_true, if_false] at hcu
          by_cases hw : w = b
          · subst hw
            have hxw : (x.followed_user_id == w) = true := by simp [hpf]
            simp [hxw] at hcu
            rw [if_pos rfl]
            omega
          · have hxw : (x.followed_user_id == w) = false := by
              simp [hpf]
              exact Ne.symm hw
            simp [hxw] at hcu
            rw [if_neg hw]
            omega
  have hactf1 : activeFollowing stf w
      = activeFollowing st w + (if w = a then 1 else 0) := by
    unfold activeFollowing
    rw [hfolsame]
    exact hact.1
  have hactf2 : activeFollowers stf w
      = activeFollowers st w + (if w = b then 1 else 0) := by
    unfold activeFollowers
    rw [hfolsame]
    exact hact.2
  refine ⟨_, stf, hservice, ?_, ?_⟩
  · by_cases hw : w = a
    · subst hw
      rw [hstf, followingCounter_update_followers, followingCounter_update_following,
        h1w, hactf1]
      simp only [if_pos rfl]
      rw [hx1]
      rw [max_eq_left (by omega)]
      push_cast
      ring
    · rw [hstf, followingCounter_update_followers,
        followingCounter_update_following_other _ _ _ _ hw, h1w, hactf1]
      simp only [hw, if_false]
      rw [hx1]
      push_cast
      ring
  · by_cases hw : w = b
    · subst hw
      rw [hstf, followersCounter_update_followers,
        followersCounter_update_following, h2w, hactf2]
      simp only [if_pos rfl]
      rw [hx2]
      rw [max_eq_left (by omega)]
      push_cast
      ring
    · rw [hstf, followersCounter_update_followers_other _ _ _ _ hw,
        followersCounter_update_following, h2w, hactf2]
      simp only [hw, if_false]
      rw [hx2]
      push_cast
      ring

theorem unfollow_preserves_exactness (st : DB) (a b : Nat) (w : Nat)
    (hisf : FollowRepo.is_following st a b = true)
    (hx1 : followingCounter st w = (activeFollowing st w : Int))
    (hx2 : followersCounter st w = (activeFollowers st w : Int)) :
    ∃ st2, FollowSvc.cancel_follow st ⟨a, b⟩ = (.ok true, st2) ∧
      followingCounter st2 w = (activeFollowing st2 w : Int) ∧
      followersCounter st2 w = (activeFollowers st2 w : Int) := by
  obtain ⟨y, hy⟩ : ∃ y, (st.follows.filter (fun f => f.deleted_at.isNone)).find?
      (FollowRepo.pairMatch a b) = some y := by
    unfold FollowRepo.is_following at hisf
    exact Option.isSome_iff_exists.mp hisf
  have hyq : st.follows.find?
      (fun f => f.deleted_at.isNone && FollowRepo.pairMatch a b f) = some y := by
    rw [← find?_filter_swap]
    exact hy
  have hymem : y ∈ st.follows.filter (fun f => f.deleted_at.isNone) :=
    List.mem_of_find?_eq_some hy
  have hydel : y.deleted_at.isNone = true := (List.mem_filter.mp hymem).2
  have hypair : FollowRepo.pairMatch a b y = true := List.find?_some hy
  have hyu : y.user_id = a := by
    have h2 := hypair
    unfold FollowRepo.pairMatch at h2
    rw [Bool.and_eq_true] at h2
    simpa using h2.1
  have hyf : y.followed_user_id = b := by
    have h2 := hypair
    unfold FollowRepo.pairMatch at h2
    rw [Bool.and_eq_true] at h2
    simpa using h2.2
  set stc1 := ({ st with
    follows := updateFirst
      (fun f => f.deleted_at.isNone && FollowRepo.pairMatch a b f)
      (fun f => { f with deleted_at := some st.clock }) st.follows
    clock := st.clock + 1 } : DB) with hstc1
  set st2 := (UserStatsRepo.update_followers
      (UserStatsRepo.update_following stc1 a (-1)).2 b (-1)).2 with hst2
  have hcservice : FollowSvc.cancel_follow st ⟨a, b⟩ = (.ok true, st2) := by
    unfold FollowSvc.cancel_follow FollowRepo.cancel_follow
    simp [hisf, hy, hstc1, hst2]
  have hc1a : followingCounter stc1 w = followingCounter st w := by
    rw [hstc1]
    rfl
  have hc1b : followersCounter stc1 w = followersCounter st w := by
    rw [hstc1]
    rfl
  have hact1 : activeFollowing stc1 w
      = activeFollowing st w - (if w = a then 1 else 0) := by
    unfold activeFollowing
    rw [hstc1]
    simp only
    have hcu := @countP_updateFirst _
      (fun f => f.deleted_at.isNone && FollowRepo.pairMatch a b f)
      (fun f => f.user_id == w && f.deleted_at.isNone)
      (fun f => { f with deleted_at := some st.clock }) st.follows y hyq
    have hqfy : ((fun f => f.user_id == w && f.deleted_at.isNone)
        ({ y with deleted_at := some st.clock } : FollowRow)) = false := by
      simp
    simp only [hqfy, Bool.false_eq_true, if_false] at hcu
    by_cases hw : w = a
    · subst hw
      have hqy : (y.user_id == w && y.deleted_at.isNone) = true := by
        simp [hyu, hydel]
      simp [hqy] at hcu
      rw [if_pos rfl]
      omega
    · have hqy : (y.user_id == w && y.deleted_at.isNone) = false := by
        have : (y.user_id == w) = false := by
          simp [hyu]
          exact Ne.symm hw
        simp [this]
      simp [hqy] at hcu
      rw [if_neg hw]
      omega
  have hact2 : activeFollowers stc1 w
      = activeFollowers st w - (if w = b then 1 else 0) := by
    unfold activeFollowers
    rw [hstc1]
    simp only
    have hcu := @countP_updateFirst _
      (fun f => f.deleted_at.isNone && FollowRepo.pairMatch a b f)
      (fun f => f.followed_user_id == w && f.deleted_at.isNone)
      (fun f => { f with deleted_at := some st.clock }) st.follows y hyq
    have hqfy : ((fun f => f.followed_user_id == w && f.deleted_at.isNone)
        ({ y with deleted_at := some st.clock } : FollowRow)) = false := by
      simp
    simp only [hqfy, Bool.false_eq_true, if_false] at hcu
    by_cases hw : w = b
    · subst hw
      have hqy : (y.followed_user_id == w && y.deleted_at.isNone) = true := by
        simp [hyf, hydel]
      simp [hqy] at hcu
      rw [if_pos rfl]
      omega
    · have hqy : (y.followed_user_id == w && y.deleted_at.isNone) = false := by
        have : (y.followed_user_id == w) = false := by
          simp [hyf]
          exact Ne.symm hw
        simp [this]
      simp [hqy] at hcu
      rw [if_neg hw]
      omega
  have hcnt1 : 0 < activeFollowing st a := by
    apply List.countP_pos_iff.mpr
    exact ⟨y, (List.mem_filter.mp hymem).1, by simp [hyu, hydel]⟩
  have hcnt2 : 0 < activeFollowers st b := by
    apply List.countP_pos_iff.mpr
    exact ⟨y, (List.mem_filter.mp hymem).1, by simp [hyf, hydel]⟩
  have hfolsame : st2.follows = stc1.follows := by
    obtain ⟨us1, hu1⟩ := update_following_frame stc1 a (-1)
    obtain ⟨us2, hu2⟩ := update_followers_frame
      (UserStatsRepo.update_following stc1 a (-1)).2 b (-1)
    rw [hst2, hu2, hu1]
  have hactf1 : activeFollowing st2 w = activeFollowing stc1 w := by
    unfold activeFollowing
    rw [hfolsame]
  have hactf2 : activeFollowers st2 w = activeFollowers stc1 w := by
    unfold activeFollowers
    rw [hfolsame]
  refine ⟨st2, hcservice, ?_, ?_⟩
  · by_cases hw : w = a
    · subst hw
      rw [hst2, followingCounter_update_followers, followingCounter_update_following,
        hc1a, hx1, hactf1, hact1]
      rw [if_pos rfl]
      rw [max_eq_left (by omega)]
      have : activeFollowing st w - 1 + 1 = activeFollowing st w :=
        Nat.sub_add_cancel hcnt1
      push_cast [Nat.cast_sub hcnt1]
      ring
    · rw [hst2, followingCounter_update_followers,
        followingCounter_update_following_other _ _ _ _ hw, hc1a, hx1, hactf1, hact1]
      rw [if_neg hw]
      simp
  · by_cases hw : w = b
    · subst hw
      rw [hst2, followersCounter_update_followers,
        followersCounter_update_following, hc1b, hx2, hactf2, hact2]
      rw [if_pos rfl]
      rw [max_eq_left (by omega)]
      push_cast [Nat.cast_sub hcnt2]
      ring
    · rw [hst2, followersCounter_update_followers_other _ _ _ _ hw,
        followersCounter_update_following, hc1b, hx2, hactf2, hact2]
      rw [if_neg hw]
      simp

theorem commentLikeCounter_update_like_count_other (st : DB) (v w : Nat)
    (step : Int) (hw : w ≠ v) :
    commentLikeCounter (CommentRepo.update_like_count st (some v) step).2 w
      = commentLikeCounter st w := by
  unfold commentLikeCounter CommentRepo.update_like_count
  rw [somePred_eq]
  cases hfind : st.comments.find? (fun x => x.cid == v) with
  | none => rfl
  | some c =>
      simp only
      rw [@find?_updateFirst_disjoint _ (fun x => x.cid == v) (fun x => x.cid == w)
        (fun x => { x with like_count := max (x.like_count + step) 0 })
        st.comments (fun a => rfl)
        (fun a ha => by
          have hpa : a.cid = v := by simpa using ha
          simp [hpa, Ne.symm hw])]

theorem like_preserves_exactness (st : DB) (u tid : Nat) (uu : UserRow)
    (c : CommentRow) (w : Nat)
    (hu : UserRepo.get_user_by_uid st u = some uu)
    (hget : CommentRepo.get_comment_by_cid_for_user st tid = .ok (some c))
    (hled : ∀ x, st.likes.find?
        (LikeRepo.tripleMatch ⟨u, LikeTargetType.COMMENT, tid⟩) = some x →
        x.deleted_at ≠ none)
    (hx : commentLikeCounter st w = (activeCommentLikes st w : Int)) :
    ∃ out stf, LikeSvc.like_target st ⟨u, LikeTargetType.COMMENT, tid⟩
        = (.ok out, stf) ∧
      commentLikeCounter stf w = (activeCommentLikes stf w : Int) := by
  have hbeq1 : (LikeTargetType.COMMENT == LikeTargetType.POST) = false := by decide
  have hbeq2 : (LikeTargetType.COMMENT == LikeTargetType.COMMENT) = true := by decide
  have hcall : ∃ d, st.comments.find? (fun x => x.cid == tid) = some d := by
    have hc' : c ∈ st.comments ∧ (c.cid == tid) = true := by
      unfold CommentRepo.get_comment_by_cid_for_user at hget
      cases hfd : (st.comments.filter CommentRepo.userVisible).find?
          (fun x => x.cid == tid) with
      | none => rw [hfd] at hget; simp at hget
      | some c' =>
          rw [hfd] at hget
          simp only at hget
          by_cases hcont : CommentRepo.hasContent st c'.cid = true
          · rw [if_pos hcont] at hget
            have hcc : c' = c := by simpa using hget
            subst hcc
            exact ⟨(List.mem_filter.mp (List.mem_of_find?_eq_some hfd)).1,
              by simpa using List.find?_some hfd⟩
          · rw [if_neg hcont] at hget
            simp at hget
    exact Option.isSome_iff_exists.mp (List.find?_isSome.mpr ⟨c, hc'.1, hc'.2⟩)
  obtain ⟨d, hd⟩ := hcall
  cases hany : st.likes.find? (LikeRepo.tripleMatch ⟨u, LikeTargetType.COMMENT, tid⟩) with
  | none =>
      set row : LikeRow := ({ lid := st.nextId, user_id := u, target_type := LikeTargetType.COMMENT, target_id := tid, created_at := st.clock, deleted_at := none } : LikeRow) with hrow
      set stL : DB := ({ st with likes := st.likes ++ [row], clock := st.clock + 1, nextId := st.nextId + 1 } : DB) with hstL
      have hlike : LikeRepo.like st ⟨u, LikeTargetType.COMMENT, tid⟩ = (.ok row, stL) := by
        unfold LikeRepo.like
        rw [hany]
      set stf := (CommentRepo.update_like_count stL (some tid) 1).2 with hstf
      have hservice : LikeSvc.like_target st ⟨u, LikeTargetType.COMMENT, tid⟩
          = (.ok row, stf) := by
        unfold LikeSvc.like_target
        simp [hu, hget, hlike, hbeq1, hbeq2, hstf]
      have hdL : stL.comments.find? (fun x => x.cid == tid) = some d := hd
      have hlikesame : stf.likes = stL.likes := by
        obtain ⟨cs, hcs⟩ := update_like_count_frame stL (some tid) 1
        rw [hstf, hcs]
      have hactf : activeCommentLikes stf w
          = activeCommentLikes st w + (if w = tid then 1 else 0) := by
        unfold activeCommentLikes
        rw [hlikesame, hstL]
        simp only
        rw [List.countP_append]
        by_cases hw : w = tid
        · subst hw
          simp [List.countP_cons, LikeTargetType.COMMENT]
        · have hwt : (tid == w) = false := beq_eq_false_iff_ne.mpr (Ne.symm hw)
          simp [List.countP_cons, hwt, hw]
      refine ⟨row, stf, hservice, ?_⟩
      by_cases hw : w = tid
      · subst hw
        rw [hstf, commentLikeCounter_update_like_count stL w 1 d hdL, hactf]
        have hsame : commentLikeCounter stL w = commentLikeCounter st w := by
          rw [hstL]
          rfl
        rw [hsame, hx, if_pos rfl]
        rw [max_eq_left (by omega)]
        push_cast
        ring
      · rw [hstf, commentLikeCounter_update_like_count_other stL tid w 1 hw, hactf]
        have hsame : commentLikeCounter stL w = commentLikeCounter st w := by
          rw [hstL]
          rfl
        rw [hsame, hx, if_neg hw]
        simp
  | some x =>
      have hxd : x.deleted_at ≠ none := hled x hany
      have hxds : x.deleted_at.isSome = true := by
        cases hxdel : x.deleted_at with
        | none => exact absurd hxdel hxd
        | some t => rfl
      have htr := List.find?_some hany
      have hxu : x.user_id = u := by
        unfold LikeRepo.tripleMatch at htr
        rw [Bool.and_eq_true, Bool.and_eq_true] at htr
        simpa using htr.1.1
      have hxt : x.target_type = LikeTargetType.COMMENT := by
        unfold LikeRepo.tripleMatch at htr
        rw [Bool.and_eq_true, Bool.and_eq_true] at htr
        simpa using htr.1.2
      have hxi : x.target_id = tid := by
        unfold LikeRepo.tripleMatch at htr
        rw [Bool.and_eq_true] at htr
        simpa using htr.2
      set stL : DB := ({ st with likes := updateFirst (LikeRepo.tripleMatch ⟨u, LikeTargetType.COMMENT, tid⟩) (fun l => { l with deleted_at := none, created_at := st.clock }) st.likes, clock := st.clock + 1 } : DB) with hstL
      have hlike : LikeRepo.like st ⟨u, LikeTargetType.COMMENT, tid⟩
          = (.ok { x with deleted_at := none, created_at := st.clock }, stL) := by
        unfold LikeRepo.like
        rw [hany]
        simp [hxds, hstL]
      set stf := (CommentRepo.update_like_count stL (some tid) 1).2 with hstf
      have hservice : LikeSvc.like_target st ⟨u, LikeTargetType.COMMENT, tid⟩
          = (.ok { x with deleted_at := none, created_at := st.clock }, stf) := by
        unfold LikeSvc.like_target
        simp [hu, hget, hlike, hbeq1, hbeq2, hstf]
      have hdL : stL.comments.find? (fun x => x.cid == tid) = some d := hd
      have hlikesame : stf.likes = stL.likes := by
        obtain ⟨cs, hcs⟩ := update_like_count_frame stL (some tid) 1
        rw [hstf, hcs]
      have hactf : activeCommentLikes stf w
          = activeCommentLikes st w + (if w = tid then 1 else 0) := by
        unfold activeCommentLikes
        rw [hlikesame, hstL]
        simp only
        have hcu := @countP_updateFirst _
          (LikeRepo.tripleMatch ⟨u, LikeTargetType.COMMENT, tid⟩)
          (fun l => l.target_type == LikeTargetType.COMMENT && l.target_id == w
            && l.deleted_at.isNone)
          (fun l => { l with deleted_at := none, created_at := st.clock })
          st.likes x hany
        have hxn : x.deleted_at.isNone = false := by
          cases hxdel : x.deleted_at with
          | none => exact absurd hxdel hxd
          | some t => simp [hxdel]
        simp only [hxt, hxi, hxn, Bool.and_false, Option.isNone_none, Bool.and_true,
          beq_self_eq_true, Bool.true_and, Bool.false_eq_true, if_false] at hcu
        by_cases hw : w = tid
        · subst hw
          simp only [beq_self_eq_true, if_true] at hcu
          rw [if_pos rfl]
          omega
        · have hwt : (tid == w) = false := beq_eq_false_iff_ne.mpr (Ne.symm hw)
          simp only [hwt, Bool.false_eq_true, if_false] at hcu
          rw [if_neg hw]
          omega
      refine ⟨_, stf, hservice, ?_⟩
      by_cases hw : w = tid
      · subst hw
        rw [hstf, commentLikeCounter_update_like_count stL w 1 d hdL, hactf]
        have hsame : commentLikeCounter stL w = commentLikeCounter st w := by
          rw [hstL]
          rfl
        rw [hsame, hx, if_pos rfl]
        rw [max_eq_left (by omega)]
        push_cast
        ring
      · rw [hstf, commentLikeCounter_update_like_count_other stL tid w 1 hw, hactf]
        have hsame : commentLikeCounter stL w = commentLikeCounter st w := by
          rw [hstL]
          rfl
        rw [hsame, hx, if_neg hw]
        simp

theorem unlike_preserves_exactness (st : DB) (u tid : Nat) (uu : UserRow)
    (x : LikeRow) (w : Nat)
    (hu : UserRepo.get_user_by_uid st u = some uu)
    (hany : st.likes.find?
        (LikeRepo.tripleMatch ⟨u, LikeTargetType.COMMENT, tid⟩) = some x)
    (hxact : x.deleted_at = none)
    (hx : commentLikeCounter st w = (activeCommentLikes st w : Int)) :
    ∃ out stf, LikeSvc.cancel_like st ⟨u, LikeTargetType.COMMENT, tid⟩
        = (.ok out, stf) ∧
      commentLikeCounter stf w = (activeCommentLikes stf w : Int) := by
  have hbeq1 : (LikeTargetType.COMMENT == LikeTargetType.POST) = false := by decide
  have htr := List.find?_some hany
  have hxt : x.target_type = LikeTargetType.COMMENT := by
    unfold LikeRepo.tripleMatch at htr
    rw [Bool.and_eq_true, Bool.and_eq_true] at htr
    simpa using htr.1.2
  have hxi : x.target_id = tid := by
    unfold LikeRepo.tripleMatch at htr
    rw [Bool.and_eq_true] at htr
    simpa using htr.2
  have hxds : x.deleted_at.isSome = false := by rw [hxact]; rfl
  set stC : DB := ({ st with likes := updateFirst (LikeRepo.tripleMatch ⟨u, LikeTargetType.COMMENT, tid⟩) (fun y => { y with deleted_at := some st.clock }) st.likes, clock := st.clock + 1 } : DB) with hstC
  have hrepo : LikeRepo.cancel_like st ⟨u, LikeTargetType.COMMENT, tid⟩
      = (.ok { x with deleted_at := some st.clock }, stC) := by
    unfold LikeRepo.cancel_like
    rw [hany]
    simp [hxds, hstC]
  set stf := (CommentRepo.update_like_count stC (some tid) (-1)).2 with hstf
  have hservice : LikeSvc.cancel_like st ⟨u, LikeTargetType.COMMENT, tid⟩
      = (.ok { x with deleted_at := some st.clock }, stf) := by
    unfold LikeSvc.cancel_like
    simp [hu, hrepo, hbeq1, hstf]
  have hlikesame : stf.likes = stC.likes := by
    obtain ⟨cs, hcs⟩ := update_like_count_frame stC (some tid) (-1)
    rw [hstf, hcs]
  have hcu := @countP_updateFirst _
    (LikeRepo.tripleMatch ⟨u, LikeTargetType.COMMENT, tid⟩)
    (fun l => l.target_type == LikeTargetType.COMMENT && l.target_id == w
      && l.deleted_at.isNone)
    (fun y => { y with deleted_at := some st.clock })
    st.likes x hany
  simp only [hxt, hxi, hxact, Option.isNone_none, Bool.and_true, Option.isNone_some,
    Bool.and_false, beq_self_eq_true, Bool.true_and, Bool.false_eq_true, if_false] at hcu
  have hactC : activeCommentLikes stf w
      + (if (tid == w) = true then 1 else 0) = activeCommentLikes st w := by
    unfold activeCommentLikes
    rw [hlikesame, hstC]
    simpa using hcu
  refine ⟨_, stf, hservice, ?_⟩
  by_cases hw : w = tid
  · subst hw
    have hge : 1 ≤ activeCommentLikes st w := by
      have hmem := List.mem_of_find?_eq_some hany
      have hqx : (fun l : LikeRow => l.target_type == LikeTargetType.COMMENT
          && l.target_id == w && l.deleted_at.isNone) x = true := by
        simp [hxt, hxi, hxact]
      exact List.countP_pos_iff.mpr ⟨x, hmem, hqx⟩
    cases hfrow : st.comments.find? (fun y => y.cid == w) with
    | none =>
        exfalso
        have hzero : commentLikeCounter st w = 0 := by
          unfold commentLikeCounter
          rw [hfrow]
          rfl
        rw [hzero] at hx
        omega
    | some d =>
        have hdC : stC.comments.find? (fun y => y.cid == w) = some d := hfrow
        have hcountf : commentLikeCounter stf w
            = max (commentLikeCounter st w + (-1)) 0 := by
          rw [hstf, commentLikeCounter_update_like_count stC w (-1) d hdC, hstC]
          rfl
        simp only [beq_self_eq_true, eq_self_iff_true, if_true] at hactC
        rw [max_eq_left (by omega)] at hcountf
        omega
  · have hcountf : commentLikeCounter stf w = commentLikeCounter st w := by
      rw [hstf, commentLikeCounter_update_like_count_other stC tid w (-1) hw, hstC]
      rfl
    have hwt : (tid == w) = false := beq_eq_false_iff_ne.mpr (Ne.symm hw)
    simp only [hwt, Bool.false_eq_true, if_false, add_zero] at hactC
    omega

theorem postCommentCounter_create_comment (st : DB) (d : CommentOnlyCreate) (w : Nat) :
    postCommentCounter (CommentRepo.create_comment st d).2 w
      = postCommentCounter st w := by
  unfold CommentRepo.create_comment
  by_cases hc : (d.parent_id.isNone && d.root_id.isNone) = true
  · rw [if_pos hc]
    rfl
  · rw [if_neg hc]
    rfl

theorem activePostComments_create_comment (st : DB) (d : CommentOnlyCreate) (w : Nat) :
    activePostComments (CommentRepo.create_comment st d).2 w
      = activePostComments st w + (if d.post_id = w then 1 else 0) := by
  unfold activePostComments CommentRepo.create_comment
  have hcnt : ∀ r : CommentRow, r.post_id = d.post_id → r.deleted_at = none →
      (st.comments ++ [r]).countP (fun c => c.post_id == w && c.deleted_at.isNone)
        = st.comments.countP (fun c => c.post_id == w && c.deleted_at.isNone)
          + (if d.post_id = w then 1 else 0) := by
    intro r hrp hrd
    rw [List.countP_append]
    by_cases hw : d.post_id = w
    · simp [List.countP_cons, hrp, hrd, hw]
    · have hbw : (d.post_id == w) = false := beq_eq_false_iff_ne.mpr hw
      simp [List.countP_cons, hrp, hrd, hbw, hw]
  by_cases hc : (d.parent_id.isNone && d.root_id.isNone) = true
  · rw [if_pos hc]
    simp only
    exact Eq.trans (countP_updateFirst_congr _ (fun a => rfl)) (hcnt _ rfl rfl)
  · rw [if_neg hc]
    exact hcnt _ rfl rfl

theorem activePostComments_update_comments (st : DB) (pid : Nat) (step : Int) (w : Nat) :
    activePostComments (PostStatsRepo.update_comments st pid step).2 w
      = activePostComments st w := by
  obtain ⟨ps, h⟩ := update_comments_frame st pid step
  rw [h]
  rfl

theorem activePostComments_update_comment_count (st : DB) (cid? : Option Nat)
    (step : Int) (w : Nat) :
    activePostComments (CommentRepo.update_comment_count st cid? step).2 w
      = activePostComments st w := by
  unfold activePostComments CommentRepo.update_comment_count
  cases hfind : st.comments.find? (fun c => some c.cid == cid?) with
  | none => rfl
  | some c =>
      simp only
      exact countP_updateFirst_congr _ (fun a => rfl)

theorem postCommentCounter_update_comment_count (st : DB) (cid? : Option Nat)
    (step : Int) (w : Nat) :
    postCommentCounter (CommentRepo.update_comment_count st cid? step).2 w
      = postCommentCounter st w := by
  obtain ⟨cs, h⟩ := update_comment_count_frame st cid? step
  rw [h]
  rfl

theorem postCommentCounter_repo_soft_delete (st : DB) (cid : Nat) (w : Nat) :
    postCommentCounter (CommentRepo.soft_delete_comment st cid).2 w
      = postCommentCounter st w := by
  unfold CommentRepo.soft_delete_comment
  cases hfind : st.comments.find? (fun c => c.cid == cid) <;> rfl

theorem postCommentCounter_repo_restore (st : DB) (cid : Nat) (w : Nat) :
    postCommentCounter (CommentRepo.restore_comment st cid).2 w
      = postCommentCounter st w := by
  unfold CommentRepo.restore_comment
  cases hfind : st.comments.find? (fun c => c.cid == cid) with
  | none => rfl
  | some c =>
      by_cases hdel : c.deleted_at.isNone = true
      · simp only [hdel, if_true]
      · simp only [hdel, Bool.false_eq_true, if_false]
        rfl

theorem activePostComments_repo_soft_delete (st : DB) (cid : Nat) (c : CommentRow)
    (w : Nat) (hfind : st.comments.find? (fun x => x.cid == cid) = some c)
    (hact : c.deleted_at = none) :
    activePostComments (CommentRepo.soft_delete_comment st cid).2 w
        + (if c.post_id = w then 1 else 0)
      = activePostComments st w := by
  unfold activePostComments CommentRepo.soft_delete_comment
  rw [hfind]
  simp only
  have hcu := @countP_updateFirst _ (fun x => x.cid == cid)
    (fun x => x.post_id == w && x.deleted_at.isNone)
    (fun x => { x with deleted_at := some st.clock }) st.comments c hfind
  simp only [hact, Option.isNone_none, Bool.and_true, Option.isNone_some,
    Bool.and_false, Bool.false_eq_true, if_false, add_zero, beq_iff_eq] at hcu
  exact hcu

theorem activePostComments_repo_restore (st : DB) (cid : Nat) (c : CommentRow)
    (t : Nat) (w : Nat) (hfind : st.comments.find? (fun x => x.cid == cid) = some c)
    (hdel : c.deleted_at = some t) :
    activePostComments (CommentRepo.restore_comment st cid).2 w
      = activePostComments st w + (if c.post_id = w then 1 else 0) := by
  unfold activePostComments CommentRepo.restore_comment
  rw [hfind]
  have hno : c.deleted_at.isNone = false := by rw [hdel]; rfl
  simp only [hno, Bool.false_eq_true, if_false]
  have hcu := @countP_updateFirst _ (fun x => x.cid == cid)
    (fun x => x.post_id == w && x.deleted_at.isNone)
    (fun x => { x with deleted_at := none }) st.comments c hfind
  simp only [hdel, Option.isNone_some, Bool.and_false, Option.isNone_none,
    Bool.and_true, Bool.false_eq_true, if_false, add_zero, beq_iff_eq] at hcu
  exact hcu

theorem postCommentCounter_content (st : DB) (cid : Nat) (s : String) (w : Nat) :
    postCommentCounter (CommentContentRepo.create st cid s) w
      = postCommentCounter st w := rfl

theorem activePostComments_content (st : DB) (cid : Nat) (s : String) (w : Nat) :
    activePostComments (CommentContentRepo.create st cid s) w
      = activePostComments st w := rfl

theorem create_preserves_post_exactness (st : DB) (data : CommentCreate) (w : Nat)
    (hx : postCommentCounter st w = (activePostComments st w : Int)) :
    postCommentCounter (CommentSvc.create_comment st data).2 w
      = (activePostComments (CommentSvc.create_comment st data).2 w : Int) := by
  cases hu : UserRepo.get_user_by_uid st data.author_id with
  | none =>
      unfold CommentSvc.create_comment
      rw [hu]
      exact hx
  | some uu =>
  cases hp : PostRepo.viewer_get_post_by_pid st data.post_id with
  | none =>
      unfold CommentSvc.create_comment
      rw [hu, hp]
      exact hx
  | some pp =>
  by_cases hw : w = data.post_id
  · subst hw
    unfold CommentSvc.create_comment
    rw [hu, hp]
    simp only
    split <;>
      (dsimp only;
       simp only [apply_ite (fun s : DB => postCommentCounter s data.post_id),
         apply_ite (fun s : DB => activePostComments s data.post_id),
         postCommentCounter_update_comment_count, activePostComments_update_comment_count,
         activePostComments_update_comments, postCommentCounter_content,
         activePostComments_content, activePostComments_create_comment,
         postCommentCounter_update_comments, postCommentCounter_content,
         postCommentCounter_create_comment, ite_self, eq_self_iff_true, if_true];
       rw [hx];
       omega)
  · have hne : ¬(data.post_id = w) := fun h => hw h.symm
    have hother : ∀ stA : DB,
        postCommentCounter (PostStatsRepo.update_comments stA data.post_id 1).2 w
          = postCommentCounter stA w :=
      fun stA => postCommentCounter_update_comments_other stA data.post_id w 1 hw
    unfold CommentSvc.create_comment
    rw [hu, hp]
    simp only
    split <;>
      (dsimp only;
       simp only [apply_ite (fun s : DB => postCommentCounter s w),
         apply_ite (fun s : DB => activePostComments s w),
         postCommentCounter_update_comment_count, activePostComments_update_comment_count,
         activePostComments_update_comments, postCommentCounter_content,
         activePostComments_content, activePostComments_create_comment,
         postCommentCounter_create_comment,
         hother, ite_self, hne, if_false, add_zero];
       exact hx)

theorem soft_delete_nontop_preserves_post_exactness (st : DB) (cid : Nat)
    (c : CommentRow) (p : Nat) (w : Nat)
    (hfind : st.comments.find? (fun x => x.cid == cid) = some c)
    (hcont : CommentRepo.hasContent st cid = true)
    (hpar : c.parent_id = some p)
    (hact : c.deleted_at = none)
    (hx : postCommentCounter st w = (activePostComments st w : Int)) :
    ∃ stf, CommentSvc.soft_delete_comment st cid = (.ok true, stf) ∧
      postCommentCounter stf w = (activePostComments stf w : Int) := by
  have hkey : c.cid = cid := by simpa using List.find?_some hfind
  have hadmin : CommentRepo.get_comment_by_cid_for_admin st cid = .ok (some c) := by
    unfold CommentRepo.get_comment_by_cid_for_admin
    rw [hfind]
    simp [hkey, hcont]
  set STS : DB := ({ st with comments := updateFirst (fun x => x.cid == cid) (fun x => { x with deleted_at := some st.clock }) st.comments, clock := st.clock + 1 } : DB) with hSTS
  have hrepo : CommentRepo.soft_delete_comment st cid = (true, STS) := by
    unfold CommentRepo.soft_delete_comment
    rw [hfind]
  have hactS : activePostComments STS w + (if c.post_id = w then 1 else 0)
      = activePostComments st w := by
    have h0 := activePostComments_repo_soft_delete st cid c w hfind hact
    rw [hrepo] at h0
    exact h0
  have hcntS : postCommentCounter STS w = postCommentCounter st w := by
    have h0 := postCommentCounter_repo_soft_delete st cid w
    rw [hrepo] at h0
    exact h0
  unfold CommentSvc.soft_delete_comment
  rw [hadmin, hrepo]
  simp only [hpar, Option.isNone_some, Bool.false_and, Bool.false_eq_true, if_false,
    if_true, Option.isSome_some, Bool.true_and]
  refine ⟨_, rfl, ?_⟩
  by_cases hpr : (some p == c.root_id) = true <;>
    simp only [hpr, Bool.not_true, Bool.not_false, Bool.and_false, Bool.false_eq_true,
      if_false, eq_self_iff_true, if_true] <;>
  (by_cases hw : w = c.post_id
   · subst hw
     have hupdc : ∀ stA : DB,
         postCommentCounter (PostStatsRepo.update_comments stA c.post_id (-1)).2 c.post_id
           = max (postCommentCounter stA c.post_id + (-1)) 0 :=
       fun stA => postCommentCounter_update_comments stA c.post_id (-1)
     simp only [apply_ite (fun s : DB => postCommentCounter s c.post_id),
       apply_ite (fun s : DB => activePostComments s c.post_id),
       postCommentCounter_update_comment_count, activePostComments_update_comment_count,
       activePostComments_update_comments, hupdc, ite_self]
     rw [hcntS, hx]
     simp only [eq_self_iff_true, if_true] at hactS
     omega
   · have hne : ¬(c.post_id = w) := fun h => hw h.symm
     have hother : ∀ stA : DB,
         postCommentCounter (PostStatsRepo.update_comments stA c.post_id (-1)).2 w
           = postCommentCounter stA w :=
       fun stA => postCommentCounter_update_comments_other stA c.post_id w (-1) hw
     simp only [apply_ite (fun s : DB => postCommentCounter s w),
       apply_ite (fun s : DB => activePostComments s w),
       postCommentCounter_update_comment_count, activePostComments_update_comment_count,
       activePostComments_update_comments, hother, ite_self]
     simp only [hne, if_false, add_zero] at hactS
     rw [hcntS, hx, hactS])

theorem restore_nontop_preserves_post_exactness (st : DB) (cid : Nat)
    (c : CommentRow) (p t : Nat) (w : Nat)
    (hfind : st.comments.find? (fun x => x.cid == cid) = some c)
    (hcont : CommentRepo.hasContent st cid = true)
    (hpar : c.parent_id = some p)
    (hdel : c.deleted_at = some t)
    (hx : postCommentCounter st w = (activePostComments st w : Int)) :
    ∃ stf, CommentSvc.restore_comment st cid = (.ok true, stf) ∧
      postCommentCounter stf w = (activePostComments stf w : Int) := by
  have hkey : c.cid = cid := by simpa using List.find?_some hfind
  have hadmin : CommentRepo.get_comment_by_cid_for_admin st cid = .ok (some c) := by
    unfold CommentRepo.get_comment_by_cid_for_admin
    rw [hfind]
    simp [hkey, hcont]
  have hno : c.deleted_at.isNone = false := by rw [hdel]; rfl
  set STR : DB := ({ st with comments := updateFirst (fun x => x.cid == cid) (fun x => { x with deleted_at := none }) st.comments } : DB) with hSTR
  have hrepo : CommentRepo.restore_comment st cid = (true, STR) := by
    unfold CommentRepo.restore_comment
    rw [hfind]
    simp only [hno, Bool.false_eq_true, if_false]
  have hactR : activePostComments STR w
      = activePostComments st w + (if c.post_id = w then 1 else 0) := by
    have h0 := activePostComments_repo_restore st cid c t w hfind hdel
    rw [hrepo] at h0
    exact h0
  have hcntR : postCommentCounter STR w = postCommentCounter st w := by
    have h0 := postCommentCounter_repo_restore st cid w
    rw [hrepo] at h0
    exact h0
  unfold CommentSvc.restore_comment
  rw [hadmin, hrepo]
  simp only [hpar, Option.isNone_some, Bool.false_and, Bool.false_eq_true, if_false,
    if_true, Option.isSome_some, Bool.true_and]
  refine ⟨_, rfl, ?_⟩
  by_cases hpr : (some p == c.root_id) = true <;>
    simp only [hpr, Bool.not_true, Bool.not_false, Bool.and_false, Bool.false_eq_true,
      if_false, eq_self_iff_true, if_true] <;>
  (by_cases hw : w = c.post_id
   · subst hw
     have hupdc : ∀ stA : DB,
         postCommentCounter (PostStatsRepo.update_comments stA c.post_id 1).2 c.post_id
           = max (postCommentCounter stA c.post_id + 1) 0 :=
       fun stA => postCommentCounter_update_comments stA c.post_id 1
     simp only [apply_ite (fun s : DB => postCommentCounter s c.post_id),
       apply_ite (fun s : DB => activePostComments s c.post_id),
       postCommentCounter_update_comment_count, activePostComments_update_comment_count,
       activePostComments_update_comments, hupdc, ite_self]
     rw [hcntR, hx]
     simp only [eq_self_iff_true, if_true] at hactR
     rw [hactR]
     omega
   · have hne : ¬(c.post_id = w) := fun h => hw h.symm
     have hother : ∀ stA : DB,
         postCommentCounter (PostStatsRepo.update_comments stA c.post_id 1).2 w
           = postCommentCounter stA w :=
       fun stA => postCommentCounter_update_comments_other stA c.post_id w 1 hw
     simp only [apply_ite (fun s : DB => postCommentCounter s w),
       apply_ite (fun s : DB => activePostComments s w),
       postCommentCounter_update_comment_count, activePostComments_update_comment_count,
       activePostComments_update_comments, hother, ite_self]
     simp only [hne, if_false, add_zero] at hactR
     rw [hcntR, hx, hactR])

/-! DFS correctness development for the subtree listing. -/

theorem avoidReach_mono {allC : List CommentRow} {v w : List Nat}
    (hvw : ∀ n, n ∈ w → n ∈ v) {x z : Nat}
    (h : AvoidReach allC v x z) : AvoidReach allC w x z := by
  induction h with
  | refl x => exact AvoidReach.refl x
  | step e hy _ ih =>
      exact AvoidReach.step e (fun hw => hy (hvw _ hw)) ih

theorem avoidReach_insert {allC : List CommentRow} {visited : List Nat}
    {x s z : Nat} (h : AvoidReach allC visited s z) :
    z = x ∨ AvoidReach allC (x :: visited) s z ∨
      ∃ c, childEdge allC x c ∧ c ∉ (x :: visited) ∧
        AvoidReach allC (x :: visited) c z := by
  induction h with
  | refl s => exact Or.inr (Or.inl (AvoidReach.refl s))
  | step e hy tail ih =>
      rename_i s' y' z'
      rcases ih with hz | hmid | hright
      · exact Or.inl hz
      · by_cases hyx : y' = x
        · subst hyx
          cases hmid with
          | refl => exact Or.inl rfl
          | step e' hc tail' =>
              exact Or.inr (Or.inr ⟨_, e', hc, tail'⟩)
        · refine Or.inr (Or.inl (AvoidReach.step e ?_ hmid))
          intro hmem
          rcases List.mem_cons.mp hmem with h1 | h2
          · exact hyx h1
          · exact hy h2
      · exact Or.inr (Or.inr hright)

theorem avoidReach_snoc {allC : List CommentRow} {v : List Nat} {x y z : Nat}
    (h : AvoidReach allC v x y) (e : childEdge allC y z) (hz : z ∉ v) :
    AvoidReach allC v x z := by
  induction h with
  | refl x => exact AvoidReach.step e hz (AvoidReach.refl z)
  | step e' hy' _ ih => exact AvoidReach.step e' hy' (ih e)

theorem avoidReach_nil_iff {allC : List CommentRow} {x z : Nat} :
    AvoidReach allC [] x z ↔ InSubtree allC x z := by
  constructor
  · intro h
    induction h with
    | refl x => exact Relation.ReflTransGen.refl
    | step e _ _ ih => exact Relation.ReflTransGen.head e ih
  · intro h
    induction h with
    | refl => exact AvoidReach.refl x
    | tail _ e ih => exact avoidReach_snoc ih e (List.not_mem_nil _)

theorem mem_childCids {allC : List CommentRow} {x c : Nat} :
    c ∈ CommentSvc.childCids allC x ↔ childEdge allC x c := by
  unfold CommentSvc.childCids childEdge
  simp only [List.mem_map, List.mem_filter]
  constructor
  · rintro ⟨row, ⟨hrow, hpar⟩, hcid⟩
    exact ⟨row, hrow, by simpa using hpar, hcid⟩
  · rintro ⟨row, hrow, hpar, hcid⟩
    exact ⟨row, ⟨hrow, by simpa using hpar⟩, hcid⟩

theorem mem_foldl_cons {l stack : List Nat} {a : Nat} :
    a ∈ l.foldl (fun s c => c :: s) stack ↔ a ∈ l ∨ a ∈ stack := by
  induction l generalizing stack with
  | nil => simp
  | cons c cs ih =>
      rw [List.foldl_cons, ih]
      simp only [List.mem_cons]
      tauto

theorem rows_eq_of_cid_eq {l : List CommentRow}
    (h : (l.map (fun c => c.cid)).Nodup) {a b : CommentRow}
    (ha : a ∈ l) (hb : b ∈ l) (hcid : a.cid = b.cid) : a = b :=
  List.inj_on_of_nodup_map h ha hb hcid

theorem subtreeLoop_mem (allC : List CommentRow)
    (hnodup : (allC.map (fun c => c.cid)).Nodup) :
    ∀ stack visited acc,
      (∀ s ∈ stack, ∃ row, row ∈ allC ∧ row.cid = s) →
      ∀ n, n ∈ (CommentSvc.subtreeLoop allC stack visited acc).2 ↔
        n ∈ acc ∨ (n ∈ allC ∧ ∃ s, s ∈ stack ∧ s ∉ visited ∧
          AvoidReach allC visited s n.cid) := by
  intro stack visited acc
  induction stack, visited, acc using CommentSvc.subtreeLoop.induct allC with
  | case1 visited acc =>
      intro hwf n
      rw [show CommentSvc.subtreeLoop allC [] visited acc = (visited, acc) from by
        rw [CommentSvc.subtreeLoop]]
      simp
  | case2 x stack visited acc h ih =>
      intro hwf n
      rw [show CommentSvc.subtreeLoop allC (x :: stack) visited acc
          = CommentSvc.subtreeLoop allC stack visited acc from by
        rw [CommentSvc.subtreeLoop]
        simp [h]]
      rw [ih (fun s hs => hwf s (List.mem_cons_of_mem _ hs)) n]
      constructor
      · rintro (ha | ⟨hna, s, hs, hsv, hr⟩)
        · exact Or.inl ha
        · exact Or.inr ⟨hna, s, List.mem_cons_of_mem _ hs, hsv, hr⟩
      · rintro (ha | ⟨hna, s, hs, hsv, hr⟩)
        · exact Or.inl ha
        · rcases List.mem_cons.mp hs with rfl | hs2
          · exact absurd h hsv
          · exact Or.inr ⟨hna, s, hs2, hsv, hr⟩
  | case3 x stack visited acc h hfind ih =>
      intro hwf
      obtain ⟨row, hrow, hcid⟩ := hwf x (List.mem_cons_self _ _)
      have hcon := List.find?_eq_none.mp hfind row hrow
      simp [hcid] at hcon
  | case4 x stack visited acc h node hfind ih =>
      intro hwf n
      have hnodecid : node.cid = x := by simpa using List.find?_some hfind
      have hnodemem : node ∈ allC := List.mem_of_find?_eq_some hfind
      have hstep : CommentSvc.subtreeLoop allC (x :: stack) visited acc
          = CommentSvc.subtreeLoop allC
              (List.foldl (fun s c => c :: s) stack (CommentSvc.childCids allC x))
              (x :: visited) (acc ++ [node]) := by
        rw [CommentSvc.subtreeLoop]
        rw [dif_neg h]
        split
        · rename_i hf
          rw [hf] at hfind
          cases hfind
        · rename_i node2 hf
          rw [hf] at hfind
          injection hfind with heq
          rw [heq]
      rw [hstep]
      have hwf2 : ∀ s ∈ List.foldl (fun s c => c :: s) stack
          (CommentSvc.childCids allC x), ∃ row, row ∈ allC ∧ row.cid = s := by
        intro s hs
        rcases mem_foldl_cons.mp hs with hchild | hstk
        · rcases mem_childCids.mp hchild with ⟨row, hrow, hpar, hcid⟩
          exact ⟨row, hrow, hcid⟩
        · exact hwf s (List.mem_cons_of_mem _ hstk)
      rw [ih hwf2 n]
      constructor
      · rintro (hacc | ⟨hna, s, hs, hsv, hr⟩)
        · rcases List.mem_append.mp hacc with h1 | h2
          · exact Or.inl h1
          · have hn : n = node := by simpa using h2
            subst hn
            refine Or.inr ⟨hnodemem, x, List.mem_cons_self _ _, h, ?_⟩
            rw [hnodecid]
            exact AvoidReach.refl x
        · rcases mem_foldl_cons.mp hs with hchild | hstk
          · have he : childEdge allC x s := mem_childCids.mp hchild
            have hsnv : s ∉ visited := fun hv => hsv (List.mem_cons_of_mem _ hv)
            refine Or.inr ⟨hna, x, List.mem_cons_self _ _, h, ?_⟩
            exact AvoidReach.step he hsnv
              (avoidReach_mono (fun m hm => List.mem_cons_of_mem _ hm) hr)
          · exact Or.inr ⟨hna, s, List.mem_cons_of_mem _ hstk,
              fun hv => hsv (List.mem_cons_of_mem _ hv),
              avoidReach_mono (fun m hm => List.mem_cons_of_mem _ hm) hr⟩
      · rintro (hacc | ⟨hna, s, hs, hsv, hr⟩)
        · exact Or.inl (List.mem_append.mpr (Or.inl hacc))
        · rcases avoidReach_insert (x := x) hr with hzx | hmid | hdec
          · have hn : n = node :=
              rows_eq_of_cid_eq hnodup hna hnodemem (by rw [hzx, hnodecid])
            exact Or.inl (List.mem_append.mpr (Or.inr (by simp [hn])))
          · by_cases hsx : s = x
            · subst hsx
              cases hmid with
              | refl =>
                  have hn : n = node :=
                    rows_eq_of_cid_eq hnodup hna hnodemem (by rw [hnodecid])
                  exact Or.inl (List.mem_append.mpr (Or.inr (by simp [hn])))
              | step e2 hc2 tail2 =>
                  rename_i c2
                  exact Or.inr ⟨hna, c2,
                    mem_foldl_cons.mpr (Or.inl (mem_childCids.mpr e2)), hc2, tail2⟩
            · have hstk : s ∈ stack := by
                rcases List.mem_cons.mp hs with h1 | h2
                · exact absurd h1 hsx
                · exact h2
              refine Or.inr ⟨hna, s, mem_foldl_cons.mpr (Or.inr hstk), ?_, hmid⟩
              intro hv
              rcases List.mem_cons.mp hv with h1 | h2
              · exact hsx h1
              · exact hsv h2
          · obtain ⟨c, hce, hcv, hcr⟩ := hdec
            exact Or.inr ⟨hna, c,
              mem_foldl_cons.mpr (Or.inl (mem_childCids.mpr hce)), hcv, hcr⟩

theorem subtreeLoop_acc_props (allC : List CommentRow) :
    ∀ stack visited acc,
      ((acc.map (fun c => c.cid)).Nodup) →
      (∀ a ∈ acc, a.cid ∈ visited) →
      (∀ a ∈ acc, a ∈ allC) →
      ((CommentSvc.subtreeLoop allC stack visited acc).2.map (fun c => c.cid)).Nodup ∧
      (∀ a ∈ (CommentSvc.subtreeLoop allC stack visited acc).2, a ∈ allC) := by
  intro stack visited acc
  induction stack, visited, acc using CommentSvc.subtreeLoop.induct allC with
  | case1 visited acc =>
      intro hnd hvis hall
      rw [show CommentSvc.subtreeLoop allC [] visited acc = (visited, acc) from by
        rw [CommentSvc.subtreeLoop]]
      exact ⟨hnd, hall⟩
  | case2 x stack visited acc h ih =>
      intro hnd hvis hall
      rw [show CommentSvc.subtreeLoop allC (x :: stack) visited acc
          = CommentSvc.subtreeLoop allC stack visited acc from by
        rw [CommentSvc.subtreeLoop]
        simp [h]]
      exact ih hnd hvis hall
  | case3 x stack visited acc h hfind ih =>
      intro hnd hvis hall
      rw [show CommentSvc.subtreeLoop allC (x :: stack) visited acc
          = CommentSvc.subtreeLoop allC stack (x :: visited) acc from by
        rw [CommentSvc.subtreeLoop]
        rw [dif_neg h]
        split
        · rfl
        · rename_i node2 hf
          rw [hf] at hfind
          cases hfind]
      exact ih hnd (fun a ha => List.mem_cons_of_mem _ (hvis a ha)) hall
  | case4 x stack visited acc h node hfind ih =>
      intro hnd hvis hall
      have hnodecid : node.cid = x := by simpa using List.find?_some hfind
      have hnodemem : node ∈ allC := List.mem_of_find?_eq_some hfind
      have hstep : CommentSvc.subtreeLoop allC (x :: stack) visited acc
          = CommentSvc.subtreeLoop allC
              (List.foldl (fun s c => c :: s) stack (CommentSvc.childCids allC x))
              (x :: visited) (acc ++ [node]) := by
        rw [CommentSvc.subtreeLoop]
        rw [dif_neg h]
        split
        · rename_i hf
          rw [hf] at hfind
          cases hfind
        · rename_i node2 hf
          rw [hf] at hfind
          injection hfind with heq
          rw [heq]
      rw [hstep]
      refine ih ?_ ?_ ?_
      · rw [List.map_append, List.nodup_append]
        refine ⟨hnd, by simp, ?_⟩
        intro y hy
        simp only [List.map_cons, List.map_nil, List.mem_singleton]
        intro hyx
        rcases List.mem_map.mp hy with ⟨a, ha, hacid⟩
        have hav : a.cid ∈ visited := hvis a ha
        rw [hacid, hyx, hnodecid] at hav
        exact h hav
      · intro a ha
        rcases List.mem_append.mp ha with h1 | h2
        · exact List.mem_cons_of_mem _ (hvis a h1)
        · have ha2 : a = node := by simpa using h2
          rw [ha2, hnodecid]
          exact List.mem_cons_self _ _
      · intro a ha
        rcases List.mem_append.mp ha with h1 | h2
        · exact hall a h1
        · have ha2 : a = node := by simpa using h2
          rw [ha2]
          exact hnodemem

theorem insertionSort_eq_thread_filter (thread L : List CommentRow)
    (hthreadnd : (thread.map (fun c => c.cid)).Nodup)
    (hLnd : (L.map (fun c => c.cid)).Nodup)
    (hsub : ∀ a ∈ L, a ∈ thread) :
    L.insertionSort (fun a b => (thread.map (fun c => c.cid)).indexOf a.cid
        ≤ (thread.map (fun c => c.cid)).indexOf b.cid)
      = thread.filter (fun c => (L.map (fun x => x.cid)).contains c.cid) := by
  have hthreadrows : thread.Nodup := List.Nodup.of_map _ hthreadnd
  have hLrows : L.Nodup := List.Nodup.of_map _ hLnd
  set ids := thread.map (fun c => c.cid) with hids
  set r : CommentRow → CommentRow → Prop := fun a b => ids.indexOf a.cid ≤ ids.indexOf b.cid with hrdef
  set r2 : CommentRow → CommentRow → Prop := fun a b => ids.indexOf a.cid < ids.indexOf b.cid with hr2def
  set p : CommentRow → Bool := fun c => (L.map (fun x => x.cid)).contains c.cid with hpdef
  haveI : IsTotal CommentRow r := ⟨fun a b => le_total _ _⟩
  haveI : IsTrans CommentRow r := ⟨fun a b c h1 h2 => le_trans h1 h2⟩
  haveI : IsAntisymm CommentRow r2 :=
    ⟨fun a b h1 h2 => absurd (lt_trans h1 h2) (lt_irrefl _)⟩
  have hkeyinj : ∀ a ∈ thread, ∀ b ∈ thread,
      ids.indexOf a.cid = ids.indexOf b.cid → a = b := by
    intro a ha b hb hidx
    have hamem : a.cid ∈ ids := by
      rw [hids]
      exact List.mem_map.mpr ⟨a, ha, rfl⟩
    have hbmem : b.cid ∈ ids := by
      rw [hids]
      exact List.mem_map.mpr ⟨b, hb, rfl⟩
    have hcid : a.cid = b.cid := (List.indexOf_inj hamem hbmem).mp hidx
    exact rows_eq_of_cid_eq hthreadnd ha hb hcid
  have hfilter_mem : ∀ c, c ∈ thread.filter p ↔ c ∈ L := by
    intro c
    rw [List.mem_filter]
    constructor
    · rintro ⟨hct, hcc⟩
      have hcm : c.cid ∈ L.map (fun x => x.cid) := by
        rw [hpdef] at hcc
        simpa using hcc
      rcases List.mem_map.mp hcm with ⟨a, haL, hacid⟩
      have heq : a = c := rows_eq_of_cid_eq hthreadnd (hsub a haL) hct hacid
      rw [← heq]
      exact haL
    · intro hcL
      refine ⟨hsub c hcL, ?_⟩
      rw [hpdef]
      simpa using List.mem_map.mpr ⟨c, hcL, rfl⟩
  have hpermA : (L.insertionSort r).Perm L := List.perm_insertionSort r L
  have hAnodup : (L.insertionSort r).Nodup := (hpermA.nodup_iff).mpr hLrows
  have hBnodup : (thread.filter p).Nodup := hthreadrows.filter p
  have hpermAB : (L.insertionSort r).Perm (thread.filter p) := by
    rw [List.perm_ext_iff_of_nodup hAnodup hBnodup]
    intro a
    rw [hfilter_mem a]
    exact hpermA.mem_iff
  have hsortA : (L.insertionSort r).Sorted r := List.sorted_insertionSort r L
  have hsortA2 : (L.insertionSort r).Sorted r2 := by
    have hand := List.Pairwise.and hsortA hAnodup
    refine hand.imp_of_mem ?_
    intro a b ha hb hab
    have haT : a ∈ thread := hsub a (hpermA.mem_iff.mp ha)
    have hbT : b ∈ thread := hsub b (hpermA.mem_iff.mp hb)
    rcases hab with ⟨hle, hne⟩
    rw [hr2def]
    refine lt_of_le_of_ne hle ?_
    intro heq
    exact hne (hkeyinj a haT b hbT heq)
  have hsortT : thread.Sorted r2 := by
    rw [List.Sorted, List.pairwise_iff_getElem]
    intro i j hi hj hij
    have hleni : i < ids.length := by
      rw [hids]
      simpa using hi
    have hlenj : j < ids.length := by
      rw [hids]
      simpa using hj
    have hgi : ids.indexOf (thread[i].cid) = i := by
      have h1 : ids[i] = thread[i].cid := List.getElem_map _
      rw [← h1]
      exact List.get_indexOf hthreadnd ⟨i, hleni⟩
    have hgj : ids.indexOf (thread[j].cid) = j := by
      have h1 : ids[j] = thread[j].cid := List.getElem_map _
      rw [← h1]
      exact List.get_indexOf hthreadnd ⟨j, hlenj⟩
    rw [hr2def]
    simp only
    rw [hgi, hgj]
    exact hij
  have hsortB : (thread.filter p).Sorted r2 :=
    List.Pairwise.sublist (List.filter_sublist thread) hsortT
  exact List.eq_of_perm_of_sorted hpermAB hsortA2 hsortB

/-! Claim C2. -/

/-- C2 counterexample: createComment is not atomic as a whole.  Each
repository call commits its own transaction, so when the store fails at the
post-counter update (transaction 2) after the comment row and the content row
were committed, the operation reports a failure yet the new comment row — and
its content row — remain: observable state is not as before the call. -/
theorem C2_counterexample :
    (CommentSvc.create_comment_withFault 2 baseDB ⟨50, 1, "r", none, none⟩).1
      = .error .storeFault ∧
    baseDB.comments.length = 0 ∧
    (CommentSvc.create_comment_withFault 2 baseDB ⟨50, 1, "r", none, none⟩).2.comments.length
      = 1 ∧
    (CommentSvc.create_comment_withFault 2 baseDB ⟨50, 1, "r", none, none⟩).2 ≠ baseDB := by
  decide

/-- C2 amended: createComment is atomic only per repository transaction.
Author/post validation failures leave the state exactly unchanged; a store
fault that aborts the comment-row insert (transaction 0) also leaves the
state unchanged; but a store fault at the post-counter update (transaction 2)
leaves the already-committed comment row and content row in place — the final
state is exactly the two committed steps, with no overall rollback. -/
theorem C2_amended_per_call_commits :
    (∀ (st : DB) (data : CommentCreate),
        UserRepo.get_user_by_uid st data.author_id = none →
        CommentSvc.create_comment st data = (.error .userNotFound, st)) ∧
    (∀ (st : DB) (data : CommentCreate) (ua : UserRow),
        UserRepo.get_user_by_uid st data.author_id = some ua →
        PostRepo.viewer_get_post_by_pid st data.post_id = none →
        CommentSvc.create_comment st data = (.error .postNotFound, st)) ∧
    (∀ (st : DB) (data : CommentCreate) (ua : UserRow) (p : PostRow),
        UserRepo.get_user_by_uid st data.author_id = some ua →
        PostRepo.viewer_get_post_by_pid st data.post_id = some p →
        CommentSvc.create_comment_withFault 0 st data = (.error .storeFault, st)) ∧
    (∀ (st : DB) (data : CommentCreate) (ua : UserRow) (p : PostRow),
        UserRepo.get_user_by_uid st data.author_id = some ua →
        PostRepo.viewer_get_post_by_pid st data.post_id = some p →
        CommentSvc.create_comment_withFault 2 st data
          = (.error .storeFault,
              CommentContentRepo.create
                (CommentRepo.create_comment st
                  { post_id := data.post_id, author_id := data.author_id,
                    parent_id := data.parent_id, root_id := data.root_id,
                    status := none, review_status := none }).2
                (CommentRepo.create_comment st
                  { post_id := data.post_id, author_id := data.author_id,
                    parent_id := data.parent_id, root_id := data.root_id,
                    status := none, review_status := none }).1
                data.content)) := by
  refine ⟨?_, ?_, ?_, ?_⟩
  · intro st data hua
    unfold CommentSvc.create_comment
    rw [hua]
  · intro st data ua hua hp
    unfold CommentSvc.create_comment
    rw [hua, hp]
  · intro st data ua p hua hp
    unfold CommentSvc.create_comment_withFault
    rw [hua, hp]
    simp
  · intro st data ua p hua hp
    unfold CommentSvc.create_comment_withFault
    rw [hua, hp]
    simp

/-- C2 witness: validation failure at a missing author leaves the base state
unchanged, and a fault before the comment insert leaves it unchanged too. -/
theorem C2_amended_per_call_commits_witness :
    CommentSvc.create_comment baseDB ⟨50, 9, "r", none, none⟩
      = (.error .userNotFound, baseDB) ∧
    CommentSvc.create_comment_withFault 0 baseDB ⟨50, 1, "r", none, none⟩
      = (.error .storeFault, baseDB) ∧
    CommentSvc.create_comment_withFault 2 baseDB ⟨50, 1, "r", none, none⟩
      = (.error .storeFault,
          CommentContentRepo.create
            (CommentRepo.create_comment baseDB
              { post_id := 50, author_id := 1, parent_id := none, root_id := none,
                status := none, review_status := none }).2
            (CommentRepo.create_comment baseDB
              { post_id := 50, author_id := 1, parent_id := none, root_id := none,
                status := none, review_status := none }).1
            "r") :=
  ⟨C2_amended_per_call_commits.1 baseDB ⟨50, 9, "r", none, none⟩ (by decide),
    C2_amended_per_call_commits.2.2.1 baseDB ⟨50, 1, "r", none, none⟩ ⟨1, none⟩
      ⟨50, 1, 1, 0, none⟩ (by decide) (by decide),
    C2_amended_per_call_commits.2.2.2 baseDB ⟨50, 1, "r", none, none⟩ ⟨1, none⟩
      ⟨50, 1, 1, 0, none⟩ (by decide) (by decide)⟩

/-! Claim C3. -/

/-- C3: a like attempt that fails with AlreadyLiked and an unlike attempt that
fails with NotLiked leave the state — in particular every counter — exactly
unchanged; and from a clean state (visible comment with zero like counter, no
ledger row for the triple) liking twice in a row succeeds once, fails with
AlreadyLiked on the second call, and leaves the comment's like counter at 1,
not 2. -/
theorem C3_already_liked_no_counter_mutation :
    (∀ (st : DB) (data : LikeCreate) (st' : DB),
        LikeSvc.like_target st data = (.error .alreadyLiked, st') → st' = st) ∧
    (∀ (st : DB) (data : LikeCreate) (st' : DB),
        LikeSvc.cancel_like st data = (.error .notLiked, st') → st' = st) ∧
    (∀ (st : DB) (u tid : Nat) (uu : UserRow) (c : CommentRow),
        UserRepo.get_user_by_uid st u = some uu →
        st.comments.find? (fun x => x.cid == tid) = some c →
        CommentRepo.userVisible c = true →
        CommentRepo.hasContent st tid = true →
        st.likes.find? (LikeRepo.tripleMatch ⟨u, LikeTargetType.COMMENT, tid⟩) = none →
        c.like_count = 0 →
        ∃ out st1, LikeSvc.like_target st ⟨u, LikeTargetType.COMMENT, tid⟩
            = (.ok out, st1) ∧
          LikeSvc.like_target st1 ⟨u, LikeTargetType.COMMENT, tid⟩
            = (.error .alreadyLiked, st1) ∧
          commentLikeCounter st1 tid = 1) := by
  refine ⟨?_, ?_, ?_⟩
  · intro st data st' h
    unfold LikeSvc.like_target at h
    split at h
    · simp at h
    · split at h
      · exact (congrArg Prod.snd h).symm
      · split at h
        · rename_i e stR heq
          have hstR : stR = st := like_error_state heq
          rw [hstR] at h
          exact (congrArg Prod.snd h).symm
        · simp at h
  · intro st data st' h
    unfold LikeSvc.cancel_like at h
    split at h
    · simp at h
    · split at h
      · rename_i e stR heq
        have hstR : stR = st := cancel_like_error_state heq
        rw [hstR] at h
        exact (congrArg Prod.snd h).symm
      · simp at h
  · intro st u tid uu c hu hcall hvis hcontent hnol hlc0
    have hc : c.cid = tid := by simpa using List.find?_some hcall
    have hgetc : CommentRepo.get_comment_by_cid_for_user st tid = .ok (some c) := by
      unfold CommentRepo.get_comment_by_cid_for_user
      rw [find?_filter_of_find? hcall hvis]
      simp [hc, hcontent]
    set row : LikeRow := ({ lid := st.nextId, user_id := u, target_type := LikeTargetType.COMMENT, target_id := tid, created_at := st.clock, deleted_at := none } : LikeRow) with hrow
    set stL : DB := ({ st with likes := st.likes ++ [row], clock := st.clock + 1, nextId := st.nextId + 1 } : DB) with hstL
    have hlike : LikeRepo.like st ⟨u, LikeTargetType.COMMENT, tid⟩ = (.ok row, stL) := by
      unfold LikeRepo.like
      rw [hnol]
    have hcallL : stL.comments.find? (fun x => x.cid == tid) = some c := hcall
    set st1 : DB := ({ stL with comments := updateFirst (fun x => x.cid == tid) (fun x => { x with like_count := max (x.like_count + 1) 0 }) stL.comments } : DB) with hst1
    have hupd : CommentRepo.update_like_count stL (some tid) 1
        = (some { c with like_count := max (c.like_count + 1) 0 }, st1) := by
      unfold CommentRepo.update_like_count
      rw [somePred_eq, hcallL]
    have hsvc1 : LikeSvc.like_target st ⟨u, LikeTargetType.COMMENT, tid⟩
        = (.ok row, st1) := by
      have hbeq1 : (LikeTargetType.COMMENT == LikeTargetType.POST) = false := by decide
      have hbeq2 : (LikeTargetType.COMMENT == LikeTargetType.COMMENT) = true := by decide
      unfold LikeSvc.like_target
      simp [hu, hgetc, hlike, hupd, hbeq1, hbeq2]
    have hcnt : commentLikeCounter st1 tid = 1 := by
      have h0 : commentLikeCounter stL tid = 0 := by
        unfold commentLikeCounter
        rw [hcallL]
        simp [hlc0]
      have := commentLikeCounter_update_like_count stL tid 1 c hcallL
      rw [hupd] at this
      simp only at this
      rw [this, h0]
      rfl
    have hu2 : UserRepo.get_user_by_uid st1 u = some uu := hu
    have hfindall2 : st1.comments.find? (fun x => x.cid == tid)
        = some { c with like_count := max (c.like_count + 1) 0 } := by
      rw [hst1]
      exact find?_updateFirst_self hcallL (by simpa using hc)
    have hget2 : CommentRepo.get_comment_by_cid_for_user st1 tid
        = .ok (some { c with like_count := max (c.like_count + 1) 0 }) := by
      unfold CommentRepo.get_comment_by_cid_for_user
      rw [find?_filter_of_find? hfindall2 (by simpa [CommentRepo.userVisible] using hvis)]
      simp only
      have : CommentRepo.hasContent st1 c.cid = true := by
        rw [hc]
        exact hcontent
      rw [this]
      simp
    have hlike2 : LikeRepo.like st1 ⟨u, LikeTargetType.COMMENT, tid⟩
        = (.error .alreadyLiked, st1) := by
      unfold LikeRepo.like
      have hfapp : st1.likes.find?
          (LikeRepo.tripleMatch ⟨u, LikeTargetType.COMMENT, tid⟩) = some row := by
        have hl : st1.likes = st.likes ++ [row] := rfl
        rw [hl, List.find?_append, hnol]
        simp [LikeRepo.tripleMatch, hrow]
      rw [hfapp]
      simp [hrow]
    have hsvc2 : LikeSvc.like_target st1 ⟨u, LikeTargetType.COMMENT, tid⟩
        = (.error .alreadyLiked, st1) := by
      have hbeq1 : (LikeTargetType.COMMENT == LikeTargetType.POST) = false := by decide
      have hbeq2 : (LikeTargetType.COMMENT == LikeTargetType.COMMENT) = true := by decide
      unfold LikeSvc.like_target
      simp [hu2, hget2, hlike2, hbeq1, hbeq2]
    exact ⟨row, st1, hsvc1, hsvc2, hcnt⟩

/-- C3 witness: in the thread state, user 1 likes comment 12 twice; the first
call succeeds, the second fails with AlreadyLiked, and the like counter of
comment 12 is 1. -/
theorem C3_already_liked_no_counter_mutation_witness :
    (∃ out st1, LikeSvc.like_target subDB ⟨1, LikeTargetType.COMMENT, 12⟩
        = (.ok out, st1) ∧
      LikeSvc.like_target st1 ⟨1, LikeTargetType.COMMENT, 12⟩
        = (.error .alreadyLiked, st1) ∧
      commentLikeCounter st1 12 = 1) :=
  C3_already_liked_no_counter_mutation.2.2 subDB 1 12 ⟨1, none⟩
    (subDB.comments.get ⟨2, by decide⟩) (by decide) (by decide) (by decide)
    (by decide) (by decide) (by decide)

/-! Claim C9. -/

/-- C9: follow(A, A) for an existing user fails with FollowSelf and changes
nothing (no counter mutation); for distinct existing users A and B with no
active follow edge and non-negative counters, follow succeeds, increments
A.following_count and B.followers_count by one each, and a subsequent
unfollow succeeds and returns both counters to their prior values. -/
theorem C9_follow_self_and_roundtrip :
    (∀ (st : DB) (a : Nat) (u : UserRow),
        UserRepo.get_user_by_uid st a = some u →
        FollowSvc.follow_user st ⟨a, a⟩ = (.error .followYourself, st)) ∧
    (∀ (st : DB) (a b : Nat) (ua ub : UserRow),
        UserRepo.get_user_by_uid st a = some ua →
        UserRepo.get_user_by_uid st b = some ub →
        a ≠ b →
        FollowRepo.is_following st a b = false →
        0 ≤ followingCounter st a →
        0 ≤ followersCounter st b →
        ∃ out st', FollowSvc.follow_user st ⟨a, b⟩ = (.ok out, st') ∧
          followingCounter st' a = followingCounter st a + 1 ∧
          followersCounter st' b = followersCounter st b + 1 ∧
          ∃ st2, FollowSvc.cancel_follow st' ⟨a, b⟩ = (.ok true, st2) ∧
            followingCounter st2 a = followingCounter st a ∧
            followersCounter st2 b = followersCounter st b) := by
  constructor
  · intro st a u hua
    unfold FollowSvc.follow_user
    simp [hua]
  · intro st a b ua ub hua hub hne hnf h0a h0b
    have hab : (a == b) = false := beq_eq_false_iff_ne.mpr hne
    set st1 := (FollowRepo.create_follow st ⟨a, b⟩).2 with hst1
    set stf := (UserStatsRepo.update_followers
        (UserStatsRepo.update_following st1 a 1).2 b 1).2 with hstf
    have hservice : FollowSvc.follow_user st ⟨a, b⟩
        = (.ok (FollowRepo.create_follow st ⟨a, b⟩).1, stf) := by
      unfold FollowSvc.follow_user
      simp [hua, hub, hab, hnf, hstf, hst1]
    obtain ⟨fs, ck, hframe⟩ := create_follow_frame st ⟨a, b⟩
    have h1a : followingCounter st1 a = followingCounter st a := by
      rw [hst1, hframe]
      rfl
    have h1b : followersCounter st1 b = followersCounter st b := by
      rw [hst1, hframe]
      rfl
    have hfa : followingCounter stf a = followingCounter st a + 1 := by
      rw [hstf, followingCounter_update_followers, followingCounter_update_following,
        h1a, max_eq_left (by omega)]
    have hfb : followersCounter stf b = followersCounter st b + 1 := by
      rw [hstf, followersCounter_update_followers,
        followersCounter_update_following, h1b, max_eq_left (by omega)]
    have hfolsame : stf.follows = st1.follows := by
      obtain ⟨us1, hu1⟩ := update_following_frame st1 a 1
      obtain ⟨us2, hu2⟩ := update_followers_frame
        (UserStatsRepo.update_following st1 a 1).2 b 1
      rw [hstf, hu2, hu1]
    have hnfnone : (st.follows.filter (fun f => f.deleted_at.isNone)).find?
        (FollowRepo.pairMatch a b) = none := by
      unfold FollowRepo.is_following at hnf
      cases hx : (st.follows.filter (fun f => f.deleted_at.isNone)).find?
          (FollowRepo.pairMatch a b) with
      | none => rfl
      | some y => rw [hx] at hnf; simp at hnf
    have hisf : FollowRepo.is_following stf a b = true := by
      unfold FollowRepo.is_following
      rw [hfolsame]
      cases hany : st.follows.find? (FollowRepo.pairMatch a b) with
      | none =>
          have hins : st1.follows = st.follows
              ++ [{ user_id := a, followed_user_id := b, created_at := st.clock,
                    deleted_at := none }] := by
            rw [hst1]
            unfold FollowRepo.create_follow
            simp [hany]
          rw [hins, List.filter_append, List.find?_append, hnfnone]
          simp [FollowRepo.pairMatch]
      | some x =>
          have hpx : FollowRepo.pairMatch a b x = true := List.find?_some hany
          cases hxd : x.deleted_at with
          | none =>
              exfalso
              have hxmem : x ∈ st.follows.filter (fun f => f.deleted_at.isNone) :=
                List.mem_filter.mpr ⟨List.mem_of_find?_eq_some hany, by simp [hxd]⟩
              have : ((st.follows.filter (fun f => f.deleted_at.isNone)).find?
                  (FollowRepo.pairMatch a b)).isSome :=
                List.find?_isSome.mpr ⟨x, hxmem, hpx⟩
              rw [hnfnone] at this
              simp at this
          | some t =>
              have hres : st1.follows = updateFirst (FollowRepo.pairMatch a b)
                  (fun f => { f with deleted_at := none, created_at := st.clock })
                  st.follows := by
                rw [hst1]
                unfold FollowRepo.create_follow
                simp [hany, hxd]
              rw [hres]
              apply List.find?_isSome.mpr
              refine ⟨{ x with deleted_at := none, created_at := st.clock },
                List.mem_filter.mpr ⟨mem_updateFirst_of_find? hany, by simp⟩, ?_⟩
              simpa [FollowRepo.pairMatch] using hpx
    obtain ⟨y, hy⟩ : ∃ y, (stf.follows.filter (fun f => f.deleted_at.isNone)).find?
        (FollowRepo.pairMatch a b) = some y := by
      unfold FollowRepo.is_following at hisf
      exact Option.isSome_iff_exists.mp hisf
    set stc1 := { stf with
      follows := updateFirst
        (fun f => f.deleted_at.isNone && FollowRepo.pairMatch a b f)
        (fun f => { f with deleted_at := some stf.clock }) stf.follows
      clock := stf.clock + 1 } with hstc1
    set st2 := (UserStatsRepo.update_followers
        (UserStatsRepo.update_following stc1 a (-1)).2 b (-1)).2 with hst2
    have hcservice : FollowSvc.cancel_follow stf ⟨a, b⟩ = (.ok true, st2) := by
      unfold FollowSvc.cancel_follow FollowRepo.cancel_follow
      simp [hisf, hy, hstc1, hst2]
    have hc1a : followingCounter stc1 a = followingCounter st a + 1 := by
      have hx : followingCounter stc1 a = followingCounter stf a := by
        rw [hstc1]
        rfl
      rw [hx, hfa]
    have hc1b : followersCounter stc1 b = followersCounter st b + 1 := by
      have hx : followersCounter stc1 b = followersCounter stf b := by
        rw [hstc1]
        rfl
      rw [hx, hfb]
    have hfin_a : followingCounter st2 a = followingCounter st a := by
      rw [hst2, followingCounter_update_followers, followingCounter_update_following,
        hc1a]
      have harith : followingCounter st a + 1 + -1 = followingCounter st a := by ring
      rw [harith, max_eq_left h0a]
    have hfin_b : followersCounter st2 b = followersCounter st b := by
      rw [hst2, followersCounter_update_followers, followersCounter_update_following,
        hc1b]
      have harith : followersCounter st b + 1 + -1 = followersCounter st b := by ring
      rw [harith, max_eq_left h0b]
    exact ⟨(FollowRepo.create_follow st ⟨a, b⟩).1, stf, hservice, hfa, hfb,
      st2, hcservice, hfin_a, hfin_b⟩

/-- C9 witness: in the base state, user 1 following themselves fails with
FollowSelf, and the follow/unfollow round trip between users 1 and 2 moves
the counters 0 → 1 → 0. -/
theorem C9_follow_self_and_roundtrip_witness :
    FollowSvc.follow_user baseDB ⟨1, 1⟩ = (.error .followYourself, baseDB) ∧
    (∃ out st', FollowSvc.follow_user baseDB ⟨1, 2⟩ = (.ok out, st') ∧
      followingCounter st' 1 = followingCounter baseDB 1 + 1 ∧
      followersCounter st' 2 = followersCounter baseDB 2 + 1 ∧
      ∃ st2, FollowSvc.cancel_follow st' ⟨1, 2⟩ = (.ok true, st2) ∧
        followingCounter st2 1 = followingCounter baseDB 1 ∧
        followersCounter st2 2 = followersCounter baseDB 2) :=
  ⟨C9_follow_self_and_roundtrip.1 baseDB 1 ⟨1, none⟩ (by decide),
    C9_follow_self_and_roundtrip.2 baseDB 1 2 ⟨1, none⟩ ⟨2, none⟩
      (by decide) (by decide) (by decide) (by decide) (by decide) (by decide)⟩

/-! Claim C7. -/

/-- C7 counterexample: restore does not in general add back what the
corresponding soft-delete subtracted.  In the concrete run, soft-deleting the
top-level comment R subtracted 1 from the post counter (its comment_count was
1 at deletion time), a reply was then created underneath the deleted R
(raising R's comment_count to 2), and restoring R added 2 — so the claimed
equality of amounts fails on this reachable run. -/
theorem C7_counterexample :
    postCommentCounter stRA 50 = 2 ∧
    (CommentSvc.soft_delete_comment stRA 10).1 = .ok true ∧
    postCommentCounter stDelR 50 = 1 ∧
    postCommentCounter stDelRB 50 = 2 ∧
    restR.1 = .ok true ∧
    postCommentCounter restR.2 50 = 4 ∧
    postCommentCounter stRA 50 - postCommentCounter stDelR 50
      ≠ postCommentCounter restR.2 50 - postCommentCounter stDelRB 50 := by
  decide

/-- C7 amended: restoreComment is rejected with no state change whenever
deleted_at is null, and on any currently soft-deleted comment it clears
deleted_at and applies the tiered increments computed from the node's current
comment_count at restore time — top-level: post counter += comment_count
(floored); second-level: post counter += 1 and parent counter += 1 (floored);
third-or-deeper: post, parent and root counters += 1 each (floored) — which
coincide with what the soft-delete subtracted only when the node's
comment_count did not change in between and no decrement was clipped by the
zero floor. -/
theorem C7_amended_restore_mirror :
    (∀ (st : DB) (cid : Nat) (c : CommentRow),
        st.comments.find? (fun x => x.cid == cid) = some c →
        CommentRepo.hasContent st cid = true →
        c.deleted_at = none →
        CommentSvc.restore_comment st cid = (.ok false, st)) ∧
    (∀ (st : DB) (cid : Nat) (c : CommentRow) (t : Nat),
        st.comments.find? (fun x => x.cid == cid) = some c →
        CommentRepo.hasContent st cid = true →
        c.deleted_at = some t →
        c.parent_id = none → c.root_id = some cid →
        ∃ st', CommentSvc.restore_comment st cid = (.ok true, st') ∧
          (st'.comments.find? (fun x => x.cid == cid)).map (fun x => x.deleted_at)
            = some none ∧
          postCommentCounter st' c.post_id
            = max (postCommentCounter st c.post_id + c.comment_count) 0) ∧
    (∀ (st : DB) (cid : Nat) (c : CommentRow) (t pcid : Nat) (cp : CommentRow),
        st.comments.find? (fun x => x.cid == cid) = some c →
        CommentRepo.hasContent st cid = true →
        c.deleted_at = some t →
        c.parent_id = some pcid → c.root_id = some pcid →
        st.comments.find? (fun x => x.cid == pcid) = some cp →
        ∃ st', CommentSvc.restore_comment st cid = (.ok true, st') ∧
          (st'.comments.find? (fun x => x.cid == cid)).map (fun x => x.deleted_at)
            = some none ∧
          postCommentCounter st' c.post_id
            = max (postCommentCounter st c.post_id + 1) 0 ∧
          commentCommentCounter st' pcid
            = max (commentCommentCounter st pcid + 1) 0) ∧
    (∀ (st : DB) (cid : Nat) (c : CommentRow) (t pcid rcid : Nat) (cp cr : CommentRow),
        st.comments.find? (fun x => x.cid == cid) = some c →
        CommentRepo.hasContent st cid = true →
        c.deleted_at = some t →
        c.parent_id = some pcid → c.root_id = some rcid → pcid ≠ rcid →
        st.comments.find? (fun x => x.cid == pcid) = some cp →
        st.comments.find? (fun x => x.cid == rcid) = some cr →
        ∃ st', CommentSvc.restore_comment st cid = (.ok true, st') ∧
          (st'.comments.find? (fun x => x.cid == cid)).map (fun x => x.deleted_at)
            = some none ∧
          postCommentCounter st' c.post_id
            = max (postCommentCounter st c.post_id + 1) 0 ∧
          commentCommentCounter st' pcid
            = max (commentCommentCounter st pcid + 1) 0 ∧
          commentCommentCounter st' rcid
            = max (commentCommentCounter st rcid + 1) 0) := by
  refine ⟨?_, ?_, ?_, ?_⟩
  · intro st cid c hfind hcontent hdel
    have hc : c.cid = cid := by simpa using List.find?_some hfind
    unfold CommentSvc.restore_comment CommentRepo.get_comment_by_cid_for_admin
      CommentRepo.restore_comment
    rw [hfind]
    simp [hc, hcontent, hdel]
  · intro st cid c t hfind hcontent hdel hpar hroot
    have hc : c.cid = cid := by simpa using List.find?_some hfind
    refine ⟨(PostStatsRepo.update_comments
        { st with
          comments := updateFirst (fun x => x.cid == cid)
            (fun x => { x with deleted_at := none }) st.comments } c.post_id
        c.comment_count).2, ?_, ?_, ?_⟩
    · unfold CommentSvc.restore_comment CommentRepo.get_comment_by_cid_for_admin
        CommentRepo.restore_comment
      rw [hfind]
      simp [hc, hcontent, hdel, hpar, hroot]
    · obtain ⟨ps, hps⟩ := update_comments_frame
        { st with
          comments := updateFirst (fun x => x.cid == cid)
            (fun x => { x with deleted_at := none }) st.comments } c.post_id
        c.comment_count
      rw [hps]
      have hclear := @find?_updateFirst_self _ (fun x => x.cid == cid)
        (fun x => { x with deleted_at := none }) st.comments c hfind
        (by simpa using hc)
      simp only
      rw [hclear]
      rfl
    · rw [postCommentCounter_update_comments]
      have hsame : postCommentCounter
          { st with
            comments := updateFirst (fun x => x.cid == cid)
              (fun x => { x with deleted_at := none }) st.comments } c.post_id
          = postCommentCounter st c.post_id := rfl
      rw [hsame]
  · intro st cid c t pcid cp hfind hcontent hdel hpar hroot hfp
    have hc : c.cid = cid := by simpa using List.find?_some hfind
    refine ⟨(CommentRepo.update_comment_count
        (PostStatsRepo.update_comments
          { st with
            comments := updateFirst (fun x => x.cid == cid)
              (fun x => { x with deleted_at := none }) st.comments }
          c.post_id 1).2 c.parent_id 1).2, ?_, ?_, ?_, ?_⟩
    · unfold CommentSvc.restore_comment CommentRepo.get_comment_by_cid_for_admin
        CommentRepo.restore_comment
      rw [hfind]
      simp [hc, hcontent, hdel, hpar, hroot]
    · rw [deleted_at_map_update_comment_count]
      obtain ⟨ps, hps⟩ := update_comments_frame
        { st with
          comments := updateFirst (fun x => x.cid == cid)
            (fun x => { x with deleted_at := none }) st.comments } c.post_id 1
      rw [hps]
      have hclear := @find?_updateFirst_self _ (fun x => x.cid == cid)
        (fun x => { x with deleted_at := none }) st.comments c hfind
        (by simpa using hc)
      simp only
      rw [hclear]
      rfl
    · obtain ⟨cs, hcs⟩ := update_comment_count_frame
        (PostStatsRepo.update_comments
          { st with
            comments := updateFirst (fun x => x.cid == cid)
              (fun x => { x with deleted_at := none }) st.comments }
          c.post_id 1).2 c.parent_id 1
      rw [hcs]
      have hpost : postCommentCounter
          { (PostStatsRepo.update_comments
              { st with
                comments := updateFirst (fun x => x.cid == cid)
                  (fun x => { x with deleted_at := none }) st.comments }
              c.post_id 1).2 with comments := cs } c.post_id
          = postCommentCounter
            (PostStatsRepo.update_comments
              { st with
                comments := updateFirst (fun x => x.cid == cid)
                  (fun x => { x with deleted_at := none }) st.comments }
              c.post_id 1).2 c.post_id := rfl
      rw [hpost, postCommentCounter_update_comments]
      have hsame : postCommentCounter
          { st with
            comments := updateFirst (fun x => x.cid == cid)
              (fun x => { x with deleted_at := none }) st.comments } c.post_id
          = postCommentCounter st c.post_id := rfl
      rw [hsame]
    · rw [hpar]
      have hmapcc := comment_count_map_updateFirst (fun x => x.cid == cid)
        (fun x => { x with deleted_at := none }) st.comments pcid
        (fun a => rfl) (fun a => rfl)
      rw [hfp] at hmapcc
      cases hfp2 : (updateFirst (fun x => x.cid == cid)
          (fun x => { x with deleted_at := none }) st.comments).find?
          (fun x => x.cid == pcid) with
      | none =>
          rw [hfp2] at hmapcc
          simp at hmapcc
      | some cp2 =>
          obtain ⟨ps, hps⟩ := update_comments_frame
            { st with
              comments := updateFirst (fun x => x.cid == cid)
                (fun x => { x with deleted_at := none }) st.comments } c.post_id 1
          have hfind2 : (PostStatsRepo.update_comments
              { st with
                comments := updateFirst (fun x => x.cid == cid)
                  (fun x => { x with deleted_at := none }) st.comments }
              c.post_id 1).2.comments.find? (fun x => x.cid == pcid) = some cp2 := by
            rw [hps]
            exact hfp2
          rw [commentCommentCounter_update_comment_count _ pcid 1 cp2 hfind2]
          have hmid : commentCommentCounter
              (PostStatsRepo.update_comments
                { st with
                  comments := updateFirst (fun x => x.cid == cid)
                    (fun x => { x with deleted_at := none }) st.comments }
                c.post_id 1).2 pcid
              = commentCommentCounter st pcid := by
            rw [hps]
            unfold commentCommentCounter
            simp only
            rw [comment_count_map_updateFirst (fun x => x.cid == cid)
              (fun x => { x with deleted_at := none }) st.comments pcid
              (fun a => rfl) (fun a => rfl)]
          rw [hmid]
  · intro st cid c t pcid rcid cp cr hfind hcontent hdel hpar hroot hne hfp hfr
    have hc : c.cid = cid := by simpa using List.find?_some hfind
    have hbr2 : (c.parent_id == c.root_id) = false := by
      rw [hpar, hroot]
      simp [hne]
    refine ⟨(CommentRepo.update_comment_count
        (CommentRepo.update_comment_count
          (PostStatsRepo.update_comments
            { st with
              comments := updateFirst (fun x => x.cid == cid)
                (fun x => { x with deleted_at := none }) st.comments }
            c.post_id 1).2 c.parent_id 1).2
        c.root_id 1).2, ?_, ?_, ?_, ?_, ?_⟩
    · unfold CommentSvc.restore_comment CommentRepo.get_comment_by_cid_for_admin
        CommentRepo.restore_comment
      rw [hfind]
      simp [hc, hcontent, hdel, hpar, hroot, hbr2, hne]
    · rw [deleted_at_map_update_comment_count, deleted_at_map_update_comment_count]
      obtain ⟨ps, hps⟩ := update_comments_frame
        { st with
          comments := updateFirst (fun x => x.cid == cid)
            (fun x => { x with deleted_at := none }) st.comments } c.post_id 1
      rw [hps]
      have hclear := @find?_updateFirst_self _ (fun x => x.cid == cid)
        (fun x => { x with deleted_at := none }) st.comments c hfind
        (by simpa using hc)
      simp only
      rw [hclear]
      rfl
    · obtain ⟨cs2, hcs2⟩ := update_comment_count_frame
        (CommentRepo.update_comment_count
          (PostStatsRepo.update_comments
            { st with
              comments := updateFirst (fun x => x.cid == cid)
                (fun x => { x with deleted_at := none }) st.comments }
            c.post_id 1).2 c.parent_id 1).2 c.root_id 1
      obtain ⟨cs1, hcs1⟩ := update_comment_count_frame
        (PostStatsRepo.update_comments
          { st with
            comments := updateFirst (fun x => x.cid == cid)
              (fun x => { x with deleted_at := none }) st.comments }
          c.post_id 1).2 c.parent_id 1
      rw [hcs2, hcs1]
      have hpost : postCommentCounter
          { { (PostStatsRepo.update_comments
              { st with
                comments := updateFirst (fun x => x.cid == cid)
                  (fun x => { x with deleted_at := none }) st.comments }
              c.post_id 1).2 with comments := cs1 }
            with comments := cs2 } c.post_id
          = postCommentCounter
            (PostStatsRepo.update_comments
              { st with
                comments := updateFirst (fun x => x.cid == cid)
                  (fun x => { x with deleted_at := none }) st.comments }
              c.post_id 1).2 c.post_id := rfl
      rw [hpost, postCommentCounter_update_comments]
      have hsame : postCommentCounter
          { st with
            comments := updateFirst (fun x => x.cid == cid)
              (fun x => { x with deleted_at := none }) st.comments } c.post_id
          = postCommentCounter st c.post_id := rfl
      rw [hsame]
    · rw [hroot, hpar]
      rw [commentCommentCounter_update_comment_count_other _ rcid pcid _ hne]
      have hmapcc := comment_count_map_updateFirst (fun x => x.cid == cid)
        (fun x => { x with deleted_at := none }) st.comments pcid
        (fun a => rfl) (fun a => rfl)
      rw [hfp] at hmapcc
      cases hfp2 : (updateFirst (fun x => x.cid == cid)
          (fun x => { x with deleted_at := none }) st.comments).find?
          (fun x => x.cid == pcid) with
      | none =>
          rw [hfp2] at hmapcc
          simp at hmapcc
      | some cp2 =>
          obtain ⟨ps, hps⟩ := update_comments_frame
            { st with
              comments := updateFirst (fun x => x.cid == cid)
                (fun x => { x with deleted_at := none }) st.comments } c.post_id 1
          have hfind2 : (PostStatsRepo.update_comments
              { st with
                comments := updateFirst (fun x => x.cid == cid)
                  (fun x => { x with deleted_at := none }) st.comments }
              c.post_id 1).2.comments.find? (fun x => x.cid == pcid) = some cp2 := by
            rw [hps]
            exact hfp2
          rw [commentCommentCounter_update_comment_count _ pcid 1 cp2 hfind2]
          have hmid : commentCommentCounter
              (PostStatsRepo.update_comments
                { st with
                  comments := updateFirst (fun x => x.cid == cid)
                    (fun x => { x with deleted_at := none }) st.comments }
                c.post_id 1).2 pcid
              = commentCommentCounter st pcid := by
            rw [hps]
            unfold commentCommentCounter
            simp only
            rw [comment_count_map_updateFirst (fun x => x.cid == cid)
              (fun x => { x with deleted_at := none }) st.comments pcid
              (fun a => rfl) (fun a => rfl)]
          rw [hmid]
    · rw [hroot, hpar]
      have hmapcc := comment_count_map_updateFirst (fun x => x.cid == cid)
        (fun x => { x with deleted_at := none }) st.comments rcid
        (fun a => rfl) (fun a => rfl)
      rw [hfr] at hmapcc
      cases hfr2 : (updateFirst (fun x => x.cid == cid)
          (fun x => { x with deleted_at := none }) st.comments).find?
          (fun x => x.cid == rcid) with
      | none =>
          rw [hfr2] at hmapcc
          simp at hmapcc
      | some cr2 =>
          obtain ⟨ps, hps⟩ := update_comments_frame
            { st with
              comments := updateFirst (fun x => x.cid == cid)
                (fun x => { x with deleted_at := none }) st.comments } c.post_id 1
          have hfr3 : (CommentRepo.update_comment_count
              (PostStatsRepo.update_comments
                { st with
                  comments := updateFirst (fun x => x.cid == cid)
                    (fun x => { x with deleted_at := none }) st.comments }
                c.post_id 1).2 (some pcid) 1).2.comments.find?
              (fun x => x.cid == rcid) = some cr2 := by
            rw [comments_find?_update_comment_count_other _ pcid rcid 1 (Ne.symm hne)]
            rw [hps]
            exact hfr2
          rw [commentCommentCounter_update_comment_count _ rcid 1 cr2 hfr3]
          have hmid : commentCommentCounter
              (CommentRepo.update_comment_count
                (PostStatsRepo.update_comments
                  { st with
                    comments := updateFirst (fun x => x.cid == cid)
                      (fun x => { x with deleted_at := none }) st.comments }
                  c.post_id 1).2 (some pcid) 1).2 rcid
              = commentCommentCounter st rcid := by
            rw [commentCommentCounter_update_comment_count_other _ pcid rcid 1 (Ne.symm hne)]
            rw [hps]
            unfold commentCommentCounter
            simp only
            rw [comment_count_map_updateFirst (fun x => x.cid == cid)
              (fun x => { x with deleted_at := none }) st.comments rcid
              (fun a => rfl) (fun a => rfl)]
          rw [hmid]

/-- C7 witness: restoring the live comment 10 is rejected with no state
change; restoring the soft-deleted top-level comment 10 clears deleted_at and
adds its current comment_count back to the post counter; restoring the
soft-deleted second-level comment 11 adds 1 back to the post and parent
counters; restoring the soft-deleted third-level comment 12 adds 1 back to
the post, parent and root counters. -/
theorem C7_amended_restore_mirror_witness :
    (CommentSvc.restore_comment stRAB 10 = (.ok false, stRAB)) ∧
    (∃ st', CommentSvc.restore_comment delTop.2 10 = (.ok true, st') ∧
      (st'.comments.find? (fun x => x.cid == 10)).map (fun x => x.deleted_at)
        = some none ∧
      postCommentCounter st' (delTop.2.comments.get ⟨0, by decide⟩).post_id
        = max (postCommentCounter delTop.2
            (delTop.2.comments.get ⟨0, by decide⟩).post_id
          + (delTop.2.comments.get ⟨0, by decide⟩).comment_count) 0) ∧
    (∃ st', CommentSvc.restore_comment stDelA 11 = (.ok true, st') ∧
      (st'.comments.find? (fun x => x.cid == 11)).map (fun x => x.deleted_at)
        = some none ∧
      postCommentCounter st' (stDelA.comments.get ⟨1, by decide⟩).post_id
        = max (postCommentCounter stDelA
            (stDelA.comments.get ⟨1, by decide⟩).post_id + 1) 0 ∧
      commentCommentCounter st' 10
        = max (commentCommentCounter stDelA 10 + 1) 0) ∧
    (∃ st', CommentSvc.restore_comment stDelB 12 = (.ok true, st') ∧
      (st'.comments.find? (fun x => x.cid == 12)).map (fun x => x.deleted_at)
        = some none ∧
      postCommentCounter st' (stDelB.comments.get ⟨2, by decide⟩).post_id
        = max (postCommentCounter stDelB
            (stDelB.comments.get ⟨2, by decide⟩).post_id + 1) 0 ∧
      commentCommentCounter st' 11
        = max (commentCommentCounter stDelB 11 + 1) 0 ∧
      commentCommentCounter st' 10
        = max (commentCommentCounter stDelB 10 + 1) 0) :=
  ⟨C7_amended_restore_mirror.1 stRAB 10 (stRAB.comments.get ⟨0, by decide⟩)
      (by decide) (by decide) (by decide),
    C7_amended_restore_mirror.2.1 delTop.2 10 (delTop.2.comments.get ⟨0, by decide⟩)
      (((delTop.2.comments.get ⟨0, by decide⟩).deleted_at).getD 0) (by decide)
      (by decide) (by decide) (by decide) (by decide),
    C7_amended_restore_mirror.2.2.1 stDelA 11 (stDelA.comments.get ⟨1, by decide⟩)
      (((stDelA.comments.get ⟨1, by decide⟩).deleted_at).getD 0) 10
      (stDelA.comments.get ⟨0, by decide⟩)
      (by decide) (by decide) (by decide) (by decide) (by decide) (by decide),
    C7_amended_restore_mirror.2.2.2 stDelB 12 (stDelB.comments.get ⟨2, by decide⟩)
      (((stDelB.comments.get ⟨2, by decide⟩).deleted_at).getD 0) 11 10
      (stDelB.comments.get ⟨1, by decide⟩) (stDelB.comments.get ⟨0, by decide⟩)
      (by decide) (by decide) (by decide) (by decide) (by decide) (by decide)
      (by decide) (by decide)⟩

/-! Claim C6. -/

/-- C6: a review transition back to PENDING from any non-PENDING state fails
with InvalidTransition and leaves the state (hence review_status) unchanged;
any transition to a non-PENDING status passes the guard, updates
review_status, stamps reviewed_at and returns the updated comment — this
covers PENDING→APPROVED as well as the direct APPROVED↔REJECTED moves. -/
theorem C6_review_state_machine :
    (∀ (st : DB) (cid : Nat) (c : CommentRow),
        st.comments.find? (fun x => x.cid == cid) = some c →
        CommentRepo.hasContent st cid = true →
        c.review_status ≠ ReviewStatus.PENDING →
        CommentSvc.review_comment st cid ⟨some ReviewStatus.PENDING⟩
          = (.error .invalidReviewStatusTransition, st)) ∧
    (∀ (st : DB) (cid : Nat) (c : CommentRow) (rs : Nat),
        st.comments.find? (fun x => x.cid == cid) = some c →
        CommentRepo.hasContent st cid = true →
        rs ≠ ReviewStatus.PENDING →
        ∃ st', CommentSvc.review_comment st cid ⟨some rs⟩
          = (.ok { c with review_status := rs, reviewed_at := some st.clock }, st')) := by
  constructor
  · intro st cid c hfind hcontent hne
    have hc : c.cid = cid := by simpa using List.find?_some hfind
    unfold CommentSvc.review_comment CommentRepo.get_comment_by_cid_for_admin
    rw [hfind]
    simp [hc, hcontent, hne]
  · intro st cid c rs hfind hcontent hrs
    have hc : c.cid = cid := by simpa using List.find?_some hfind
    have hguard : (rs == ReviewStatus.PENDING) = false := by
      simpa using hrs
    unfold CommentSvc.review_comment CommentRepo.get_comment_by_cid_for_admin
      CommentRepo.update_review
    rw [hfind]
    have hupd := @find?_updateFirst_self _ (fun x => x.cid == cid)
      (fun x => { x with review_status := rs, reviewed_at := some st.clock })
      st.comments c hfind (by simpa using hc)
    refine ⟨{ st with
        comments := updateFirst (fun x => x.cid == cid)
          (fun x => { x with review_status := rs, reviewed_at := some st.clock })
          st.comments
        clock := st.clock + 1 }, ?_⟩
    simp only [hc, hcontent, if_true, hguard, Bool.false_and, Bool.false_eq_true,
      if_false, hfind, hupd]
    simp only [CommentRepo.hasContent] at hcontent
    simp [CommentRepo.hasContent, hcontent, hc]

/-- C6 witness: on the concrete thread, approving the PENDING comment 10
succeeds, and a subsequent move back to PENDING fails with InvalidTransition
leaving the state unchanged. -/
theorem C6_review_state_machine_witness :
    (∃ st', CommentSvc.review_comment stRAB 10 ⟨some ReviewStatus.APPROVED⟩
        = (.ok { (stRAB.comments.get ⟨0, by decide⟩) with
                  review_status := ReviewStatus.APPROVED,
                  reviewed_at := some stRAB.clock }, st')) ∧
    CommentSvc.review_comment (CommentSvc.review_comment stRAB 10
        ⟨some ReviewStatus.APPROVED⟩).2 10 ⟨some ReviewStatus.PENDING⟩
      = (.error .invalidReviewStatusTransition,
          (CommentSvc.review_comment stRAB 10 ⟨some ReviewStatus.APPROVED⟩).2) :=
  ⟨C6_review_state_machine.2 stRAB 10 (stRAB.comments.get ⟨0, by decide⟩)
      ReviewStatus.APPROVED (by decide) (by decide) (by decide),
    C6_review_state_machine.1 (CommentSvc.review_comment stRAB 10
        ⟨some ReviewStatus.APPROVED⟩).2 10
      (((CommentSvc.review_comment stRAB 10 ⟨some ReviewStatus.APPROVED⟩).2).comments.get
        ⟨0, by decide⟩) (by decide) (by decide) (by decide)⟩

/-! Claim C1. -/

/-- C1 counterexample: the exactness invariant is NOT restored by every
successful orchestrated operation.  Soft-deleting the top-level comment R of
the three-comment thread succeeds, decrements the post counter by R's own
comment_count (2) while soft-deleting only R itself, and leaves the post
counter at 1 although 2 comment rows (A and B) are still active. -/
theorem C1_counterexample :
    delTop.1 = .ok true ∧
    postCommentCounter delTop.2 50 = 1 ∧
    activePostComments delTop.2 50 = 2 := by decide

/-- C1 (amended): counter exactness is preserved pointwise by the ledger-backed
orchestrations and by the single-row comment operations — follow, unfollow,
like and unlike of a comment, createComment (post counter), and soft-delete /
restore of a NON-top-level comment (post counter).  Each conjunct says: if a
materialized counter equals its active-row count before the operation, the
operation succeeds and the equality still holds afterwards.  (Top-level
soft-delete/restore, excluded here, break the invariant: see the
counterexample.) -/
theorem C1_amended_counter_exactness :
    (∀ st a b ua ub w, UserRepo.get_user_by_uid st a = some ua →
        UserRepo.get_user_by_uid st b = some ub → a ≠ b →
        FollowRepo.is_following st a b = false →
        followingCounter st w = (activeFollowing st w : Int) →
        followersCounter st w = (activeFollowers st w : Int) →
        ∃ out stf, FollowSvc.follow_user st ⟨a, b⟩ = (.ok out, stf) ∧
          followingCounter stf w = (activeFollowing stf w : Int) ∧
          followersCounter stf w = (activeFollowers stf w : Int)) ∧
    (∀ st a b w, FollowRepo.is_following st a b = true →
        followingCounter st w = (activeFollowing st w : Int) →
        followersCounter st w = (activeFollowers st w : Int) →
        ∃ st2, FollowSvc.cancel_follow st ⟨a, b⟩ = (.ok true, st2) ∧
          followingCounter st2 w = (activeFollowing st2 w : Int) ∧
          followersCounter st2 w = (activeFollowers st2 w : Int)) ∧
    (∀ st u tid uu c w, UserRepo.get_user_by_uid st u = some uu →
        CommentRepo.get_comment_by_cid_for_user st tid = .ok (some c) →
        (∀ x, st.likes.find?
            (LikeRepo.tripleMatch ⟨u, LikeTargetType.COMMENT, tid⟩) = some x →
            x.deleted_at ≠ none) →
        commentLikeCounter st w = (activeCommentLikes st w : Int) →
        ∃ out stf, LikeSvc.like_target st ⟨u, LikeTargetType.COMMENT, tid⟩
            = (.ok out, stf) ∧
          commentLikeCounter stf w = (activeCommentLikes stf w : Int)) ∧
    (∀ st u tid uu x w, UserRepo.get_user_by_uid st u = some uu →
        st.likes.find?
            (LikeRepo.tripleMatch ⟨u, LikeTargetType.COMMENT, tid⟩) = some x →
        x.deleted_at = none →
        commentLikeCounter st w = (activeCommentLikes st w : Int) →
        ∃ out stf, LikeSvc.cancel_like st ⟨u, LikeTargetType.COMMENT, tid⟩
            = (.ok out, stf) ∧
          commentLikeCounter stf w = (activeCommentLikes stf w : Int)) ∧
    (∀ st data w, postCommentCounter st w = (activePostComments st w : Int) →
        postCommentCounter (CommentSvc.create_comment st data).2 w
          = (activePostComments (CommentSvc.create_comment st data).2 w : Int)) ∧
    (∀ st cid c p w, st.comments.find? (fun x => x.cid == cid) = some c →
        CommentRepo.hasContent st cid = true → c.parent_id = some p →
        c.deleted_at = none →
        postCommentCounter st w = (activePostComments st w : Int) →
        ∃ stf, CommentSvc.soft_delete_comment st cid = (.ok true, stf) ∧
          postCommentCounter stf w = (activePostComments stf w : Int)) ∧
    (∀ st cid c p t w, st.comments.find? (fun x => x.cid == cid) = some c →
        CommentRepo.hasContent st cid = true → c.parent_id = some p →
        c.deleted_at = some t →
        postCommentCounter st w = (activePostComments st w : Int) →
        ∃ stf, CommentSvc.restore_comment st cid = (.ok true, stf) ∧
          postCommentCounter stf w = (activePostComments stf w : Int)) :=
  ⟨fun st a b ua ub w h1 h2 h3 h4 h5 h6 =>
      follow_preserves_exactness st a b ua ub w h1 h2 h3 h4 h5 h6,
    fun st a b w h1 h2 h3 => unfollow_preserves_exactness st a b w h1 h2 h3,
    fun st u tid uu c w h1 h2 h3 h4 =>
      like_preserves_exactness st u tid uu c w h1 h2 h3 h4,
    fun st u tid uu x w h1 h2 h3 h4 =>
      unlike_preserves_exactness st u tid uu x w h1 h2 h3 h4,
    fun st data w h => create_preserves_post_exactness st data w h,
    fun st cid c p w h1 h2 h3 h4 h5 =>
      soft_delete_nontop_preserves_post_exactness st cid c p w h1 h2 h3 h4 h5,
    fun st cid c p t w h1 h2 h3 h4 h5 =>
      restore_nontop_preserves_post_exactness st cid c p t w h1 h2 h3 h4 h5⟩

/-- C1 witness: every conjunct of the amended exactness theorem applied at a
concrete reachable state, with the hypotheses discharged by evaluation. -/
theorem C1_amended_counter_exactness_witness :
    (FollowRepo.is_following baseDB 1 2 = false ∧
      (∃ out stf, FollowSvc.follow_user baseDB ⟨1, 2⟩ = (.ok out, stf) ∧
        followingCounter stf 1 = (activeFollowing stf 1 : Int) ∧
        followersCounter stf 1 = (activeFollowers stf 1 : Int))) ∧
    (FollowRepo.is_following stF 1 2 = true ∧
      (∃ st2, FollowSvc.cancel_follow stF ⟨1, 2⟩ = (.ok true, st2) ∧
        followingCounter st2 1 = (activeFollowing st2 1 : Int) ∧
        followersCounter st2 1 = (activeFollowers st2 1 : Int))) ∧
    (CommentRepo.get_comment_by_cid_for_user stRA 10
        = .ok (some (stRA.comments.get ⟨0, by decide⟩)) ∧
      (∃ out stf, LikeSvc.like_target stRA ⟨2, LikeTargetType.COMMENT, 10⟩
          = (.ok out, stf) ∧
        commentLikeCounter stf 10 = (activeCommentLikes stf 10 : Int))) ∧
    (stLiked.likes.find? (LikeRepo.tripleMatch ⟨2, LikeTargetType.COMMENT, 10⟩)
        = some (stLiked.likes.get ⟨0, by decide⟩) ∧
      (stLiked.likes.get ⟨0, by decide⟩).deleted_at = none ∧
      (∃ out stf, LikeSvc.cancel_like stLiked ⟨2, LikeTargetType.COMMENT, 10⟩
          = (.ok out, stf) ∧
        commentLikeCounter stf 10 = (activeCommentLikes stf 10 : Int))) ∧
    (postCommentCounter baseDB 50 = (activePostComments baseDB 50 : Int) ∧
      postCommentCounter (CommentSvc.create_comment baseDB ⟨50, 1, "r", none, none⟩).2 50
        = (activePostComments
            (CommentSvc.create_comment baseDB ⟨50, 1, "r", none, none⟩).2 50 : Int)) ∧
    (stRAB.comments.find? (fun x => x.cid == 11)
        = some (stRAB.comments.get ⟨1, by decide⟩) ∧
      (stRAB.comments.get ⟨1, by decide⟩).parent_id = some 10 ∧
      (∃ stf, CommentSvc.soft_delete_comment stRAB 11 = (.ok true, stf) ∧
        postCommentCounter stf 50 = (activePostComments stf 50 : Int))) ∧
    (stDelA.comments.find? (fun x => x.cid == 11)
        = some (stDelA.comments.get ⟨1, by decide⟩) ∧
      (stDelA.comments.get ⟨1, by decide⟩).deleted_at = some 103 ∧
      (∃ stf, CommentSvc.restore_comment stDelA 11 = (.ok true, stf) ∧
        postCommentCounter stf 50 = (activePostComments stf 50 : Int))) := by
  refine ⟨⟨by decide, ?_⟩, ⟨by decide, ?_⟩, ⟨by decide, ?_⟩, ⟨by decide, by decide, ?_⟩,
    ⟨by decide, ?_⟩, ⟨by decide, by decide, ?_⟩, ⟨by decide, by decide, ?_⟩⟩
  · exact C1_amended_counter_exactness.1 baseDB 1 2 ⟨1, none⟩ ⟨2, none⟩ 1
      (by decide) (by decide) (by decide) (by decide) (by decide) (by decide)
  · exact C1_amended_counter_exactness.2.1 stF 1 2 1 (by decide) (by decide) (by decide)
  · exact C1_amended_counter_exactness.2.2.1 stRA 2 10 ⟨2, none⟩
      (stRA.comments.get ⟨0, by decide⟩) 10 (by decide) (by decide)
      (by
        intro x hx
        rw [(by decide : stRA.likes.find?
          (LikeRepo.tripleMatch ⟨2, LikeTargetType.COMMENT, 10⟩) = none)] at hx
        exact Option.noConfusion hx)
      (by decide)
  · exact C1_amended_counter_exactness.2.2.2.1 stLiked 2 10 ⟨2, none⟩
      (stLiked.likes.get ⟨0, by decide⟩) 10 (by decide) (by decide) (by decide) (by decide)
  · exact C1_amended_counter_exactness.2.2.2.2.1 baseDB ⟨50, 1, "r", none, none⟩ 50
      (by decide)
  · exact C1_amended_counter_exactness.2.2.2.2.2.1 stRAB 11
      (stRAB.comments.get ⟨1, by decide⟩) 10 50 (by decide) (by decide) (by decide)
      (by decide) (by decide)
  · exact C1_amended_counter_exactness.2.2.2.2.2.2 stDelA 11
      (stDelA.comments.get ⟨1, by decide⟩) 10 103 50 (by decide) (by decide) (by decide)
      (by decide) (by decide)

/-! Claim C5. -/

/-- C5 counterexample: the subtree listing does not return every USER-visible
descendant.  In subDB the grandchild 12 is USER-visible and is a descendant of
10 in the thread (through the folded comment 11), yet getSubtree(10) returns
only comment 10: the traversal runs over the user-visible thread listing, so
visible descendants below an invisible intermediate are dropped. -/
theorem C5_counterexample :
    CommentRepo.userVisible (subDB.comments.get ⟨0, by decide⟩) = true ∧
    CommentRepo.userVisible (subDB.comments.get ⟨2, by decide⟩) = true ∧
    (subDB.comments.get ⟨2, by decide⟩).cid = 12 ∧
    InSubtree subDB.comments 10 12 ∧
    CommentSvc.get_comment_subtree_for_user subDB 10
      = .ok [subDB.comments.get ⟨0, by decide⟩] := by
  refine ⟨by decide, by decide, by decide, ?_, ?_⟩
  · have e1 : childEdge subDB.comments 10 11 :=
      ⟨subDB.comments.get ⟨1, by decide⟩, by decide, by decide, by decide⟩
    have e2 : childEdge subDB.comments 11 12 :=
      ⟨subDB.comments.get ⟨2, by decide⟩, by decide, by decide, by decide⟩
    exact Relation.ReflTransGen.head e1
      (Relation.ReflTransGen.head e2 Relation.ReflTransGen.refl)
  · set T : List CommentRow := [subDB.comments.get ⟨0, by decide⟩, subDB.comments.get ⟨2, by decide⟩] with hTdef
    have hloop : CommentSvc.subtreeLoop T [10] [] []
        = ([10], [subDB.comments.get ⟨0, by decide⟩]) := by
      rw [CommentSvc.subtreeLoop]
      rw [dif_neg (by decide)]
      split
      · rename_i hf
        exact absurd hf (by decide)
      · rename_i node2 hf
        rw [show List.find? (fun c => c.cid == 10) T
            = some (subDB.comments.get ⟨0, by decide⟩) from by decide] at hf
        injection hf with heq
        subst heq
        show CommentSvc.subtreeLoop T [] [10] [subDB.comments.get ⟨0, by decide⟩]
            = ([10], [subDB.comments.get ⟨0, by decide⟩])
        rw [CommentSvc.subtreeLoop]
    unfold CommentSvc.get_comment_subtree_for_user
    rw [show CommentRepo.get_comment_by_cid_for_user subDB 10
        = .ok (some (subDB.comments.get ⟨0, by decide⟩)) from by decide]
    simp only
    rw [show CommentRepo.list_comments_by_root_for_user subDB
        (match (subDB.comments.get ⟨0, by decide⟩).root_id with
          | some r => r | none => (subDB.comments.get ⟨0, by decide⟩).cid)
        = .ok T from by decide]
    simp only
    rw [hloop]
    decide

/-- C5 (amended): for a comment cid visible under USER scope whose thread
listing (USER-visible comments of the root, chronological) has no duplicate
ids and contains cid, getSubtree(cid) returns exactly cid and those thread
comments reachable from cid through parent_id chains WITHIN the visible
thread listing, as a sublist of the thread — i.e. in the thread's
chronological order, not traversal order.  Visible descendants whose parent
chain leaves the visible listing are not returned (see the counterexample). -/
theorem C5_amended_subtree_listing (st : DB) (cid : Nat) (cur : CommentRow)
    (thread : List CommentRow)
    (hcur : CommentRepo.get_comment_by_cid_for_user st cid = .ok (some cur))
    (hthread : CommentRepo.list_comments_by_root_for_user st
        (match cur.root_id with | some r => r | none => cur.cid) = .ok thread)
    (hnodup : (thread.map (fun c => c.cid)).Nodup)
    (hmem : (thread.find? (fun c => c.cid == cid)).isSome = true) :
    ∃ l, CommentSvc.get_comment_subtree_for_user st cid = .ok l ∧
      l.Sublist thread ∧
      (∀ c, c ∈ l ↔ c ∈ thread ∧ InSubtree thread cid c.cid) := by
  obtain ⟨row0, hrow0⟩ := Option.isSome_iff_exists.mp hmem
  have hrow0mem : row0 ∈ thread := List.mem_of_find?_eq_some hrow0
  have hrow0cid : row0.cid = cid := by simpa using List.find?_some hrow0
  have hnonempty : thread.isEmpty = false := by
    cases thread with
    | nil => rw [List.find?_nil] at hrow0; cases hrow0
    | cons a l => rfl
  have hnotnone : (thread.find? (fun c => c.cid == cid)).isNone = false := by
    rw [hrow0]
    rfl
  set L := (CommentSvc.subtreeLoop thread [cid] [] []).2 with hL
  have hprops := subtreeLoop_acc_props thread [cid] [] [] (by simp) (by simp) (by simp)
  have hmemchar := subtreeLoop_mem thread hnodup [cid] [] []
    (fun s hs => by
      have hscid : s = cid := by simpa using hs
      exact ⟨row0, hrow0mem, by rw [hrow0cid, hscid]⟩)
  have hchar : ∀ n, n ∈ L ↔ n ∈ thread ∧ InSubtree thread cid n.cid := by
    intro n
    rw [hL, hmemchar n]
    simp only [List.not_mem_nil, false_or, List.mem_singleton]
    constructor
    · rintro ⟨ht, s, hseq, _hnil, hr⟩
      subst hseq
      exact ⟨ht, avoidReach_nil_iff.mp hr⟩
    · rintro ⟨ht, hr⟩
      refine ⟨ht, cid, rfl, ?_, avoidReach_nil_iff.mpr hr⟩
      simp
  have hsvc : CommentSvc.get_comment_subtree_for_user st cid
      = .ok (L.insertionSort (fun a b =>
          (thread.map (fun c => c.cid)).indexOf a.cid
            ≤ (thread.map (fun c => c.cid)).indexOf b.cid)) := by
    unfold CommentSvc.get_comment_subtree_for_user
    rw [hcur]
    simp only
    rw [hthread]
    simp only [hnonempty, hnotnone, Bool.false_eq_true, if_false, hL]
  have hsort := insertionSort_eq_thread_filter thread L hnodup hprops.1 hprops.2
  refine ⟨_, hsvc, ?_, ?_⟩
  · rw [hsort]
    exact List.filter_sublist thread
  · intro c
    rw [hsort, List.mem_filter]
    constructor
    · rintro ⟨hct, hcc⟩
      have hcm : c.cid ∈ L.map (fun x => x.cid) := by simpa using hcc
      rcases List.mem_map.mp hcm with ⟨a, haL, hacid⟩
      rcases (hchar a).mp haL with ⟨haT, hains⟩
      rw [hacid] at hains
      exact ⟨hct, hains⟩
    · rintro ⟨hct, hins⟩
      refine ⟨hct, ?_⟩
      have hcL : c ∈ L := (hchar c).mpr ⟨hct, hins⟩
      simpa using List.mem_map.mpr ⟨c, hcL, rfl⟩

/-- C5 witness: the subtree of the second-level reply A (cid 11) in the
three-comment thread: the thread listing is [R, A, B], and the amended theorem
yields the listing's sublist consisting of A and its descendant B in
chronological order. -/
theorem C5_amended_subtree_listing_witness :
    (CommentRepo.get_comment_by_cid_for_user stRAB 11
        = .ok (some (stRAB.comments.get ⟨1, by decide⟩)) ∧
      CommentRepo.list_comments_by_root_for_user stRAB 10
        = .ok [stRAB.comments.get ⟨0, by decide⟩, stRAB.comments.get ⟨1, by decide⟩,
            stRAB.comments.get ⟨2, by decide⟩]) ∧
    (∃ l, CommentSvc.get_comment_subtree_for_user stRAB 11 = .ok l ∧
      l.Sublist [stRAB.comments.get ⟨0, by decide⟩, stRAB.comments.get ⟨1, by decide⟩,
          stRAB.comments.get ⟨2, by decide⟩] ∧
      (∀ c, c ∈ l ↔ c ∈ [stRAB.comments.get ⟨0, by decide⟩,
            stRAB.comments.get ⟨1, by decide⟩, stRAB.comments.get ⟨2, by decide⟩] ∧
          InSubtree [stRAB.comments.get ⟨0, by decide⟩, stRAB.comments.get ⟨1, by decide⟩,
            stRAB.comments.get ⟨2, by decide⟩] 11 c.cid)) :=
  ⟨⟨by decide, by decide⟩,
    C5_amended_subtree_listing stRAB 11 (stRAB.comments.get ⟨1, by decide⟩)
      [stRAB.comments.get ⟨0, by decide⟩, stRAB.comments.get ⟨1, by decide⟩,
        stRAB.comments.get ⟨2, by decide⟩]
      (by decide) (by decide) (by decide) (by decide)⟩

end ForumHub
